import Mathlib

/-!
Verification development for the tree-sitter MCP server's task-dispatch core
(`src/workers/worker-pool.ts`) and tiered caching / grammar resolution core
(`src/tree-sitter-service.ts`).

The worker pool is modelled as an explicit state machine: every handler of the
TypeScript class (`executeRequest`, `getNextWorker`, `processQueue`,
`sendToWorker`, the per-worker `message`/`error`/`exit` listeners, the timeout
closure and `shutdown`) becomes a pure state-transition function that also
emits a list of observable events (sends to workers, continuation
resolutions/rejections, worker terminations and spawns).  JavaScript runs each
event-loop callback to completion, so one transition per callback is a faithful
concurrency model.  Asynchronous worker start-up (`createWorker` resolving on
the READY message) is split into a synchronous `spawn` part and a separate
`workerReady` transition.

Conventions carried through the model:
* request ids are `String` (uuid v4 in the source), worker ids are `Nat`
  (`nextWorkerId++` in the source);
* `pendingRequests` (a JS `Map`, iterated in insertion order) is an
  insertion-ordered association list; `requestQueue` is a plain list;
* armed `setTimeout` handles are a list of timer records `(requestId,
  workerId)` capturing what the timeout closure captured;
* reading a field of `undefined` (possible in `getNextWorker` when the
  round-robin index runs past the array after a `splice`) is modelled as an
  explicit `crashed` outcome, since in JS it throws a `TypeError`;
* the `initialize()` path of `executeRequest` (pool lazily started on first
  submission) is not unfolded: transitions assume the pool has been started,
  which the trace-level theorems record as a validity condition on actions.
-/

namespace TsMcp

/-- Pool construction options (`WorkerPoolOptions`, worker-pool.ts lines 684-689,
after the defaults of the constructor have been applied). -/
structure WorkerPoolOptions where
  poolSize : Nat
  workerTimeout : Nat
  maxRequestsPerWorker : Nat
  restartOnError : Bool
deriving Repr, DecidableEq

/-- Per-worker bookkeeping record (`WorkerInfo`, worker-pool.ts lines 30-39).
The `worker : Worker` thread handle is identified by `id`. -/
structure WorkerInfo where
  id : Nat
  busy : Bool
  activeRequest : Option String
  requestCount : Nat
  errorCount : Nat
  lastError : Option String
  startTime : Nat
deriving Repr, DecidableEq

/-- A stored pending request (`PendingRequest`, worker-pool.ts lines 691-698).
The `resolve`/`reject` continuations are modelled as emitted events keyed by
`id`; the armed `timeout` handle lives in `PoolState.timers`. -/
structure PendingReq where
  id : String
  startTime : Nat
deriving Repr, DecidableEq

/-- An armed per-request timeout (`setTimeout` in `sendToWorker`, lines
287-300).  The closure captured the pending request and the worker record. -/
structure TimerRec where
  rid : String
  wid : Nat
deriving Repr, DecidableEq

/-- Which error class a rejection carries (worker-pool.ts error types,
lines 701-720, plus the two `WorkerPoolError` messages used by `shutdown`
and the TypeError that an out-of-range array read raises). -/
inductive RejectKind where
  | timeout
  | crashed
  | workerError
  | shuttingDown
  | shutDown
  | jsTypeError
deriving Repr, DecidableEq

/-- Observable events of the dispatcher: a request payload posted to a worker,
a worker emitting a response message, a stored continuation being invoked
(resolve or reject), a worker being terminated, a replacement spawn starting. -/
inductive PoolEvent where
  | send (wid : Nat) (rid : String)
  | workerResponded (wid : Nat)
  | fulfilled (rid : String)
  | rejected (rid : String) (kind : RejectKind)
  | terminated (wid : Nat)
  | spawned (wid : Nat)
deriving Repr, DecidableEq

/-- The dispatcher state (fields of class `WorkerPool`, worker-pool.ts lines
41-50). -/
structure PoolState where
  workers : List WorkerInfo
  pendingRequests : List PendingReq
  requestQueue : List PendingReq
  timers : List TimerRec
  spawning : List Nat
  nextWorkerId : Nat
  currentWorkerIndex : Nat
  isShuttingDown : Bool
  opts : WorkerPoolOptions
deriving Repr, DecidableEq

/-- Update the worker record with the given id (mutation of the shared
`WorkerInfo` object in the source). -/
def updateWorker (ws : List WorkerInfo) (wid : Nat) (f : WorkerInfo → WorkerInfo) :
    List WorkerInfo :=
  ws.map fun w => if w.id = wid then f w else w

/-- Remove the first worker record with the given id
(`findIndex` + `splice(index, 1)` in the source). -/
def removeWorker : List WorkerInfo → Nat → List WorkerInfo
  | [], _ => []
  | w :: rest, wid => if w.id = wid then rest else w :: removeWorker rest wid

/-- Cancel every armed timer for a request id (`clearTimeout(request.timeout)`;
at most one timer per request is ever armed). -/
def clearTimersFor (ts : List TimerRec) (rid : String) : List TimerRec :=
  ts.filter fun t => !(t.rid == rid)

/-- Delete a request from the pending map (`pendingRequests.delete(id)`). -/
def removePending (ps : List PendingReq) (rid : String) : List PendingReq :=
  ps.filter fun p => !(p.id == rid)

/-- Look a request up in the pending map (`pendingRequests.get(id)`). -/
def findPending (ps : List PendingReq) (rid : String) : Option PendingReq :=
  ps.find? fun p => p.id == rid

/-- The synchronous half of `createWorker` (lines 84-90): allocate
`nextWorkerId++` and start a worker thread.  The new record joins
`workers` only when the READY message arrives (`workerReadyStep`). -/
def createWorkerStart (s : PoolState) : PoolState × List PoolEvent :=
  let wid := s.nextWorkerId
  ({ s with nextWorkerId := wid + 1, spawning := s.spawning ++ [wid] },
   [PoolEvent.spawned wid])

/-- The synchronous part of `restartWorker` (lines 249-265): find the record,
splice it out, terminate the thread, begin creating a replacement.  When the
record is not in the pool any more the function returns without doing
anything (line 251). -/
def restartWorkerSync (s : PoolState) (wid : Nat) : PoolState × List PoolEvent :=
  if s.workers.any (fun w => w.id == wid) then
    let s1 := { s with workers := removeWorker s.workers wid }
    let r := createWorkerStart s1
    (r.1, PoolEvent.terminated wid :: r.2)
  else (s, [])

/-- Outcome of `getNextWorker` (lines 220-247): a worker id, `null`, or a
thrown `TypeError` (reading `.busy` of `undefined` when the round-robin index
has run past the array after a `splice`). -/
inductive GNWOut where
  | found (wid : Nat)
  | exhausted
  | crashed
deriving Repr, DecidableEq

/-- Line 229 of the source: advance the round-robin index modulo the current
pool size. -/
def bumpIndex (s : PoolState) : PoolState :=
  { s with currentWorkerIndex := (s.currentWorkerIndex + 1) % s.workers.length }

/-- The round-robin scan of `getNextWorker` (lines 226-244).  `fuel` bounds the
recursion; since `attempts` grows by one per iteration and the pool never grows
during the scan, `s.workers.length + 1` units of fuel always suffice to
reproduce the source's `while (attempts < this.workers.length)` loop.
Note the source reads `this.workers[this.currentWorkerIndex]` (line 228)
before reducing the index modulo the (possibly already shrunk) length
(line 229), so the read can be out of range: that is the `crashed` outcome,
reached only after the index update that line 229 performed. -/
def getNextWorkerLoop (s : PoolState) (attempts : Nat) :
    Nat → GNWOut × PoolState × List PoolEvent
  | 0 => (GNWOut.exhausted, s, [])
  | fuel + 1 =>
    if attempts < s.workers.length then
      match s.workers[s.currentWorkerIndex]? with
      | none => (GNWOut.crashed, bumpIndex s, [])
      | some w =>
        if w.busy then
          getNextWorkerLoop (bumpIndex s) (attempts + 1) fuel
        else if s.opts.maxRequestsPerWorker ≤ w.requestCount then
          let r := restartWorkerSync (bumpIndex s) w.id
          let r2 := getNextWorkerLoop r.1 (attempts + 1) fuel
          (r2.1, r2.2.1, r.2 ++ r2.2.2)
        else
          (GNWOut.found w.id, bumpIndex s, [])
    else (GNWOut.exhausted, s, [])

/-- `getNextWorker` (lines 220-247). -/
def getNextWorker (s : PoolState) : GNWOut × PoolState × List PoolEvent :=
  getNextWorkerLoop s 0 (s.workers.length + 1)

/-- `sendToWorker` (lines 281-304): mark the worker busy, record the active
request, bump its request counter, arm the per-request timeout and post the
payload to the worker thread. -/
def sendToWorker (s : PoolState) (wid : Nat) (preq : PendingReq) :
    PoolState × List PoolEvent :=
  ({ s with
      workers := updateWorker s.workers wid fun w =>
        { w with busy := true, activeRequest := some preq.id,
                 requestCount := w.requestCount + 1 },
      timers := s.timers ++ [⟨preq.id, wid⟩] },
   [PoolEvent.send wid preq.id])

/-- The `while` loop of `processQueue` (lines 267-279).  The boolean is `false`
when a `TypeError` escaped from `getNextWorker` (aborting the drain).  `fuel`
set to the queue length reproduces the loop: each completed iteration
dequeues exactly one request. -/
def processQueueLoop (s : PoolState) : Nat → Bool × PoolState × List PoolEvent
  | 0 => (true, s, [])
  | fuel + 1 =>
    if s.requestQueue.isEmpty then (true, s, [])
    else
      let g := getNextWorker s
      match g.1 with
      | GNWOut.crashed => (false, g.2.1, g.2.2)
      | GNWOut.exhausted => (true, g.2.1, g.2.2)
      | GNWOut.found wid =>
        match g.2.1.requestQueue with
        | [] => (true, g.2.1, g.2.2)
        | preq :: rest =>
          let s2 := { g.2.1 with requestQueue := rest }
          let r := sendToWorker s2 wid preq
          let r2 := processQueueLoop r.1 fuel
          (r2.1, r2.2.1, g.2.2 ++ r.2 ++ r2.2.2)

/-- `processQueue` (lines 267-279). -/
def processQueue (s : PoolState) : Bool × PoolState × List PoolEvent :=
  processQueueLoop s s.requestQueue.length

/-- Whether `executeRequest` accepted the request (stored a continuation) or
failed fast with the pool-closed error (line 308). -/
inductive SubmitResult where
  | accepted
  | poolClosed
deriving Repr, DecidableEq

/-- `executeRequest` (lines 306-336) for an already-started pool: register the
pending request, try to assign a worker immediately, otherwise append to the
overflow queue.  When `getNextWorker` throws the `TypeError`, the `Promise`
executor rethrows and the promise is rejected, but the entry just placed in
`pendingRequests` stays there. -/
def executeRequest (s : PoolState) (rid : String) (now : Nat) :
    SubmitResult × PoolState × List PoolEvent :=
  if s.isShuttingDown then (SubmitResult.poolClosed, s, [])
  else
    let preq : PendingReq := ⟨rid, now⟩
    let s1 := { s with pendingRequests := s.pendingRequests ++ [preq] }
    let r := getNextWorker s1
    match r.1 with
    | GNWOut.found wid =>
      let r2 := sendToWorker r.2.1 wid preq
      (SubmitResult.accepted, r2.1, r.2.2 ++ r2.2)
    | GNWOut.exhausted =>
      (SubmitResult.accepted,
       { r.2.1 with requestQueue := r.2.1.requestQueue ++ [preq] }, r.2.2)
    | GNWOut.crashed =>
      (SubmitResult.accepted, r.2.1, r.2.2 ++ [PoolEvent.rejected rid RejectKind.jsTypeError])

/-- The per-worker `message` listener for SUCCESS/ERROR responses (lines
102-136): look the pending request up (ignoring unknown ids), clear its
timeout, remove it, mark the responding worker idle, invoke the stored
continuation, then drain the overflow queue. -/
def handleWorkerMessage (s : PoolState) (wid : Nat) (rid : String)
    (success : Bool) : PoolState × List PoolEvent :=
  match findPending s.pendingRequests rid with
  | none => (s, [PoolEvent.workerResponded wid])
  | some _ =>
    let s1 := { s with
        timers := clearTimersFor s.timers rid,
        pendingRequests := removePending s.pendingRequests rid,
        workers := updateWorker s.workers wid fun w =>
          { w with busy := false, activeRequest := none } }
    let done : PoolEvent :=
      if success then PoolEvent.fulfilled rid
      else PoolEvent.rejected rid RejectKind.workerError
    let r := processQueue s1
    (r.2.1, PoolEvent.workerResponded wid :: done :: r.2.2)

/-- The armed timeout closure firing (lines 287-300): drop the pending entry,
mark the captured worker record idle, reject with the timeout error and — only
when `restartOnError` is set — terminate and replace the unresponsive
worker. -/
def timeoutFireStep (s : PoolState) (t : TimerRec) : PoolState × List PoolEvent :=
  let s1 := { s with
      timers := s.timers.erase t,
      pendingRequests := removePending s.pendingRequests t.rid,
      workers := updateWorker s.workers t.wid fun w =>
        { w with busy := false, activeRequest := none } }
  let ev := PoolEvent.rejected t.rid RejectKind.timeout
  if s1.opts.restartOnError then
    let r := restartWorkerSync s1 t.wid
    (r.1, ev :: r.2)
  else (s1, [ev])

/-- The per-worker `exit` listener (lines 155-182): splice the record out of
the pool, reject the pending request the worker was bound to (if any), then
evaluate the restart condition.  The source checks
`this.workers.includes(workerInfo)` (line 176) after the splice already
removed the record, so the model reproduces that literally: membership is
tested in the post-splice pool. -/
def workerExitStep (s : PoolState) (wid : Nat) : PoolState × List PoolEvent :=
  let active : Option String :=
    match s.workers.find? (fun w => w.id == wid) with
    | some w => w.activeRequest
    | none => none
  let s1 := { s with workers := removeWorker s.workers wid }
  let (s2, evs) :=
    match active with
    | some rid =>
      match findPending s1.pendingRequests rid with
      | some _ =>
        ({ s1 with pendingRequests := removePending s1.pendingRequests rid,
                   timers := clearTimersFor s1.timers rid },
         [PoolEvent.rejected rid RejectKind.crashed])
      | none => (s1, [])
    | none => (s1, [])
  if s2.opts.restartOnError && !s2.isShuttingDown
      && s2.workers.any (fun w => w.id == wid) then
    let r := createWorkerStart s2
    (r.1, evs ++ r.2)
  else (s2, evs)

/-- The per-worker `error` listener for a worker already in the pool (lines
139-152) followed by `handleWorkerError` (lines 197-218): bump the error
counter, reject the active request with a crash error, mark the worker idle,
and terminate the worker thread once its error count exceeds 5 (the record is
only removed later, by its `exit` event). -/
def workerErrorStep (s : PoolState) (wid : Nat) (msg : String) :
    PoolState × List PoolEvent :=
  let s1 := { s with workers := updateWorker s.workers wid fun w =>
      { w with errorCount := w.errorCount + 1, lastError := some msg } }
  let active : Option String :=
    match s1.workers.find? (fun w => w.id == wid) with
    | some w => w.activeRequest
    | none => none
  let (s2, evs) :=
    match active with
    | some rid =>
      match findPending s1.pendingRequests rid with
      | some _ =>
        ({ s1 with pendingRequests := removePending s1.pendingRequests rid,
                   timers := clearTimersFor s1.timers rid },
         [PoolEvent.rejected rid RejectKind.crashed])
      | none => (s1, [])
    | none => (s1, [])
  let s3 := { s2 with workers := updateWorker s2.workers wid fun w =>
      { w with busy := false, activeRequest := none } }
  let ec : Nat :=
    match s3.workers.find? (fun w => w.id == wid) with
    | some w => w.errorCount
    | none => 0
  if 5 < ec then (s3, evs ++ [PoolEvent.terminated wid]) else (s3, evs)

/-- A spawned worker's READY message arriving (lines 102-107): push a fresh
record into the pool. -/
def workerReadyStep (s : PoolState) (wid : Nat) (now : Nat) :
    PoolState × List PoolEvent :=
  if s.spawning.contains wid then
    ({ s with spawning := s.spawning.erase wid,
              workers := s.workers ++ [⟨wid, false, none, 0, 0, none, now⟩] },
     [])
  else (s, [])

/-- The synchronous opening of `shutdown` (lines 428-438): raise the flag,
reject everything in the overflow queue with the pool-shutting-down error and
empty the queue.  (`clearTimeout` is also called per queued entry; queued
requests have no armed timer.) -/
def shutdownBeginStep (s : PoolState) : PoolState × List PoolEvent :=
  let s1 := { s with isShuttingDown := true }
  let evs := s1.requestQueue.map fun q =>
    PoolEvent.rejected q.id RejectKind.shuttingDown
  ({ s1 with requestQueue := [],
             timers := s1.timers.filter fun t =>
               !(s1.requestQueue.any fun q => q.id == t.rid) },
   evs)

/-- The closing sweep of `shutdown` after the bounded grace wait (lines
448-466): clear the timeout of and force-reject every request still in the
pending map, then terminate every worker and clear the pool. -/
def shutdownFinishStep (s : PoolState) : PoolState × List PoolEvent :=
  let evs1 := s.pendingRequests.map fun p =>
    PoolEvent.rejected p.id RejectKind.shutDown
  let s1 := { s with pendingRequests := [],
                     timers := s.timers.filter fun t =>
                       !(s.pendingRequests.any fun p => p.id == t.rid) }
  let evs2 := s1.workers.map fun w => PoolEvent.terminated w.id
  (({ s1 with workers := [] } : PoolState), evs1 ++ evs2)

/-- `shutdown` run with no interleaved worker responses during the grace wait
(lines 428-466): the queue-clearing pass followed by the final sweep. -/
def shutdownRun (s : PoolState) : PoolState × List PoolEvent :=
  let r := shutdownBeginStep s
  let r2 := shutdownFinishStep r.1
  (r2.1, r.2 ++ r2.2)

/-- One event-loop callback hitting the dispatcher. -/
inductive PoolAction where
  | submit (rid : String) (now : Nat)
  | respond (wid : Nat) (rid : String) (success : Bool)
  | timerFires (t : TimerRec)
  | workerExit (wid : Nat)
  | workerError (wid : Nat) (msg : String)
  | workerReady (wid : Nat) (now : Nat)
  | shutdownBegin
  | shutdownFinish
deriving Repr, DecidableEq

/-- Dispatch one callback to its transition function. -/
def poolStep (s : PoolState) (a : PoolAction) : PoolState × List PoolEvent :=
  match a with
  | PoolAction.submit rid now => (executeRequest s rid now).2
  | PoolAction.respond wid rid success => handleWorkerMessage s wid rid success
  | PoolAction.timerFires t => timeoutFireStep s t
  | PoolAction.workerExit wid => workerExitStep s wid
  | PoolAction.workerError wid msg => workerErrorStep s wid msg
  | PoolAction.workerReady wid now => workerReadyStep s wid now
  | PoolAction.shutdownBegin => shutdownBeginStep s
  | PoolAction.shutdownFinish => shutdownFinishStep s

/-- Run a whole sequence of callbacks, concatenating the emitted events. -/
def execTrace (s : PoolState) : List PoolAction → PoolState × List PoolEvent
  | [] => (s, [])
  | a :: as =>
    let r := poolStep s a
    let r2 := execTrace r.1 as
    (r2.1, r.2 ++ r2.2)

/-- A freshly initialized pool of `n` ready, idle workers (the state after
`initialize()` resolved). -/
def initPool (n : Nat) (opts : WorkerPoolOptions) : PoolState :=
  { workers := (List.range n).map fun i => ⟨i, false, none, 0, 0, none, 0⟩,
    pendingRequests := [], requestQueue := [], timers := [], spawning := [],
    nextWorkerId := n, currentWorkerIndex := 0, isShuttingDown := false,
    opts := opts }

/-!  Analysis of emitted event streams. -/

/-- Update a per-worker outstanding-request counter by one event: a `send`
hands the worker one more request, a response discharges one. -/
def applyEv (out : Nat → Nat) : PoolEvent → Nat → Nat
  | PoolEvent.send wid _ => fun i => if i = wid then out i + 1 else out i
  | PoolEvent.workerResponded wid => fun i => if i = wid then out i - 1 else out i
  | _ => out

/-- Outstanding requests per worker after a stream of events, starting from
`out`. -/
def outAfter (out : Nat → Nat) : List PoolEvent → Nat → Nat
  | [] => out
  | e :: es => outAfter (applyEv out e) es

/-- Outstanding requests per worker over a whole stream. -/
def outCount (evs : List PoolEvent) : Nat → Nat :=
  outAfter (fun _ => 0) evs

/-- Scans a stream for a `send` issued to a worker that still has an
outstanding request (one forwarded earlier with no response yet), starting
from per-worker counters `out`. -/
def noSecondSendFrom (out : Nat → Nat) : List PoolEvent → Bool
  | [] => true
  | e :: es =>
    match e with
    | PoolEvent.send wid _ =>
      decide (out wid = 0) && noSecondSendFrom (applyEv out e) es
    | _ => noSecondSendFrom (applyEv out e) es

/-- The mutual-exclusion observable of claim C5: no request is ever forwarded
to a worker while a previously forwarded one is still unanswered. -/
def noSecondSend (evs : List PoolEvent) : Bool :=
  noSecondSendFrom (fun _ => 0) evs

/-- Whether an event invokes the stored continuation of request `rid`. -/
def isCompletionFor (rid : String) : PoolEvent → Bool
  | PoolEvent.fulfilled r => r == rid
  | PoolEvent.rejected r _ => r == rid
  | _ => false

/-- How many times the continuation of `rid` was invoked in a stream. -/
def completionCount (evs : List PoolEvent) (rid : String) : Nat :=
  evs.countP (isCompletionFor rid)

/-- How many replacement spawns a stream contains. -/
def spawnCount (evs : List PoolEvent) : Nat :=
  evs.countP fun e =>
    match e with
    | PoolEvent.spawned _ => true
    | _ => false

/-- How many worker terminations a stream contains. -/
def terminateCount (evs : List PoolEvent) : Nat :=
  evs.countP fun e =>
    match e with
    | PoolEvent.terminated _ => true
    | _ => false

/-- The request ids of the `send` events of a stream, in order. -/
def sendRids (evs : List PoolEvent) : List String :=
  evs.filterMap fun e =>
    match e with
    | PoolEvent.send _ rid => some rid
    | _ => none

/-- Events that neither send work nor answer nor complete anything. -/
def isNeutralEv : PoolEvent → Bool
  | PoolEvent.terminated _ => true
  | PoolEvent.spawned _ => true
  | _ => false

/-!  Environment validity of callbacks, and the safe-trace discipline. -/

/-- When a callback can actually occur: a submission carries a fresh uuid and
finds the pool started (or is turned away by the shutdown flag before
touching it); a worker responds only to the request currently forwarded to it
(its timer is armed); a timer fires only while armed; an `error` event comes
from a live worker; READY comes from a spawning worker; the final shutdown
sweep runs only after shutdown began. -/
def actionValid (s : PoolState) : PoolAction → Prop
  | PoolAction.submit rid _ =>
    (s.isShuttingDown = true ∨ s.workers ≠ []) ∧
    (∀ p ∈ s.pendingRequests, p.id ≠ rid) ∧
    (∀ q ∈ s.requestQueue, q.id ≠ rid)
  | PoolAction.respond wid rid _ => TimerRec.mk rid wid ∈ s.timers
  | PoolAction.timerFires t => t ∈ s.timers
  | PoolAction.workerExit _ => True
  | PoolAction.workerError wid _ => ∃ w ∈ s.workers, w.id = wid
  | PoolAction.workerReady wid _ => wid ∈ s.spawning
  | PoolAction.shutdownBegin => True
  | PoolAction.shutdownFinish => s.isShuttingDown = true

/-- The two callbacks that clear a worker's busy flag without the worker
having produced a response: a request timeout firing and a worker-level
`error` event. -/
def clearsWithoutResponse : PoolAction → Bool
  | PoolAction.timerFires _ => true
  | PoolAction.workerError _ _ => true
  | _ => false

/-- A valid callback that is not one of the two busy-clearing-without-response
callbacks. -/
def safeAction (s : PoolState) (a : PoolAction) : Prop :=
  actionValid s a ∧ clearsWithoutResponse a = false

/-- A run of valid callbacks avoiding timeout expiry and worker `error`
events. -/
inductive SafeTrace : PoolState → List PoolAction → Prop
  | nil (s : PoolState) : SafeTrace s []
  | cons (s : PoolState) (a : PoolAction) (as : List PoolAction) :
      safeAction s a → SafeTrace (poolStep s a).1 as → SafeTrace s (a :: as)

/-!
Model of `TreeSitterService` (src/tree-sitter-service.ts): the three
`lru-cache` tiers, the URL security policy, the grammar resolution fallback
chain and the parse/tree-cache path.

The external `web-tree-sitter` capability is abstracted: a compiled-parser
handle is a `Nat` tag, a parsed tree is the `Nat` value of a ghost counter of
`parser.parse` invocations (so two results are the same tree value exactly
when no new parse happened), and grammar bytes are `List Nat`.  File-system
and network access are a `FetchWorld` of oracle functions, and every
attempted fetch or file read is recorded as a `NetEvent`.
-/

/-- One stored entry of an `lru-cache` store: key, value, the size that
`sizeCalculation` reported at insertion, and the time of the last age
refresh (`updateAgeOnGet`/`updateAgeOnHas` are `true` on all three tiers). -/
structure LruEntry (α : Type) where
  key : String
  value : α
  size : Nat
  start : Nat
deriving Repr, DecidableEq

/-- An `lru-cache` store.  `entries` is kept most-recently-used first.
`maxCount` models the `max` option (entry-count bound), `maxSize` the
`maxSize` option (total-size bound); `ttl` is in milliseconds.  An entry is
stale when `now - start > ttl`, matching `lru-cache`'s `isStale`. -/
structure LruCache (α : Type) where
  entries : List (LruEntry α)
  maxCount : Option Nat
  maxSize : Option Nat
  ttl : Nat
deriving Repr, DecidableEq

/-- Total `calculatedSize` of a store. -/
def lruTotalSize {α : Type} (es : List (LruEntry α)) : Nat :=
  (es.map LruEntry.size).sum

/-- Whether the store currently exceeds one of its bounds. -/
def lruOverBound {α : Type} (c : LruCache α) (es : List (LruEntry α)) : Bool :=
  (match c.maxCount with
   | some m => decide (m < es.length)
   | none => false) ||
  (match c.maxSize with
   | some m => decide (m < lruTotalSize es)
   | none => false)

/-- Evict least-recently-used entries (the back of the list) until the bounds
hold again. -/
def lruEvictLoop {α : Type} (c : LruCache α) (es : List (LruEntry α)) :
    Nat → List (LruEntry α)
  | 0 => es
  | fuel + 1 => if lruOverBound c es then lruEvictLoop c es.dropLast fuel else es

/-- `cache.get(key)`: a fresh entry is returned and its recency and age are
refreshed; a stale entry is deleted and reported as absent. -/
def LruCache.get {α : Type} (c : LruCache α) (k : String) (now : Nat) :
    Option α × LruCache α :=
  match c.entries.find? (fun e => e.key == k) with
  | none => (none, c)
  | some e =>
    if c.ttl < now - e.start then
      (none, { c with entries := c.entries.filter fun e2 => !(e2.key == k) })
    else
      (some e.value,
       { c with entries :=
          { e with start := now } :: c.entries.filter fun e2 => !(e2.key == k) })

/-- `cache.has(key)` with `updateAgeOnHas`: a fresh entry reports `true` and
is refreshed; a stale one reports `false`. -/
def LruCache.hasKey {α : Type} (c : LruCache α) (k : String) (now : Nat) :
    Bool × LruCache α :=
  match c.entries.find? (fun e => e.key == k) with
  | none => (false, c)
  | some e =>
    if c.ttl < now - e.start then (false, c)
    else
      (true,
       { c with entries :=
          { e with start := now } :: c.entries.filter fun e2 => !(e2.key == k) })

/-- `cache.set(key, value)`: insert at the most-recent end (replacing any
entry with the same key) and evict from the least-recent end while a bound is
exceeded. -/
def LruCache.set {α : Type} (c : LruCache α) (k : String) (v : α) (sz : Nat)
    (now : Nat) : LruCache α :=
  let es := (⟨k, v, sz, now⟩ : LruEntry α) ::
    c.entries.filter fun e => !(e.key == k)
  { c with entries := lruEvictLoop c es es.length }

/-- `cache.delete(key)`. -/
def LruCache.deleteKey {α : Type} (c : LruCache α) (k : String) : LruCache α :=
  { c with entries := c.entries.filter fun e => !(e.key == k) }

/-- `cache.clear()`. -/
def LruCache.clearAll {α : Type} (c : LruCache α) : LruCache α :=
  { c with entries := [] }

/-- A hit/miss statistics pair (`parserCacheStats` etc., lines 89-91). -/
structure HitMiss where
  hits : Nat
  misses : Nat
deriving Repr, DecidableEq

/-- A tree-cache value (`TreeCache`, lines 53-56): the tree handle plus the
exact source text it was parsed from. -/
structure TreeEntry where
  tree : Nat
  code : String
deriving Repr, DecidableEq

/-- The `TreeSitterService` state (fields, lines 80-97).  `inited` is the
`initialized` flag; `parsersCreated` tags compiled-parser handles and
`parseCalls` counts `parser.parse` invocations (ghost counters identifying
the opaque external objects). -/
structure ServiceState where
  inited : Bool
  parserCache : LruCache Nat
  wasmBytesCache : LruCache (List Nat)
  treeCache : LruCache TreeEntry
  parserCacheStats : HitMiss
  wasmCacheStats : HitMiss
  treeCacheStats : HitMiss
  parsersCreated : Nat
  parseCalls : Nat
deriving Repr, DecidableEq

/-- The service as built by the constructor (lines 107-143): parser tier max
10 entries / 1 h TTL, wasm-bytes tier max 50 MB total / 24 h TTL, tree tier
max 100 entries / 1 min TTL, all counters zero. -/
def newService : ServiceState :=
  { inited := false,
    parserCache := ⟨[], some 10, none, 1000 * 60 * 60⟩,
    wasmBytesCache := ⟨[], none, some (50 * 1024 * 1024), 1000 * 60 * 60 * 24⟩,
    treeCache := ⟨[], some 100, none, 1000 * 60⟩,
    parserCacheStats := ⟨0, 0⟩,
    wasmCacheStats := ⟨0, 0⟩,
    treeCacheStats := ⟨0, 0⟩,
    parsersCreated := 0,
    parseCalls := 0 }

/-- The fixed allow-list of WASM distribution hosts (lines 100-105). -/
def allowedHosts : List String :=
  ["cdn.jsdelivr.net", "unpkg.com", "github.com", "raw.githubusercontent.com"]

/-- Character-list test of whether `cs` begins with `marker` (the standard
library's byte-position `String.startsWith` does not reduce inside the
kernel, so the string functions of this model work on character lists). -/
def listBeginsWith : List Char → List Char → Bool
  | _, [] => true
  | [], _ :: _ => false
  | a :: as, b :: bs => decide (a = b) && listBeginsWith as bs

/-- `String.startsWith` over character lists. -/
def strBeginsWith (s pre : String) : Bool :=
  listBeginsWith s.data pre.data

/-- The suffix after the first occurrence of `marker`, when there is one. -/
def afterFirst (marker : List Char) : List Char → Option (List Char)
  | [] => none
  | c :: cs =>
    if listBeginsWith (c :: cs) marker then some ((c :: cs).drop marker.length)
    else afterFirst marker cs

/-- The scheme of a URL as WHATWG `URL.protocol` reports it (scheme plus a
trailing colon).  Only ever applied to strings beginning with "http://" or
"https://", where taking the text before the first colon is exact. -/
def urlProtocol (url : String) : String :=
  ⟨url.data.takeWhile fun c => !(c == ':')⟩ ++ ":"

/-- The host of a URL as WHATWG `URL.hostname` reports it: the text after
"://" up to the first path, port, query or fragment delimiter.  (Lower-casing
is omitted; every URL the service builds is already lower-case.) -/
def urlHostname (url : String) : String :=
  match afterFirst "://".data url.data with
  | some rest =>
    ⟨rest.takeWhile fun c => !(c == '/' || c == ':' || c == '?' || c == '#')⟩
  | none => ""

/-- Structured stand-ins for the error strings the service throws. -/
inductive LoadErr where
  | securityScheme (url : String)
  | securityHost (url : String)
  | fileNotFound (pathStr : String)
  | httpFail (url : String)
  | fetchAborted (url : String)
  | langNotLoadable (languageId : String)
  | invalidLanguageId (languageId : String)
deriving Repr, DecidableEq

/-- `validateWasmUrl` (lines 173-185): the scheme must be exactly `https:`
and the hostname must be in the allow-list. -/
def validateWasmUrl (url : String) : Except LoadErr Unit :=
  if !(urlProtocol url == "https:") then Except.error (LoadErr.securityScheme url)
  else if !(allowedHosts.contains (urlHostname url)) then
    Except.error (LoadErr.securityHost url)
  else Except.ok ()

/-- Whether an error is one of the two security rejections. -/
def isSecurityLoadErr : LoadErr → Bool
  | LoadErr.securityScheme _ => true
  | LoadErr.securityHost _ => true
  | _ => false

/-- Whether a security error was the outcome. -/
def isSecurityErr {α : Type} : Except LoadErr α → Bool
  | Except.error e => isSecurityLoadErr e
  | _ => false

/-- Whether a recorded attempt failed for a security reason. -/
def isSecurityCause : Option LoadErr → Bool
  | some e => isSecurityLoadErr e
  | none => false

/-- The file-system / network oracle: which local files exist and what they
contain, and which fetches succeed and what they return. -/
structure FetchWorld where
  fileExists : String → Bool
  fileBytes : String → List Nat
  fetchOk : String → Bool
  fetchBytes : String → List Nat

/-- Observable I/O of grammar resolution: a network fetch being issued, or a
local file read. -/
inductive NetEvent where
  | fetchAttempt (url : String)
  | fileRead (pathStr : String)
deriving Repr, DecidableEq

/-- A recorded load attempt (`loadAttempts` entries, line 268). -/
structure LoadAttempt where
  source : String
  error : Option LoadErr
deriving Repr, DecidableEq

/-- Whether the candidate string is routed to the URL branch
(`pathItem.startsWith('http://') || pathItem.startsWith('https://')`,
lines 276 and 318); anything else is treated as a local file path. -/
def isUrlCandidate (c : String) : Bool :=
  strBeginsWith c "http://" || strBeginsWith c "https://"

/-- Load from an explicit `wasmPath` (lines 273-311).  A URL candidate is
security-validated and then always fetched (this branch consults the bytes
cache only to write, line 287); a local candidate is existence-checked, then
served from the bytes cache or read from disk.  Errors abort the load (the
surrounding catch rethrows them wrapped). -/
def loadCustomPath (w : FetchWorld) (s : ServiceState) (now : Nat)
    (wasmPath : String) :
    Except LoadErr (List Nat) × ServiceState × List LoadAttempt × List NetEvent :=
  if isUrlCandidate wasmPath then
    match validateWasmUrl wasmPath with
    | Except.error e =>
      (Except.error e, s, [⟨"Custom path: " ++ wasmPath, some e⟩], [])
    | Except.ok _ =>
      if w.fetchOk wasmPath then
        let bytes := w.fetchBytes wasmPath
        let s1 := { s with wasmBytesCache :=
          s.wasmBytesCache.set wasmPath bytes bytes.length now }
        (Except.ok bytes, s1, [⟨"Custom URL: " ++ wasmPath, none⟩],
         [NetEvent.fetchAttempt wasmPath])
      else
        (Except.error (LoadErr.httpFail wasmPath), s,
         [⟨"Custom path: " ++ wasmPath, some (LoadErr.httpFail wasmPath)⟩],
         [NetEvent.fetchAttempt wasmPath])
  else
    if w.fileExists wasmPath then
      match s.wasmBytesCache.get wasmPath now with
      | (some bytes, wc) =>
        let s1 := { s with
          wasmBytesCache := wc,
          wasmCacheStats :=
            { s.wasmCacheStats with hits := s.wasmCacheStats.hits + 1 } }
        (Except.ok bytes, s1, [⟨"Custom file: " ++ wasmPath, none⟩], [])
      | (none, wc) =>
        let bytes := w.fileBytes wasmPath
        let s1 := { s with
          wasmBytesCache := wc.set wasmPath bytes bytes.length now,
          wasmCacheStats :=
            { s.wasmCacheStats with misses := s.wasmCacheStats.misses + 1 } }
        (Except.ok bytes, s1, [⟨"Custom file: " ++ wasmPath, none⟩],
         [NetEvent.fileRead wasmPath])
    else
      (Except.error (LoadErr.fileNotFound wasmPath), s,
       [⟨"Custom path: " ++ wasmPath, some (LoadErr.fileNotFound wasmPath)⟩], [])

/-- One iteration of the fallback loop (lines 316-389) on a single candidate.
A URL candidate failing `validateWasmUrl` is recorded and skipped with no
fetch; an allowed URL is fetched (recording the attempt), and on success the
bytes cache is consulted before the response body is used (lines 345-354); a
local candidate is existence-checked and then served from cache or disk. -/
def tryCandidate (w : FetchWorld) (s : ServiceState) (now : Nat) (c : String) :
    Option (List Nat) × ServiceState × LoadAttempt × List NetEvent :=
  if isUrlCandidate c then
    match validateWasmUrl c with
    | Except.error e => (none, s, ⟨"CDN: " ++ c, some e⟩, [])
    | Except.ok _ =>
      if w.fetchOk c then
        match s.wasmBytesCache.get c now with
        | (some bytes, wc) =>
          (some bytes,
           { s with
             wasmBytesCache := wc,
             wasmCacheStats :=
               { s.wasmCacheStats with hits := s.wasmCacheStats.hits + 1 } },
           ⟨"CDN: " ++ c, none⟩, [NetEvent.fetchAttempt c])
        | (none, wc) =>
          let bytes := w.fetchBytes c
          (some bytes,
           { s with
             wasmBytesCache := wc.set c bytes bytes.length now,
             wasmCacheStats :=
               { s.wasmCacheStats with misses := s.wasmCacheStats.misses + 1 } },
           ⟨"CDN: " ++ c, none⟩, [NetEvent.fetchAttempt c])
      else
        (none, s, ⟨"CDN: " ++ c, some (LoadErr.httpFail c)⟩,
         [NetEvent.fetchAttempt c])
  else
    if w.fileExists c then
      match s.wasmBytesCache.get c now with
      | (some bytes, wc) =>
        (some bytes,
         { s with
           wasmBytesCache := wc,
           wasmCacheStats :=
             { s.wasmCacheStats with hits := s.wasmCacheStats.hits + 1 } },
         ⟨"Local: " ++ c, none⟩, [])
      | (none, wc) =>
        let bytes := w.fileBytes c
        (some bytes,
         { s with
           wasmBytesCache := wc.set c bytes bytes.length now,
           wasmCacheStats :=
             { s.wasmCacheStats with misses := s.wasmCacheStats.misses + 1 } },
         ⟨"Local: " ++ c, none⟩, [NetEvent.fileRead c])
    else
      (none, s, ⟨"Local: " ++ c, some (LoadErr.fileNotFound c)⟩, [])

/-- The fallback loop over the candidate list (lines 316-389): candidates are
attempted strictly in order, every failure is recorded with its cause and the
first success breaks out of the loop. -/
def loadViaFallback (w : FetchWorld) (s : ServiceState) (now : Nat) :
    List String → Option (List Nat) × ServiceState × List LoadAttempt × List NetEvent
  | [] => (none, s, [], [])
  | c :: cs =>
    let t := tryCandidate w s now c
    match t.1 with
    | some bytes => (some bytes, t.2.1, [t.2.2.1], t.2.2.2)
    | none =>
      let r := loadViaFallback w t.2.1 now cs
      (r.1, r.2.1, t.2.2.1 :: r.2.2.1, t.2.2.2 ++ r.2.2.2)

/-- Whether a candidate would succeed against the oracle (independent of the
cache state: success is decided by the security check plus the oracle). -/
def candidateSucceeds (w : FetchWorld) (c : String) : Bool :=
  if isUrlCandidate c then
    (match validateWasmUrl c with
     | Except.ok _ => w.fetchOk c
     | Except.error _ => false)
  else w.fileExists c

/-- Append one path segment, resolving `.` and `..` the way Node's
`path.join` normalization does for the absolute base directories used here. -/
def addSeg (acc : List String) (seg : String) : List String :=
  if seg == "." then acc
  else if seg == ".." then acc.dropLast
  else acc ++ [seg]

/-- Split a character list on a separator character. -/
def splitOnChar (sep : Char) : List Char → List (List Char)
  | [] => [[]]
  | c :: cs =>
    let r := splitOnChar sep cs
    if c = sep then [] :: r
    else
      match r with
      | [] => [[c]]
      | h :: t => (c :: h) :: t

/-- `path.join` for the call shapes in `getCommonLanguagePaths`: split every
part on `/`, drop empty segments, normalize `.`/`..`, and keep the leading
slash of an absolute first part. -/
def joinPath (parts : List String) : String :=
  let segs := (parts.map fun p =>
    ((splitOnChar '/' p.data).map fun cs => (⟨cs⟩ : String)).filter fun seg =>
      !(seg == "")).flatten
  let normed := segs.foldl addSeg []
  let isAbs := match parts with
    | p :: _ => strBeginsWith p "/"
    | [] => false
  (if isAbs then "/" else "") ++ ⟨(List.intercalate "/".data (normed.map String.data))⟩

/-- The `languageMap` of special naming cases (lines 453-456). -/
def languageMapLookup (languageId : String) : Option String :=
  if languageId == "c_sharp" then some "c-sharp"
  else if languageId == "c-sharp" then some "c_sharp"
  else none

/-- The bundled-distribution path of a language inside `tree-sitter-wasms`
relative to a base directory. -/
def bundledWasmPath (base : String) (extra : List String) (lang : String) : String :=
  joinPath (base :: extra ++
    ["node_modules", "tree-sitter-wasms", "out", "tree-sitter-" ++ lang ++ ".wasm"])

/-- `getCommonLanguagePaths` (lines 422-467), parameterized by `__dirname`
and `process.cwd()`.  Note the source pushes the alternate-naming bundled
paths onto `paths` only after the project-local paths are already there
(lines 436-440 against 458-464), and appends the CDN URLs last. -/
def getCommonLanguagePaths (dirname cwd languageId : String) : List String :=
  let bundledPath := bundledWasmPath dirname [".."] languageId
  let cwdBundledPath := bundledWasmPath cwd [] languageId
  let paths1 := [bundledPath] ++
    (if !(cwdBundledPath == bundledPath) then [cwdBundledPath] else [])
  let paths2 := paths1 ++
    ["./tree-sitter-" ++ languageId ++ ".wasm",
     "./grammars/" ++ languageId ++ ".wasm",
     "./node_modules/tree-sitter-" ++ languageId ++ "/tree-sitter-" ++
       languageId ++ ".wasm"]
  let cdnPaths :=
    ["https://cdn.jsdelivr.net/npm/tree-sitter-" ++ languageId ++
       "@latest/tree-sitter-" ++ languageId ++ ".wasm",
     "https://unpkg.com/tree-sitter-" ++ languageId ++ "/tree-sitter-" ++
       languageId ++ ".wasm",
     "https://github.com/jeff-hykin/common_tree_sitter_languages/raw/main/" ++
       languageId ++ ".wasm"]
  let paths3 :=
    match languageMapLookup languageId with
    | some altName =>
      paths2 ++ [bundledWasmPath dirname [".."] altName,
                 bundledWasmPath cwd [] altName]
    | none => paths2
  paths3 ++ cdnPaths

/-- The character class of the Zod language-id refinement (lines 146-158). -/
def isAllowedIdChar (ch : Char) : Bool :=
  (('a' ≤ ch) && (ch ≤ 'z')) || (('A' ≤ ch) && (ch ≤ 'Z')) ||
  (('0' ≤ ch) && (ch ≤ '9')) || ch == '_' || ch == '-'

/-- The Zod language-id schema (lines 146-158): length in 1..50 and only
alphanumerics, underscores and hyphens. -/
def languageIdOk (languageId : String) : Bool :=
  1 ≤ languageId.length && languageId.length ≤ 50 &&
    languageId.toList.all isAllowedIdChar

/-- Result of `loadLanguage`: outcome, final state, recorded attempts and
observable I/O. -/
structure LoadResult where
  outcome : Except LoadErr Unit
  state : ServiceState
  attempts : List LoadAttempt
  events : List NetEvent

/-- `loadLanguage` (lines 248-420): validate the id, consult the compiled
parser cache under `languageId:wasmPath-or-default`, and on a miss resolve the
grammar either from the explicit source or through the fallback chain, then
compile and cache a parser for it. -/
def loadLanguage (w : FetchWorld) (s0 : ServiceState) (now : Nat)
    (dirname cwd languageId : String) (wasmPath : Option String) : LoadResult :=
  let s := { s0 with inited := true }
  if !(languageIdOk languageId) then
    ⟨Except.error (LoadErr.invalidLanguageId languageId), s, [], []⟩
  else
    let cacheKey := languageId ++ ":" ++ (wasmPath.getD "default")
    let (cachedAlready, pc) := s.parserCache.hasKey cacheKey now
    let s := { s with parserCache := pc }
    if cachedAlready then
      ⟨Except.ok (),
       { s with parserCacheStats :=
          { s.parserCacheStats with hits := s.parserCacheStats.hits + 1 } },
       [], []⟩
    else
      let s := { s with parserCacheStats :=
        { s.parserCacheStats with misses := s.parserCacheStats.misses + 1 } }
      match wasmPath with
      | some p =>
        match loadCustomPath w s now p with
        | (Except.error e, s1, atts, evs) => ⟨Except.error e, s1, atts, evs⟩
        | (Except.ok _bytes, s1, atts, evs) =>
          let handle := s1.parsersCreated
          let s2 := { s1 with
            parsersCreated := s1.parsersCreated + 1,
            parserCache := s1.parserCache.set cacheKey handle 1 now }
          ⟨Except.ok (), s2, atts, evs⟩
      | none =>
        let candidates := getCommonLanguagePaths dirname cwd languageId
        match loadViaFallback w s now candidates with
        | (some _bytes, s1, atts, evs) =>
          let handle := s1.parsersCreated
          let s2 := { s1 with
            parsersCreated := s1.parsersCreated + 1,
            parserCache := s1.parserCache.set cacheKey handle 1 now }
          ⟨Except.ok (), s2, atts, evs⟩
        | (none, s1, atts, evs) =>
          ⟨Except.error (LoadErr.langNotLoadable languageId), s1, atts, evs⟩

/-- The tree-cache key `languageId:code` (lines 188 and 208). -/
def treeCacheKey (languageId code : String) : String :=
  languageId ++ ":" ++ code

/-- `getCachedTree` (lines 187-205): look the pair up, count a miss on
absence or on the extra code-mismatch safety check (deleting the entry), and
a hit otherwise. -/
def getCachedTree (s : ServiceState) (now : Nat) (code languageId : String) :
    Option Nat × ServiceState :=
  let cacheKey := treeCacheKey languageId code
  let g := s.treeCache.get cacheKey now
  match g.1 with
  | none =>
    (none, { s with
      treeCache := g.2,
      treeCacheStats :=
        { s.treeCacheStats with misses := s.treeCacheStats.misses + 1 } })
  | some cached =>
    if !(cached.code == code) then
      (none, { s with
        treeCache := g.2.deleteKey cacheKey,
        treeCacheStats :=
          { s.treeCacheStats with misses := s.treeCacheStats.misses + 1 } })
    else
      (some cached.tree, { s with
        treeCache := g.2,
        treeCacheStats :=
          { s.treeCacheStats with hits := s.treeCacheStats.hits + 1 } })

/-- `setCachedTree` (lines 207-213). -/
def setCachedTree (s : ServiceState) (now : Nat) (code languageId : String)
    (tree : Nat) : ServiceState :=
  { s with treeCache :=
      s.treeCache.set (treeCacheKey languageId code) ⟨tree, code⟩ 1 now }

/-- The error of `parseWithCache` when no parser is cached for the language. -/
inductive ParseErr where
  | notLoaded (languageId : String)
deriving Repr, DecidableEq

/-- `parseWithCache` (lines 215-235): serve from the tree cache, otherwise
fetch the compiled parser (under `languageId` or `languageId:default`), parse
— modelled as drawing a fresh tree tag from the `parseCalls` counter — and
cache the result. -/
def parseWithCache (s : ServiceState) (now : Nat) (code languageId : String) :
    Except ParseErr (Nat × ServiceState) :=
  let g := getCachedTree s now code languageId
  match g.1 with
  | some t => Except.ok (t, g.2)
  | none =>
    let q1 := g.2.parserCache.get languageId now
    let pe : Option Nat :=
      match q1.1 with
      | some handle => some handle
      | none => (q1.2.get (languageId ++ ":default") now).1
    let s2 : ServiceState :=
      match q1.1 with
      | some _ => { g.2 with parserCache := q1.2 }
      | none => { g.2 with parserCache := (q1.2.get (languageId ++ ":default") now).2 }
    match pe with
    | none => Except.error (ParseErr.notLoaded languageId)
    | some _handle =>
      let tree := s2.parseCalls
      let s3 := { s2 with parseCalls := s2.parseCalls + 1 }
      Except.ok (tree, setCachedTree s3 now code languageId tree)

/-- The compiled-parser lookup of `parseWithCache` (line 220):
`this.parserCache.get(languageId) || this.parserCache.get(languageId +
":default")` — try the bare language id first, then fall back to the
`languageId:default` key that `loadLanguage` uses when no explicit wasm path
was given. -/
def lookupParser (c : LruCache Nat) (languageId : String) (now : Nat) :
    Option Nat × LruCache Nat :=
  let q1 := c.get languageId now
  match q1.1 with
  | some h => (some h, q1.2)
  | none => q1.2.get (languageId ++ ":default") now

/-- `clearCache` (lines 589-598): clear all three tiers and reset every
statistics pair. -/
def clearCache (s : ServiceState) : ServiceState :=
  { s with
    parserCache := s.parserCache.clearAll,
    wasmBytesCache := s.wasmBytesCache.clearAll,
    treeCache := s.treeCache.clearAll,
    parserCacheStats := ⟨0, 0⟩,
    wasmCacheStats := ⟨0, 0⟩,
    treeCacheStats := ⟨0, 0⟩ }

/-- One tier of the `getCacheStats` report (lines 58-78). -/
structure TierStats where
  size : Nat
  hits : Nat
  misses : Nat
  hitRate : ℚ
deriving Repr, DecidableEq

/-- The wasm tier additionally reports its accumulated byte size. -/
structure WasmTierStats where
  size : Nat
  sizeInBytes : Nat
  hits : Nat
  misses : Nat
  hitRate : ℚ
deriving Repr, DecidableEq

/-- The full `getCacheStats` report (lines 58-78). -/
structure CacheStatsModel where
  parserTier : TierStats
  wasmTier : WasmTierStats
  treeTier : TierStats
deriving Repr, DecidableEq

/-- `calculateHitRate` (lines 604-607): percentage, zero when no lookups. -/
def calcHitRate (st : HitMiss) : ℚ :=
  if 0 < st.hits + st.misses then
    ((st.hits : ℚ) / ((st.hits : ℚ) + (st.misses : ℚ))) * 100
  else 0

/-- `getCacheStats` (lines 603-630). -/
def getCacheStats (s : ServiceState) : CacheStatsModel :=
  { parserTier :=
      ⟨s.parserCache.entries.length, s.parserCacheStats.hits,
       s.parserCacheStats.misses, calcHitRate s.parserCacheStats⟩,
    wasmTier :=
      ⟨s.wasmBytesCache.entries.length, lruTotalSize s.wasmBytesCache.entries,
       s.wasmCacheStats.hits, s.wasmCacheStats.misses,
       calcHitRate s.wasmCacheStats⟩,
    treeTier :=
      ⟨s.treeCache.entries.length, s.treeCacheStats.hits,
       s.treeCacheStats.misses, calcHitRate s.treeCacheStats⟩ }

/-!  Helper lemmas about the list operations of the pool model. -/

theorem mem_of_mem_removeWorker {ws : List WorkerInfo} {wid : Nat}
    {x : WorkerInfo} (h : x ∈ removeWorker ws wid) : x ∈ ws := by
  induction ws with
  | nil => simp [removeWorker] at h
  | cons w rest ih =>
    simp only [removeWorker] at h
    by_cases hw : w.id = wid
    · simp only [hw, if_pos rfl] at h
      exact List.mem_cons_of_mem _ h
    · rw [if_neg hw] at h
      rcases List.mem_cons.1 h with h1 | h1
      · exact h1 ▸ List.mem_cons_self _ _
      · exact List.mem_cons_of_mem _ (ih h1)

theorem removeWorker_sublist (ws : List WorkerInfo) (wid : Nat) :
    List.Sublist (removeWorker ws wid) ws := by
  induction ws with
  | nil => simp [removeWorker]
  | cons w rest ih =>
    simp only [removeWorker]
    by_cases hw : w.id = wid
    · rw [if_pos hw]
      exact List.sublist_cons_self _ _
    · rw [if_neg hw]
      exact List.Sublist.cons₂ _ ih

theorem removeWorker_length {ws : List WorkerInfo} {wid : Nat}
    (h : ∃ w ∈ ws, w.id = wid) : (removeWorker ws wid).length + 1 = ws.length := by
  induction ws with
  | nil => rcases h with ⟨w, hw, _⟩; simp at hw
  | cons w rest ih =>
    simp only [removeWorker]
    by_cases hw : w.id = wid
    · rw [if_pos hw]; simp
    · rw [if_neg hw]
      rcases h with ⟨w2, hw2, hid2⟩
      rcases List.mem_cons.1 hw2 with h1 | h1
      · exact absurd (h1 ▸ hid2) hw
      · simp only [List.length_cons]
        rw [← ih ⟨w2, h1, hid2⟩]

theorem mem_removeWorker_of_ne {ws : List WorkerInfo} {wid : Nat}
    {x : WorkerInfo} (hx : x ∈ ws) (hne : x.id ≠ wid) :
    x ∈ removeWorker ws wid := by
  induction ws with
  | nil => simp at hx
  | cons w rest ih =>
    simp only [removeWorker]
    rcases List.mem_cons.1 hx with h1 | h1
    · subst h1
      rw [if_neg hne]
      exact List.mem_cons_self _ _
    · by_cases hw : w.id = wid
      · rw [if_pos hw]; exact h1
      · rw [if_neg hw]; exact List.mem_cons_of_mem _ (ih h1)

theorem updateWorker_length (ws : List WorkerInfo) (wid : Nat)
    (f : WorkerInfo → WorkerInfo) : (updateWorker ws wid f).length = ws.length := by
  simp [updateWorker]

theorem mem_updateWorker {ws : List WorkerInfo} {wid : Nat}
    {f : WorkerInfo → WorkerInfo} {x : WorkerInfo} (h : x ∈ updateWorker ws wid f) :
    ∃ w ∈ ws, x = if w.id = wid then f w else w := by
  rcases List.mem_map.1 h with ⟨w, hw, hx⟩
  exact ⟨w, hw, hx.symm⟩

theorem updateWorker_map_id (ws : List WorkerInfo) (wid : Nat)
    (f : WorkerInfo → WorkerInfo) (hf : ∀ w, (f w).id = w.id) :
    (updateWorker ws wid f).map WorkerInfo.id = ws.map WorkerInfo.id := by
  simp only [updateWorker, List.map_map]
  apply List.map_congr_left
  intro w _
  by_cases hw : w.id = wid <;> simp [hw, hf]

theorem workers_any_id {ws : List WorkerInfo} {wid : Nat} :
    ws.any (fun w => w.id == wid) = true ↔ ∃ w ∈ ws, w.id = wid := by
  simp [List.any_eq_true]

/-!  Helper lemmas about event streams. -/

theorem outAfter_append (out : Nat → Nat) (l1 l2 : List PoolEvent) :
    outAfter out (l1 ++ l2) = outAfter (outAfter out l1) l2 := by
  induction l1 generalizing out with
  | nil => rfl
  | cons e es ih =>
    simp only [List.cons_append, outAfter, List.append_eq, ih]

theorem noSecondSendFrom_append (out : Nat → Nat) (l1 l2 : List PoolEvent) :
    noSecondSendFrom out (l1 ++ l2) =
      (noSecondSendFrom out l1 && noSecondSendFrom (outAfter out l1) l2) := by
  induction l1 generalizing out with
  | nil => simp [noSecondSendFrom, outAfter]
  | cons e es ih =>
    cases e <;>
      simp only [List.cons_append, noSecondSendFrom, outAfter, List.append_eq,
        ih, Bool.and_assoc]

theorem outAfter_neutral (out : Nat → Nat) (evs : List PoolEvent)
    (h : ∀ e ∈ evs, isNeutralEv e = true) : outAfter out evs = out := by
  induction evs generalizing out with
  | nil => rfl
  | cons e es ih =>
    have he := h e (List.mem_cons_self _ _)
    have hrest : ∀ e2 ∈ es, isNeutralEv e2 = true :=
      fun e2 h2 => h e2 (List.mem_cons_of_mem _ h2)
    cases e <;> simp_all [isNeutralEv, outAfter, applyEv]

theorem noSecondSendFrom_neutral (out : Nat → Nat) (evs : List PoolEvent)
    (h : ∀ e ∈ evs, isNeutralEv e = true) : noSecondSendFrom out evs = true := by
  induction evs generalizing out with
  | nil => rfl
  | cons e es ih =>
    have he := h e (List.mem_cons_self _ _)
    have hrest : ∀ e2 ∈ es, isNeutralEv e2 = true :=
      fun e2 h2 => h e2 (List.mem_cons_of_mem _ h2)
    cases e <;> simp_all [isNeutralEv, noSecondSendFrom]

theorem sendRids_append (l1 l2 : List PoolEvent) :
    sendRids (l1 ++ l2) = sendRids l1 ++ sendRids l2 := by
  simp [sendRids]

theorem sendRids_neutral (evs : List PoolEvent)
    (h : ∀ e ∈ evs, isNeutralEv e = true) : sendRids evs = [] := by
  induction evs with
  | nil => rfl
  | cons e es ih =>
    have he := h e (List.mem_cons_self _ _)
    have hrest : ∀ e2 ∈ es, isNeutralEv e2 = true :=
      fun e2 h2 => h e2 (List.mem_cons_of_mem _ h2)
    cases e <;> simp_all [isNeutralEv, sendRids]

/-!  Frame and progress lemmas for the round-robin scan. -/

theorem restartWorkerSync_frame (s : PoolState) (wid : Nat) :
    (restartWorkerSync s wid).1.pendingRequests = s.pendingRequests ∧
    (restartWorkerSync s wid).1.requestQueue = s.requestQueue ∧
    (restartWorkerSync s wid).1.timers = s.timers ∧
    (restartWorkerSync s wid).1.isShuttingDown = s.isShuttingDown ∧
    (restartWorkerSync s wid).1.opts = s.opts ∧
    (∀ e ∈ (restartWorkerSync s wid).2, isNeutralEv e = true) ∧
    (∀ x ∈ (restartWorkerSync s wid).1.workers, x ∈ s.workers) := by
  simp only [restartWorkerSync]
  split
  · refine ⟨rfl, rfl, rfl, rfl, rfl, ?_, ?_⟩
    · intro e he
      simp only [createWorkerStart] at he
      rcases List.mem_cons.1 he with h1 | h1
      · simp [h1, isNeutralEv]
      · simp only [List.mem_singleton] at h1
        simp [h1, isNeutralEv]
    · intro x hx
      simp only [createWorkerStart] at hx
      exact mem_of_mem_removeWorker hx
  · exact ⟨rfl, rfl, rfl, rfl, rfl, by simp, fun x hx => hx⟩

theorem gnwLoop_eq_stop (s : PoolState) (attempts fuel : Nat)
    (h : ¬ attempts < s.workers.length) :
    getNextWorkerLoop s attempts (fuel + 1) = (GNWOut.exhausted, s, []) := by
  simp only [getNextWorkerLoop, if_neg h]

theorem gnwLoop_eq_crash (s : PoolState) (attempts fuel : Nat)
    (hlt : attempts < s.workers.length)
    (hidx : s.workers[s.currentWorkerIndex]? = none) :
    getNextWorkerLoop s attempts (fuel + 1) = (GNWOut.crashed, bumpIndex s, []) := by
  simp only [getNextWorkerLoop, if_pos hlt, hidx]

theorem gnwLoop_eq_busy (s : PoolState) (attempts fuel : Nat) (w : WorkerInfo)
    (hlt : attempts < s.workers.length)
    (hidx : s.workers[s.currentWorkerIndex]? = some w) (hbusy : w.busy = true) :
    getNextWorkerLoop s attempts (fuel + 1) =
      getNextWorkerLoop (bumpIndex s) (attempts + 1) fuel := by
  simp only [getNextWorkerLoop, if_pos hlt, hidx, hbusy, if_true]

theorem gnwLoop_eq_recycle (s : PoolState) (attempts fuel : Nat) (w : WorkerInfo)
    (hlt : attempts < s.workers.length)
    (hidx : s.workers[s.currentWorkerIndex]? = some w) (hbusy : w.busy = false)
    (hq : s.opts.maxRequestsPerWorker ≤ w.requestCount) :
    getNextWorkerLoop s attempts (fuel + 1) =
      ((getNextWorkerLoop (restartWorkerSync (bumpIndex s) w.id).1
          (attempts + 1) fuel).1,
       (getNextWorkerLoop (restartWorkerSync (bumpIndex s) w.id).1
          (attempts + 1) fuel).2.1,
       (restartWorkerSync (bumpIndex s) w.id).2 ++
         (getNextWorkerLoop (restartWorkerSync (bumpIndex s) w.id).1
            (attempts + 1) fuel).2.2) := by
  simp only [getNextWorkerLoop, if_pos hlt, hidx, hbusy, if_pos hq, Bool.false_eq_true,
    if_false]

theorem gnwLoop_eq_found (s : PoolState) (attempts fuel : Nat) (w : WorkerInfo)
    (hlt : attempts < s.workers.length)
    (hidx : s.workers[s.currentWorkerIndex]? = some w) (hbusy : w.busy = false)
    (hq : ¬ s.opts.maxRequestsPerWorker ≤ w.requestCount) :
    getNextWorkerLoop s attempts (fuel + 1) = (GNWOut.found w.id, bumpIndex s, []) := by
  simp only [getNextWorkerLoop, if_pos hlt, hidx, hbusy, if_neg hq, Bool.false_eq_true,
    if_false]

theorem gnwLoop_frame (fuel : Nat) : ∀ (s : PoolState) (attempts : Nat),
    (getNextWorkerLoop s attempts fuel).2.1.pendingRequests = s.pendingRequests ∧
    (getNextWorkerLoop s attempts fuel).2.1.requestQueue = s.requestQueue ∧
    (getNextWorkerLoop s attempts fuel).2.1.timers = s.timers ∧
    (getNextWorkerLoop s attempts fuel).2.1.isShuttingDown = s.isShuttingDown ∧
    (getNextWorkerLoop s attempts fuel).2.1.opts = s.opts ∧
    (∀ e ∈ (getNextWorkerLoop s attempts fuel).2.2, isNeutralEv e = true) ∧
    (∀ x ∈ (getNextWorkerLoop s attempts fuel).2.1.workers, x ∈ s.workers) := by
  induction fuel with
  | zero =>
    exact fun s attempts =>
      ⟨rfl, rfl, rfl, rfl, rfl, by simp [getNextWorkerLoop], fun x hx => hx⟩
  | succ fuel ih =>
    intro s attempts
    by_cases hlt : attempts < s.workers.length
    · cases hidx : s.workers[s.currentWorkerIndex]? with
      | none =>
        rw [gnwLoop_eq_crash s attempts fuel hlt hidx]
        exact ⟨rfl, rfl, rfl, rfl, rfl, by simp, fun x hx => hx⟩
      | some w =>
        cases hbusy : w.busy with
        | true =>
          rw [gnwLoop_eq_busy s attempts fuel w hlt hidx hbusy]
          exact ih (bumpIndex s) (attempts + 1)
        | false =>
          by_cases hq : s.opts.maxRequestsPerWorker ≤ w.requestCount
          · rw [gnwLoop_eq_recycle s attempts fuel w hlt hidx hbusy hq]
            rcases restartWorkerSync_frame (bumpIndex s) w.id with
              ⟨h1, h2, h3, h4, h5, h6, h7⟩
            rcases ih (restartWorkerSync (bumpIndex s) w.id).1 (attempts + 1) with
              ⟨g1, g2, g3, g4, g5, g6, g7⟩
            refine ⟨g1.trans h1, g2.trans h2, g3.trans h3, g4.trans h4,
              g5.trans h5, ?_, fun x hx => h7 _ (g7 x hx)⟩
            intro e he
            rcases List.mem_append.1 he with h8 | h8
            · exact h6 e h8
            · exact g6 e h8
          · rw [gnwLoop_eq_found s attempts fuel w hlt hidx hbusy hq]
            exact ⟨rfl, rfl, rfl, rfl, rfl, by simp, fun x hx => hx⟩
    · rw [gnwLoop_eq_stop s attempts fuel hlt]
      exact ⟨rfl, rfl, rfl, rfl, rfl, by simp, fun x hx => hx⟩

theorem gnwLoop_found (fuel : Nat) : ∀ (s : PoolState) (attempts wid : Nat),
    (getNextWorkerLoop s attempts fuel).1 = GNWOut.found wid →
    ∃ w2, w2 ∈ (getNextWorkerLoop s attempts fuel).2.1.workers ∧ w2.id = wid ∧
      w2.busy = false ∧ w2.requestCount < s.opts.maxRequestsPerWorker := by
  induction fuel with
  | zero => intro s attempts wid h; simp [getNextWorkerLoop] at h
  | succ fuel ih =>
    intro s attempts wid h
    by_cases hlt : attempts < s.workers.length
    · cases hidx : s.workers[s.currentWorkerIndex]? with
      | none => rw [gnwLoop_eq_crash s attempts fuel hlt hidx] at h; simp at h
      | some w =>
        cases hbusy : w.busy with
        | true =>
          rw [gnwLoop_eq_busy s attempts fuel w hlt hidx hbusy] at h ⊢
          exact ih (bumpIndex s) (attempts + 1) wid h
        | false =>
          by_cases hq : s.opts.maxRequestsPerWorker ≤ w.requestCount
          · rw [gnwLoop_eq_recycle s attempts fuel w hlt hidx hbusy hq] at h ⊢
            rcases ih (restartWorkerSync (bumpIndex s) w.id).1 (attempts + 1) wid h
              with ⟨w2, hmem, hid, hbusy2, hq2⟩
            refine ⟨w2, hmem, hid, hbusy2, ?_⟩
            have hopts :=
              (restartWorkerSync_frame (bumpIndex s) w.id).2.2.2.2.1
            rw [hopts] at hq2
            exact hq2
          · rw [gnwLoop_eq_found s attempts fuel w hlt hidx hbusy hq] at h ⊢
            have hw : w ∈ s.workers := by
              rcases List.getElem?_eq_some.1 hidx with ⟨hlt2, hget⟩
              exact hget ▸ List.getElem_mem _
            cases h
            exact ⟨w, hw, rfl, hbusy, Nat.lt_of_not_le hq⟩
    · rw [gnwLoop_eq_stop s attempts fuel hlt] at h; simp at h

/-!  Theorems. -/

/-- C10: `clearCache()` empties all three cache tiers and resets every tier's
hit and miss counters, so `getCacheStats()` immediately afterwards reports
size 0, hits 0, misses 0 and hitRate 0 for the parser, wasm-bytes and tree
tiers alike (and 0 accumulated bytes for the wasm tier). -/
theorem C10_clear_cache_resets_stats (s : ServiceState) :
    getCacheStats (clearCache s) =
      ⟨⟨0, 0, 0, 0⟩, ⟨0, 0, 0, 0, 0⟩, ⟨0, 0, 0, 0⟩⟩ := by
  rfl

/-- The worker-pool options used by the pool counterexamples: one worker,
default timeout/request ceiling, restart enabled. -/
def optsRestart : WorkerPoolOptions := ⟨1, 30000, 1000, true⟩

/-- Options with `restartOnError` disabled. -/
def optsNoRestart : WorkerPoolOptions := ⟨1, 30000, 1000, false⟩

/-- C1 counterexample run: a one-worker pool accepts "r0" (forwarded) and
"r1" (queued), then `shutdown` runs. -/
def c1Run : PoolState × List PoolEvent :=
  execTrace (initPool 1 optsRestart)
    [PoolAction.submit "r0" 10, PoolAction.submit "r1" 20,
     PoolAction.shutdownBegin, PoolAction.shutdownFinish]

/-- C1 fails as stated: request "r1" is accepted by the submit path (it is
appended to the overflow queue), yet during shutdown its stored reject
continuation is invoked twice — once by the queue-clearing pass and once by
the final pending-map sweep — because queueing leaves the request in
`pendingRequests`.  "r0" (in flight) is completed exactly once. -/
theorem C1_counterexample :
    (executeRequest (execTrace (initPool 1 optsRestart)
        [PoolAction.submit "r0" 10]).1 "r1" 20).1 = SubmitResult.accepted ∧
    c1Run.2 =
      [PoolEvent.send 0 "r0",
       PoolEvent.rejected "r1" RejectKind.shuttingDown,
       PoolEvent.rejected "r0" RejectKind.shutDown,
       PoolEvent.rejected "r1" RejectKind.shutDown,
       PoolEvent.terminated 0] ∧
    completionCount c1Run.2 "r1" = 2 := by
  refine ⟨rfl, rfl, rfl⟩

/-- C2 failing run: a one-worker pool with `restartOnError` enabled and no
shutdown in progress; "r0" is in flight on worker 0 and "r1" waits in the
overflow queue when worker 0 terminates unexpectedly. -/
def c2Run : PoolState × List PoolEvent :=
  execTrace (initPool 1 optsRestart)
    [PoolAction.submit "r0" 10, PoolAction.submit "r1" 20,
     PoolAction.workerExit 0]

/-- C2, evaluated at the failing input: the in-flight request is rejected
exactly once with the crash error, the queued request is untouched, and the
crashed worker is removed — but no replacement spawn ever starts, because the
`exit` handler tests `this.workers.includes(workerInfo)` only after the
splice removed the record, so the restart branch is unreachable.  The pool is
left empty with "r1" queued forever. -/
theorem C2_crash_no_replacement :
    c2Run.2 = [PoolEvent.send 0 "r0",
               PoolEvent.rejected "r0" RejectKind.crashed] ∧
    completionCount c2Run.2 "r0" = 1 ∧
    completionCount c2Run.2 "r1" = 0 ∧
    c2Run.1.requestQueue = [⟨"r1", 20⟩] ∧
    c2Run.1.workers = [] ∧
    c2Run.1.spawning = [] ∧
    spawnCount c2Run.2 = 0 := by
  refine ⟨rfl, rfl, rfl, rfl, rfl, rfl, rfl⟩

/-- C3 counterexample run: `restartOnError` disabled, "r0" forwarded to
worker 0, then the per-request timeout fires. -/
def c3Run : PoolState × List PoolEvent :=
  execTrace (initPool 1 optsNoRestart)
    [PoolAction.submit "r0" 10, PoolAction.timerFires ⟨"r0", 0⟩]

/-- C3 fails as stated: when the timeout fires first, the pending request is
rejected with the timeout error, but with `restartOnError: false` the owning
unit is neither terminated nor replaced — it stays in the pool, merely marked
idle (the kill-and-replace step is guarded by the restart flag, sendToWorker
lines 295-299). -/
theorem C3_counterexample :
    c3Run.2 = [PoolEvent.send 0 "r0",
               PoolEvent.rejected "r0" RejectKind.timeout] ∧
    terminateCount c3Run.2 = 0 ∧
    spawnCount c3Run.2 = 0 ∧
    c3Run.1.workers.map WorkerInfo.id = [0] := by
  refine ⟨rfl, rfl, rfl, rfl⟩

/-- C5 counterexample run: after the timeout of "r0" fires with
`restartOnError` disabled, worker 0 — which never produced a response — is
handed "r2". -/
def c5Run : PoolState × List PoolEvent :=
  execTrace (initPool 1 optsNoRestart)
    [PoolAction.submit "r0" 10, PoolAction.timerFires ⟨"r0", 0⟩,
     PoolAction.submit "r2" 30]

/-- C5 fails as stated: the dispatcher forwards "r2" to worker 0 while "r0",
forwarded to the same worker earlier, has produced no success or error
response — the timeout path cleared the busy flag without any response, and
with `restartOnError` disabled the unit survives to be assigned again. -/
theorem C5_counterexample :
    c5Run.2 = [PoolEvent.send 0 "r0",
               PoolEvent.rejected "r0" RejectKind.timeout,
               PoolEvent.send 0 "r2"] ∧
    noSecondSend c5Run.2 = false := by
  refine ⟨rfl, rfl⟩

/-- A world with no local files and no reachable network. -/
def noFileWorld : FetchWorld :=
  ⟨fun _ => false, fun _ => [], fun _ => false, fun _ => []⟩

/-- C7 fails as stated for a candidate URL whose scheme is neither `http` nor
`https`: `loadLanguage` routes any such string down the local-file branch, so
`ftp://evil.example/g.wasm` is rejected with a file-not-found error, not with
a security error (no network fetch is attempted either way). -/
theorem C7_counterexample :
    (loadCustomPath noFileWorld newService 0 "ftp://evil.example/g.wasm").1 =
      Except.error (LoadErr.fileNotFound "ftp://evil.example/g.wasm") ∧
    isSecurityErr
      (loadCustomPath noFileWorld newService 0 "ftp://evil.example/g.wasm").1 =
      false ∧
    (loadCustomPath noFileWorld newService 0 "ftp://evil.example/g.wasm").2.2.2 =
      [] := by
  refine ⟨rfl, rfl, rfl⟩

/-- C8 fails as stated: for the language id `c_sharp` (the one id with a
known naming variant) the alternate bundled candidates sit at positions 5-6,
after the three project-local candidates at positions 2-4 — the source pushes
the variant paths only after the local paths (lines 436-440 vs 458-464) — so
the claimed order (bundled exact, alternate bundled, project-local, CDN) does
not hold. -/
theorem C8_counterexample :
    getCommonLanguagePaths "/app/dist" "/work" "c_sharp" =
      ["/app/node_modules/tree-sitter-wasms/out/tree-sitter-c_sharp.wasm",
       "/work/node_modules/tree-sitter-wasms/out/tree-sitter-c_sharp.wasm",
       "./tree-sitter-c_sharp.wasm",
       "./grammars/c_sharp.wasm",
       "./node_modules/tree-sitter-c_sharp/tree-sitter-c_sharp.wasm",
       "/app/node_modules/tree-sitter-wasms/out/tree-sitter-c-sharp.wasm",
       "/work/node_modules/tree-sitter-wasms/out/tree-sitter-c-sharp.wasm",
       "https://cdn.jsdelivr.net/npm/tree-sitter-c_sharp@latest/tree-sitter-c_sharp.wasm",
       "https://unpkg.com/tree-sitter-c_sharp/tree-sitter-c_sharp.wasm",
       "https://github.com/jeff-hykin/common_tree_sitter_languages/raw/main/c_sharp.wasm"]
    := by
  rfl

/-- Worker-subset and option-preservation facts for the full `getNextWorker`. -/
theorem getNextWorker_frame (s : PoolState) :
    (getNextWorker s).2.1.pendingRequests = s.pendingRequests ∧
    (getNextWorker s).2.1.requestQueue = s.requestQueue ∧
    (getNextWorker s).2.1.timers = s.timers ∧
    (getNextWorker s).2.1.isShuttingDown = s.isShuttingDown ∧
    (getNextWorker s).2.1.opts = s.opts ∧
    (∀ e ∈ (getNextWorker s).2.2, isNeutralEv e = true) ∧
    (∀ x ∈ (getNextWorker s).2.1.workers, x ∈ s.workers) :=
  gnwLoop_frame (s.workers.length + 1) s 0

/-- C4: an idle unit whose request count has reached `maxRequestsPerWorker`
is never the unit `getNextWorker` hands out (so it is never assigned new
work; the scan recycles it instead), and recycling — terminate plus
replacement becoming ready — leaves the pool size unchanged. -/
theorem C4_quota_recycling (s : PoolState) (w : WorkerInfo) (now : Nat)
    (hnodup : (s.workers.map WorkerInfo.id).Nodup) :
    (w ∈ s.workers → w.busy = false →
      s.opts.maxRequestsPerWorker ≤ w.requestCount →
      (getNextWorker s).1 ≠ GNWOut.found w.id) ∧
    (w ∈ s.workers →
      (restartWorkerSync s w.id).1.workers.length + 1 = s.workers.length ∧
      (workerReadyStep (restartWorkerSync s w.id).1 s.nextWorkerId
        now).1.workers.length = s.workers.length) := by
  constructor
  · intro hw _hbusy hq hfound
    rcases gnwLoop_found (s.workers.length + 1) s 0 w.id hfound with
      ⟨w2, hmem, hid, _hbusy2, hq2⟩
    have hsub := (getNextWorker_frame s).2.2.2.2.2.2
    have hw2s : w2 ∈ s.workers := hsub w2 hmem
    have : w2 = w := List.inj_on_of_nodup_map hnodup hw2s hw hid
    subst this
    exact absurd hq2 (Nat.not_lt_of_le hq)
  · intro hw
    have hany : s.workers.any (fun x => x.id == w.id) = true :=
      workers_any_id.2 ⟨w, hw, rfl⟩
    have hlen : (removeWorker s.workers w.id).length + 1 = s.workers.length :=
      removeWorker_length ⟨w, hw, rfl⟩
    constructor
    · simp only [restartWorkerSync, hany, if_true, createWorkerStart]
      exact hlen
    · simp only [restartWorkerSync, hany, if_true, createWorkerStart,
        workerReadyStep]
      have hcont : (s.spawning ++ [s.nextWorkerId]).contains s.nextWorkerId = true := by
        simp [List.contains_eq_any_beq]
      simp only [hcont, if_true, List.length_append, List.length_cons,
        List.length_nil]
      omega

/-- C4 witness: a two-worker pool with `maxRequestsPerWorker = 1` where
worker 0 is idle at the ceiling: it is not handed out, and recycling it keeps
the pool at two workers. -/
def c4State : PoolState :=
  { initPool 2 ⟨2, 30000, 1, true⟩ with
    workers := [⟨0, false, none, 1, 0, none, 0⟩, ⟨1, false, none, 0, 0, none, 0⟩] }

theorem C4_quota_recycling_witness :
    (getNextWorker c4State).1 ≠ GNWOut.found 0 ∧
    (restartWorkerSync c4State 0).1.workers.length + 1 = 2 ∧
    (workerReadyStep (restartWorkerSync c4State 0).1 2 99).1.workers.length = 2 := by
  have h := C4_quota_recycling c4State ⟨0, false, none, 1, 0, none, 0⟩ 99 (by decide)
  refine ⟨h.1 (by decide) rfl (by decide), ?_, ?_⟩
  · exact (h.2 (by decide)).1
  · exact (h.2 (by decide)).2

/-- C3 (amended): when the per-request timeout fires and `restartOnError` is
enabled (the default), the pending request is rejected with the timeout
error, the owning unit is terminated, a replacement spawn starts, and once
the replacement reports ready the pool is back to its previous size. -/
theorem C3_timeout_kill_replace (s : PoolState) (t : TimerRec) (w : WorkerInfo)
    (now : Nat) (hre : s.opts.restartOnError = true)
    (hw : w ∈ s.workers) (hid : w.id = t.wid) :
    (timeoutFireStep s t).2 =
      [PoolEvent.rejected t.rid RejectKind.timeout,
       PoolEvent.terminated t.wid, PoolEvent.spawned s.nextWorkerId] ∧
    (timeoutFireStep s t).1.workers.length + 1 = s.workers.length ∧
    (workerReadyStep (timeoutFireStep s t).1 s.nextWorkerId now).1.workers.length
      = s.workers.length := by
  have hmem2 : ∃ w2 ∈ updateWorker s.workers t.wid
      (fun x => { x with busy := false, activeRequest := none }),
      w2.id = t.wid := by
    refine ⟨if w.id = t.wid then
      { w with busy := false, activeRequest := none } else w, ?_, ?_⟩
    · exact List.mem_map.2 ⟨w, hw, rfl⟩
    · rw [if_pos hid]; exact hid
  have hany : (updateWorker s.workers t.wid
      (fun x => { x with busy := false, activeRequest := none })).any
        (fun x => x.id == t.wid) = true := by
    rcases hmem2 with ⟨w2, hw2, hid2⟩
    exact workers_any_id.2 ⟨w2, hw2, hid2⟩
  have hlen : (removeWorker (updateWorker s.workers t.wid
      (fun x => { x with busy := false, activeRequest := none })) t.wid).length + 1
      = s.workers.length := by
    rw [removeWorker_length hmem2, updateWorker_length]
  refine ⟨?_, ?_, ?_⟩
  · simp only [timeoutFireStep, hre, if_true, restartWorkerSync, hany,
      createWorkerStart]
  · simp only [timeoutFireStep, hre, if_true, restartWorkerSync, hany,
      createWorkerStart]
    exact hlen
  · simp only [timeoutFireStep, hre, if_true, restartWorkerSync, hany,
      createWorkerStart, workerReadyStep]
    have hcont : (s.spawning ++ [s.nextWorkerId]).contains s.nextWorkerId = true := by
      simp [List.contains_eq_any_beq]
    simp only [hcont, if_true, List.length_append, List.length_cons,
      List.length_nil]
    omega

/-- C3 witness: in a one-worker pool with restart enabled, the timeout of
"r0" on worker 0 rejects it, terminates worker 0, spawns worker 1, and the
pool is back at size one when worker 1 is ready. -/
def c3wState : PoolState :=
  { initPool 1 optsRestart with
    workers := [⟨0, true, some "r0", 1, 0, none, 0⟩],
    pendingRequests := [⟨"r0", 10⟩],
    timers := [⟨"r0", 0⟩] }

theorem C3_timeout_kill_replace_witness :
    (timeoutFireStep c3wState ⟨"r0", 0⟩).2 =
      [PoolEvent.rejected "r0" RejectKind.timeout,
       PoolEvent.terminated 0, PoolEvent.spawned 1] ∧
    (timeoutFireStep c3wState ⟨"r0", 0⟩).1.workers.length + 1 = 1 ∧
    (workerReadyStep (timeoutFireStep c3wState ⟨"r0", 0⟩).1 1
      50).1.workers.length = 1 := by
  exact C3_timeout_kill_replace c3wState ⟨"r0", 0⟩ ⟨0, true, some "r0", 1, 0, none, 0⟩
    50 rfl (by decide) rfl

theorem pqLoop_eq_empty (s : PoolState) (fuel : Nat)
    (h : s.requestQueue.isEmpty = true) :
    processQueueLoop s (fuel + 1) = (true, s, []) := by
  simp only [processQueueLoop, h, if_true]

theorem pqLoop_eq_crashed (s : PoolState) (fuel : Nat)
    (h : s.requestQueue.isEmpty = false)
    (hg : (getNextWorker s).1 = GNWOut.crashed) :
    processQueueLoop s (fuel + 1) =
      (false, (getNextWorker s).2.1, (getNextWorker s).2.2) := by
  simp only [processQueueLoop, h, Bool.false_eq_true, if_false, hg]

theorem pqLoop_eq_exhausted (s : PoolState) (fuel : Nat)
    (h : s.requestQueue.isEmpty = false)
    (hg : (getNextWorker s).1 = GNWOut.exhausted) :
    processQueueLoop s (fuel + 1) =
      (true, (getNextWorker s).2.1, (getNextWorker s).2.2) := by
  simp only [processQueueLoop, h, Bool.false_eq_true, if_false, hg]

theorem pqLoop_eq_found (s : PoolState) (fuel : Nat) (wid : Nat)
    (preq : PendingReq) (rest : List PendingReq)
    (h : s.requestQueue.isEmpty = false)
    (hg : (getNextWorker s).1 = GNWOut.found wid)
    (hq : (getNextWorker s).2.1.requestQueue = preq :: rest) :
    processQueueLoop s (fuel + 1) =
      ((processQueueLoop (sendToWorker
          { (getNextWorker s).2.1 with requestQueue := rest } wid preq).1 fuel).1,
       (processQueueLoop (sendToWorker
          { (getNextWorker s).2.1 with requestQueue := rest } wid preq).1 fuel).2.1,
       (getNextWorker s).2.2 ++
         (sendToWorker { (getNextWorker s).2.1 with requestQueue := rest }
            wid preq).2 ++
         (processQueueLoop (sendToWorker
            { (getNextWorker s).2.1 with requestQueue := rest } wid preq).1
            fuel).2.2) := by
  simp only [processQueueLoop, h, Bool.false_eq_true, if_false, hg, hq]

/-- The drain loop of `processQueue` serves the overflow queue strictly
front-first: the requests it sends are exactly the ids of the first `k`
queued requests, in queue order, and the first `k` entries are exactly what
leaves the queue; the pending map is untouched. -/
theorem pqLoop_fifo (fuel : Nat) : ∀ s : PoolState,
    ∃ k, sendRids (processQueueLoop s fuel).2.2 =
        (s.requestQueue.take k).map PendingReq.id ∧
      (processQueueLoop s fuel).2.1.requestQueue = s.requestQueue.drop k ∧
      (processQueueLoop s fuel).2.1.pendingRequests = s.pendingRequests := by
  induction fuel with
  | zero =>
    intro s
    exact ⟨0, by simp [processQueueLoop, sendRids], by simp [processQueueLoop],
      by simp [processQueueLoop]⟩
  | succ fuel ih =>
    intro s
    cases hemp : s.requestQueue.isEmpty with
    | true =>
      rw [pqLoop_eq_empty s fuel hemp]
      exact ⟨0, by simp [sendRids], by simp, rfl⟩
    | false =>
      rcases hfr : (getNextWorker s).1 with wid | _ | _
      · have hq0 := (getNextWorker_frame s).2.1
        rcases hrq : s.requestQueue with _ | ⟨preq, rest⟩
        · rw [hrq] at hemp; simp [List.isEmpty] at hemp
        · have hq1 : (getNextWorker s).2.1.requestQueue = preq :: rest := by
            rw [hq0, hrq]
          rw [pqLoop_eq_found s fuel wid preq rest hemp hfr hq1]
          rcases ih (sendToWorker
            { (getNextWorker s).2.1 with requestQueue := rest } wid preq).1 with
            ⟨k, hs, hq2, hp⟩
          have hsq : (sendToWorker
              { (getNextWorker s).2.1 with requestQueue := rest } wid
              preq).1.requestQueue = rest := rfl
          have hsp : (sendToWorker
              { (getNextWorker s).2.1 with requestQueue := rest } wid
              preq).1.pendingRequests = (getNextWorker s).2.1.pendingRequests := rfl
          refine ⟨k + 1, ?_, ?_, ?_⟩
          · rw [sendRids_append, sendRids_append]
            rw [sendRids_neutral _ ((getNextWorker_frame s).2.2.2.2.2.1)]
            rw [hs, hsq]
            simp [sendToWorker, sendRids, List.take_succ_cons]
          · rw [hq2, hsq]
            simp [List.drop_succ_cons]
          · rw [hp, hsp, (getNextWorker_frame s).1]
      · rw [pqLoop_eq_exhausted s fuel hemp hfr]
        exact ⟨0, by rw [sendRids_neutral _ ((getNextWorker_frame s).2.2.2.2.2.1)]
                     simp,
          by rw [(getNextWorker_frame s).2.1]; simp,
          (getNextWorker_frame s).1⟩
      · rw [pqLoop_eq_crashed s fuel hemp hfr]
        exact ⟨0, by rw [sendRids_neutral _ ((getNextWorker_frame s).2.2.2.2.2.1)]
                     simp,
          by rw [(getNextWorker_frame s).2.1]; simp,
          (getNextWorker_frame s).1⟩

/-- C6: overflow handling is FIFO.  Draining (`processQueue`, run whenever a
unit becomes idle) sends the longest-waiting queued requests first — what is
sent is an in-order front segment of the queue and exactly that segment
leaves the queue — and a submission that finds no usable idle worker
(`getNextWorker` returns null) is appended at the back of the queue. -/
theorem C6_fifo_queue (s : PoolState) (rid : String) (now : Nat) :
    (∃ k, sendRids (processQueue s).2.2 =
        (s.requestQueue.take k).map PendingReq.id ∧
      (processQueue s).2.1.requestQueue = s.requestQueue.drop k) ∧
    (s.isShuttingDown = false →
      (getNextWorker
        { s with pendingRequests := s.pendingRequests ++ [⟨rid, now⟩] }).1 =
        GNWOut.exhausted →
      (executeRequest s rid now).2.1.requestQueue =
        s.requestQueue ++ [⟨rid, now⟩]) := by
  constructor
  · rcases pqLoop_fifo s.requestQueue.length s with ⟨k, h1, h2, _⟩
    exact ⟨k, h1, h2⟩
  · intro hshut hg
    rw [hshut] at hg
    simp only [executeRequest, hshut, Bool.false_eq_true, if_false, hg]
    rw [(getNextWorker_frame _).2.1]

/-- C6 witness: draining a queue of two requests with one idle worker sends
exactly the front request and leaves the back one queued; a submission
against a fully busy pool is appended behind it. -/
def c6DrainState : PoolState :=
  { initPool 1 optsRestart with
    workers := [⟨0, false, none, 0, 0, none, 0⟩],
    pendingRequests := [⟨"ra", 1⟩, ⟨"rb", 2⟩],
    requestQueue := [⟨"ra", 1⟩, ⟨"rb", 2⟩] }

def c6BusyState : PoolState :=
  { initPool 1 optsRestart with
    workers := [⟨0, true, some "ra", 1, 0, none, 0⟩],
    pendingRequests := [⟨"ra", 1⟩],
    timers := [⟨"ra", 0⟩] }

theorem C6_fifo_queue_witness :
    (∃ k, sendRids (processQueue c6DrainState).2.2 =
        (c6DrainState.requestQueue.take k).map PendingReq.id ∧
      (processQueue c6DrainState).2.1.requestQueue =
        c6DrainState.requestQueue.drop k) ∧
    (executeRequest c6BusyState "rc" 30).2.1.requestQueue = [⟨"rc", 30⟩] := by
  constructor
  · exact (C6_fifo_queue c6DrainState "zz" 0).1
  · exact (C6_fifo_queue c6BusyState "rc" 30).2 rfl (by decide)

/-- C1 (amended): no accepted request is dropped by shutdown — every request
still tracked by the dispatcher is rejected and all tracking state is cleared
— but the exactly-once contract fails for queued requests: a request that is
still in the overflow queue when shutdown begins has its reject continuation
invoked exactly twice (once by the queue-clearing pass, once by the final
pending sweep), while every other tracked request is completed exactly once.
The hypotheses state the dispatcher's own bookkeeping discipline: queued
requests are registered in the pending map and ids are unique. -/
theorem C1_shutdown_completion (s : PoolState)
    (hqp : ∀ q ∈ s.requestQueue, ∃ p ∈ s.pendingRequests, p.id = q.id)
    (hpn : (s.pendingRequests.map PendingReq.id).Nodup)
    (hqn : (s.requestQueue.map PendingReq.id).Nodup) :
    (shutdownRun s).1.pendingRequests = [] ∧
    (shutdownRun s).1.requestQueue = [] ∧
    (∀ p ∈ s.pendingRequests,
      completionCount (shutdownRun s).2 p.id =
        (if s.requestQueue.any (fun q => q.id == p.id) then 2 else 1)) ∧
    (∀ q ∈ s.requestQueue, completionCount (shutdownRun s).2 q.id = 2) := by
  have hmain : ∀ p ∈ s.pendingRequests,
      completionCount (shutdownRun s).2 p.id =
        (if s.requestQueue.any (fun q => q.id == p.id) then 2 else 1) := by
    intro p hp
    have hevs : (shutdownRun s).2 =
        (s.requestQueue.map fun q =>
          PoolEvent.rejected q.id RejectKind.shuttingDown) ++
        ((s.pendingRequests.map fun p2 =>
          PoolEvent.rejected p2.id RejectKind.shutDown) ++
         (s.workers.map fun w => PoolEvent.terminated w.id)) := rfl
    rw [completionCount, hevs, List.countP_append, List.countP_append]
    have hterm : (s.workers.map fun w => PoolEvent.terminated w.id).countP
        (isCompletionFor p.id) = 0 := by
      rw [List.countP_eq_zero]
      intro e he
      rcases List.mem_map.1 he with ⟨w, _, hw⟩
      rw [← hw]
      simp [isCompletionFor]
    have hqcount : (s.requestQueue.map fun q =>
        PoolEvent.rejected q.id RejectKind.shuttingDown).countP
          (isCompletionFor p.id) =
        (s.requestQueue.map PendingReq.id).count p.id := by
      rw [List.countP_map, List.count, List.countP_map]
      rfl
    have hpcount : (s.pendingRequests.map fun p2 =>
        PoolEvent.rejected p2.id RejectKind.shutDown).countP
          (isCompletionFor p.id) =
        (s.pendingRequests.map PendingReq.id).count p.id := by
      rw [List.countP_map, List.count, List.countP_map]
      rfl
    have hpone : (s.pendingRequests.map PendingReq.id).count p.id = 1 :=
      List.count_eq_one_of_mem hpn (List.mem_map.2 ⟨p, hp, rfl⟩)
    rw [hterm, hqcount, hpcount, hpone]
    by_cases hmem : p.id ∈ s.requestQueue.map PendingReq.id
    · have hany : (s.requestQueue.any fun q => q.id == p.id) = true := by
        rcases List.mem_map.1 hmem with ⟨q, hq, hqid⟩
        simp only [List.any_eq_true]
        exact ⟨q, hq, by simp [hqid]⟩
      rw [if_pos hany, List.count_eq_one_of_mem hqn hmem]
    · have hany : ¬ (s.requestQueue.any fun q => q.id == p.id) = true := by
        intro hco
        rcases List.any_eq_true.1 hco with ⟨q, hq, hqid⟩
        exact hmem (List.mem_map.2 ⟨q, hq, by simpa using hqid⟩)
      rw [if_neg hany, List.count_eq_zero_of_not_mem hmem]
  refine ⟨rfl, rfl, hmain, ?_⟩
  intro q hq
  rcases hqp q hq with ⟨p, hpmem, hpid⟩
  have hcc := hmain p hpmem
  have hany : (s.requestQueue.any fun q2 => q2.id == p.id) = true := by
    simp only [List.any_eq_true]
    exact ⟨q, hq, by simp [hpid]⟩
  rw [if_pos hany] at hcc
  rw [← hpid]
  exact hcc

/-- C1 witness state: "r0" in flight on worker 0, "r1" queued. -/
def c1wState : PoolState :=
  { initPool 1 optsRestart with
    workers := [⟨0, true, some "r0", 1, 0, none, 0⟩],
    pendingRequests := [⟨"r0", 10⟩, ⟨"r1", 20⟩],
    requestQueue := [⟨"r1", 20⟩],
    timers := [⟨"r0", 0⟩] }

theorem C1_shutdown_completion_witness :
    completionCount (shutdownRun c1wState).2 "r1" = 2 ∧
    completionCount (shutdownRun c1wState).2 "r0" = 1 ∧
    (shutdownRun c1wState).1.pendingRequests = [] := by
  have h := C1_shutdown_completion c1wState (by decide) (by decide) (by decide)
  refine ⟨?_, ?_, h.1⟩
  · have h1 := h.2.2.1 ⟨"r1", 20⟩ (by decide)
    rw [if_pos (by decide)] at h1
    exact h1
  · have h0 := h.2.2.1 ⟨"r0", 10⟩ (by decide)
    rw [if_neg (by decide)] at h0
    exact h0

/-!  Lemmas about the lru-cache model, leading to the tree-cache TTL claim. -/

theorem lruGet_eq_none {α : Type} (c : LruCache α) (k : String) (now : Nat)
    (h : c.entries.find? (fun e => e.key == k) = none) :
    c.get k now = (none, c) := by
  simp only [LruCache.get, h]

theorem lruGet_eq_stale {α : Type} (c : LruCache α) (k : String) (now : Nat)
    (e : LruEntry α) (h : c.entries.find? (fun e2 => e2.key == k) = some e)
    (hst : c.ttl < now - e.start) :
    c.get k now =
      (none, { c with entries := c.entries.filter fun e2 => !(e2.key == k) }) := by
  simp only [LruCache.get, h, if_pos hst]

theorem lruGet_eq_fresh {α : Type} (c : LruCache α) (k : String) (now : Nat)
    (e : LruEntry α) (h : c.entries.find? (fun e2 => e2.key == k) = some e)
    (hst : ¬ c.ttl < now - e.start) :
    c.get k now =
      (some e.value,
       { c with entries :=
          { e with start := now } :: c.entries.filter fun e2 => !(e2.key == k) }) := by
  simp only [LruCache.get, h, if_neg hst]

theorem lruEvictLoop_cons {α : Type} (c : LruCache α) (m : Nat)
    (hc : c.maxCount = some m) (hm : 1 ≤ m) (hs : c.maxSize = none)
    (x : LruEntry α) : ∀ (fuel : Nat) (l : List (LruEntry α)),
    ∃ l2, lruEvictLoop c (x :: l) fuel = x :: l2 ∧ ∀ e ∈ l2, e ∈ l := by
  intro fuel
  induction fuel with
  | zero => exact fun l => ⟨l, rfl, fun e he => he⟩
  | succ fuel ih =>
    intro l
    by_cases hov : lruOverBound c (x :: l) = true
    · rcases l with _ | ⟨y, ys⟩
      · exfalso
        simp [lruOverBound, hc, hs] at hov
        omega
      · have hdl : (x :: y :: ys).dropLast = x :: (y :: ys).dropLast := rfl
        simp only [lruEvictLoop, hov, if_true, hdl]
        rcases ih (y :: ys).dropLast with ⟨l2, heq, hsub⟩
        exact ⟨l2, heq, fun e he =>
          (List.dropLast_sublist (y :: ys)).mem (hsub e he)⟩
    · simp only [lruEvictLoop, hov, if_false]
      exact ⟨l, by simp [Bool.not_eq_true] at hov ⊢, fun e he => he⟩

theorem lruSet_shape {α : Type} (c : LruCache α) (m : Nat)
    (hc : c.maxCount = some m) (hm : 1 ≤ m) (hs : c.maxSize = none)
    (k : String) (v : α) (sz now : Nat) :
    ∃ l2, (c.set k v sz now).entries = ⟨k, v, sz, now⟩ :: l2 ∧
      (∀ e ∈ l2, (e.key == k) = false) ∧
      (c.set k v sz now).ttl = c.ttl ∧
      (c.set k v sz now).maxCount = c.maxCount ∧
      (c.set k v sz now).maxSize = c.maxSize := by
  rcases lruEvictLoop_cons c m hc hm hs ⟨k, v, sz, now⟩
      ((⟨k, v, sz, now⟩ : LruEntry α) ::
        c.entries.filter fun e => !(e.key == k)).length
      (c.entries.filter fun e => !(e.key == k)) with ⟨l2, heq, hsub⟩
  refine ⟨l2, heq, ?_, rfl, rfl, rfl⟩
  intro e he
  have hmem := hsub e he
  have := (List.mem_filter.1 hmem).2
  simpa using this

theorem lruGet_snd_fields {α : Type} (c : LruCache α) (k : String) (now : Nat) :
    (c.get k now).2.ttl = c.ttl ∧ (c.get k now).2.maxCount = c.maxCount ∧
    (c.get k now).2.maxSize = c.maxSize := by
  rcases hf : c.entries.find? (fun e2 => e2.key == k) with _ | e
  · rw [lruGet_eq_none c k now hf]
    exact ⟨rfl, rfl, rfl⟩
  · by_cases hst : c.ttl < now - e.start
    · rw [lruGet_eq_stale c k now e hf hst]
      exact ⟨rfl, rfl, rfl⟩
    · rw [lruGet_eq_fresh c k now e hf hst]
      exact ⟨rfl, rfl, rfl⟩

theorem lruGet_fst_some_inv {α : Type} (c : LruCache α) (k : String) (now : Nat)
    (v : α) (h : (c.get k now).1 = some v) :
    ∃ e, c.entries.find? (fun e2 => e2.key == k) = some e ∧
      ¬ c.ttl < now - e.start ∧ v = e.value ∧
      (c.get k now).2 =
        { c with entries :=
            { e with start := now } :: c.entries.filter fun e2 => !(e2.key == k) } := by
  rcases hf : c.entries.find? (fun e2 => e2.key == k) with _ | e
  · rw [lruGet_eq_none c k now hf] at h
    simp at h
  · by_cases hst : c.ttl < now - e.start
    · rw [lruGet_eq_stale c k now e hf hst] at h
      simp at h
    · rw [lruGet_eq_fresh c k now e hf hst] at h
      refine ⟨e, hf, hst, ?_, ?_⟩
      · simpa using h.symm
      · rw [lruGet_eq_fresh c k now e hf hst]

theorem getCachedTree_eq_none (s : ServiceState) (now : Nat) (code lang : String)
    (h : (s.treeCache.get (treeCacheKey lang code) now).1 = none) :
    getCachedTree s now code lang =
      (none, { s with
        treeCache := (s.treeCache.get (treeCacheKey lang code) now).2,
        treeCacheStats :=
          { s.treeCacheStats with misses := s.treeCacheStats.misses + 1 } }) := by
  simp only [getCachedTree, h]

theorem getCachedTree_eq_hit (s : ServiceState) (now : Nat) (code lang : String)
    (cached : TreeEntry)
    (h : (s.treeCache.get (treeCacheKey lang code) now).1 = some cached)
    (hcode : (cached.code == code) = true) :
    getCachedTree s now code lang =
      (some cached.tree, { s with
        treeCache := (s.treeCache.get (treeCacheKey lang code) now).2,
        treeCacheStats :=
          { s.treeCacheStats with hits := s.treeCacheStats.hits + 1 } }) := by
  simp only [getCachedTree, h, hcode, Bool.not_true, Bool.false_eq_true, if_false]

theorem getCachedTree_eq_mismatch (s : ServiceState) (now : Nat)
    (code lang : String) (cached : TreeEntry)
    (h : (s.treeCache.get (treeCacheKey lang code) now).1 = some cached)
    (hcode : (cached.code == code) = false) :
    getCachedTree s now code lang =
      (none, { s with
        treeCache := ((s.treeCache.get (treeCacheKey lang code) now).2).deleteKey
          (treeCacheKey lang code),
        treeCacheStats :=
          { s.treeCacheStats with misses := s.treeCacheStats.misses + 1 } }) := by
  simp only [getCachedTree, h, hcode, Bool.not_false, if_true]

theorem getCachedTree_fst_some_inv (s : ServiceState) (now : Nat)
    (code lang : String) (t : Nat)
    (h : (getCachedTree s now code lang).1 = some t) :
    ∃ cached, (s.treeCache.get (treeCacheKey lang code) now).1 = some cached ∧
      (cached.code == code) = true ∧ t = cached.tree ∧
      (getCachedTree s now code lang).2 =
        { s with
          treeCache := (s.treeCache.get (treeCacheKey lang code) now).2,
          treeCacheStats :=
            { s.treeCacheStats with hits := s.treeCacheStats.hits + 1 } } := by
  rcases hg : (s.treeCache.get (treeCacheKey lang code) now).1 with _ | cached
  · rw [getCachedTree_eq_none s now code lang hg] at h
    simp at h
  · by_cases hcode : (cached.code == code) = true
    · rw [getCachedTree_eq_hit s now code lang cached hg hcode] at h ⊢
      refine ⟨cached, rfl, hcode, ?_, rfl⟩
      simpa using h.symm
    · rw [getCachedTree_eq_mismatch s now code lang cached hg
        (Bool.not_eq_true _ ▸ Bool.of_not_eq_true hcode)] at h
      simp at h

theorem parseWithCache_eq_hit (s : ServiceState) (now : Nat) (code lang : String)
    (t : Nat) (h : (getCachedTree s now code lang).1 = some t) :
    parseWithCache s now code lang =
      Except.ok (t, (getCachedTree s now code lang).2) := by
  simp only [parseWithCache, h]

theorem parseWithCache_eq_miss_parse (s : ServiceState) (now : Nat)
    (code lang : String) (handle : Nat)
    (h : (getCachedTree s now code lang).1 = none)
    (hp : ((getCachedTree s now code lang).2.parserCache.get lang now).1 =
      some handle) :
    parseWithCache s now code lang =
      Except.ok ((getCachedTree s now code lang).2.parseCalls,
        setCachedTree
          { (getCachedTree s now code lang).2 with
            parserCache := ((getCachedTree s now code lang).2.parserCache.get
              lang now).2,
            parseCalls := (getCachedTree s now code lang).2.parseCalls + 1 }
          now code lang (getCachedTree s now code lang).2.parseCalls) := by
  simp only [parseWithCache, h, hp]

theorem getCachedTree_snd_fields (s : ServiceState) (now : Nat)
    (code lang : String) :
    (getCachedTree s now code lang).2.treeCache.ttl = s.treeCache.ttl ∧
    (getCachedTree s now code lang).2.treeCache.maxCount = s.treeCache.maxCount ∧
    (getCachedTree s now code lang).2.treeCache.maxSize = s.treeCache.maxSize ∧
    (getCachedTree s now code lang).2.parserCache = s.parserCache ∧
    (getCachedTree s now code lang).2.parseCalls = s.parseCalls := by
  rcases hg : (s.treeCache.get (treeCacheKey lang code) now).1 with _ | cached
  · rw [getCachedTree_eq_none s now code lang hg]
    rcases lruGet_snd_fields s.treeCache (treeCacheKey lang code) now with
      ⟨f1, f2, f3⟩
    exact ⟨f1, f2, f3, rfl, rfl⟩
  · rcases lruGet_snd_fields s.treeCache (treeCacheKey lang code) now with
      ⟨f1, f2, f3⟩
    by_cases hcode : (cached.code == code) = true
    · rw [getCachedTree_eq_hit s now code lang cached hg hcode]
      exact ⟨f1, f2, f3, rfl, rfl⟩
    · rw [getCachedTree_eq_mismatch s now code lang cached hg
        (Bool.not_eq_true _ ▸ Bool.of_not_eq_true hcode)]
      exact ⟨f1, f2, f3, rfl, rfl⟩

theorem parseWithCache_eq_miss_parse_default (s : ServiceState) (now : Nat)
    (code lang : String) (handle : Nat)
    (h : (getCachedTree s now code lang).1 = none)
    (hp1 : ((getCachedTree s now code lang).2.parserCache.get lang now).1 = none)
    (hp2 : ((((getCachedTree s now code lang).2.parserCache.get lang
        now).2).get (lang ++ ":default") now).1 = some handle) :
    parseWithCache s now code lang =
      Except.ok ((getCachedTree s now code lang).2.parseCalls,
        setCachedTree
          { (getCachedTree s now code lang).2 with
            parserCache := ((((getCachedTree s now code lang).2.parserCache.get
              lang now).2).get (lang ++ ":default") now).2,
            parseCalls := (getCachedTree s now code lang).2.parseCalls + 1 }
          now code lang (getCachedTree s now code lang).2.parseCalls) := by
  simp only [parseWithCache, h, hp1, hp2]

theorem parseWithCache_eq_notLoaded (s : ServiceState) (now : Nat)
    (code lang : String)
    (h : (getCachedTree s now code lang).1 = none)
    (hp1 : ((getCachedTree s now code lang).2.parserCache.get lang now).1 = none)
    (hp2 : ((((getCachedTree s now code lang).2.parserCache.get lang
        now).2).get (lang ++ ":default") now).1 = none) :
    parseWithCache s now code lang = Except.error (ParseErr.notLoaded lang) := by
  simp only [parseWithCache, h, hp1, hp2]

/-- After a successful `parseWithCache` at time `t1`, the tree cache holds the
pair's entry at the most-recent end, age-stamped `t1` (set on a miss,
refreshed on a hit), and the tier's configuration is untouched. -/
theorem parseWithCache_shape (s : ServiceState) (t1 : Nat) (code lang : String)
    (m : Nat) (hc : s.treeCache.maxCount = some m) (hm : 1 ≤ m)
    (hs : s.treeCache.maxSize = none)
    (tree1 : Nat) (s1 : ServiceState)
    (h : parseWithCache s t1 code lang = Except.ok (tree1, s1)) :
    (∃ sz l2, s1.treeCache.entries =
        ⟨treeCacheKey lang code, ⟨tree1, code⟩, sz, t1⟩ :: l2 ∧
      ∀ e ∈ l2, (e.key == treeCacheKey lang code) = false) ∧
    s1.treeCache.ttl = s.treeCache.ttl ∧
    s1.treeCache.maxCount = s.treeCache.maxCount ∧
    s1.treeCache.maxSize = s.treeCache.maxSize := by
  rcases hfields : getCachedTree_snd_fields s t1 code lang with ⟨f1, f2, f3, f4, f5⟩
  rcases hgt : (getCachedTree s t1 code lang).1 with _ | t
  · -- miss path: a parser lookup must have succeeded and setCachedTree ran
    have hsetShape : ∀ (sx : ServiceState),
        sx.treeCache = (getCachedTree s t1 code lang).2.treeCache →
        (∃ sz l2, (setCachedTree sx t1 code lang
            (getCachedTree s t1 code lang).2.parseCalls).treeCache.entries =
              ⟨treeCacheKey lang code,
               ⟨(getCachedTree s t1 code lang).2.parseCalls, code⟩, sz, t1⟩ :: l2 ∧
          ∀ e ∈ l2, (e.key == treeCacheKey lang code) = false) ∧
        (setCachedTree sx t1 code lang
          (getCachedTree s t1 code lang).2.parseCalls).treeCache.ttl =
            s.treeCache.ttl ∧
        (setCachedTree sx t1 code lang
          (getCachedTree s t1 code lang).2.parseCalls).treeCache.maxCount =
            s.treeCache.maxCount ∧
        (setCachedTree sx t1 code lang
          (getCachedTree s t1 code lang).2.parseCalls).treeCache.maxSize =
            s.treeCache.maxSize := by
      intro sx hsx
      rcases lruSet_shape sx.treeCache m (by rw [hsx, f2, hc]) hm
          (by rw [hsx, f3, hs]) (treeCacheKey lang code)
          (⟨(getCachedTree s t1 code lang).2.parseCalls, code⟩ : TreeEntry)
          1 t1 with ⟨l2, heq, hl2, ht, hmc, hms⟩
      refine ⟨⟨1, l2, heq, hl2⟩, ?_, ?_, ?_⟩
      · simp only [setCachedTree]
        rw [ht, hsx, f1]
      · simp only [setCachedTree]
        rw [hmc, hsx, f2]
      · simp only [setCachedTree]
        rw [hms, hsx, f3]
    rcases hp1 : ((getCachedTree s t1 code lang).2.parserCache.get lang t1).1
        with _ | handle
    · rcases hp2 : ((((getCachedTree s t1 code lang).2.parserCache.get lang
          t1).2).get (lang ++ ":default") t1).1 with _ | handle2
      · rw [parseWithCache_eq_notLoaded s t1 code lang hgt hp1 hp2] at h
        exact absurd h (by simp)
      · rw [parseWithCache_eq_miss_parse_default s t1 code lang handle2 hgt
          hp1 hp2] at h
        have h2 := (Except.ok.inj h)
        have htr : (getCachedTree s t1 code lang).2.parseCalls = tree1 :=
          congrArg Prod.fst h2
        have hst : s1 = setCachedTree
            { (getCachedTree s t1 code lang).2 with
              parserCache := ((((getCachedTree s t1 code lang).2.parserCache.get
                lang t1).2).get (lang ++ ":default") t1).2,
              parseCalls := (getCachedTree s t1 code lang).2.parseCalls + 1 }
            t1 code lang (getCachedTree s t1 code lang).2.parseCalls :=
          (congrArg Prod.snd h2).symm
        rw [hst, ← htr]
        exact hsetShape _ rfl
    · rw [parseWithCache_eq_miss_parse s t1 code lang handle hgt hp1] at h
      have h2 := (Except.ok.inj h)
      have htr : (getCachedTree s t1 code lang).2.parseCalls = tree1 :=
        congrArg Prod.fst h2
      have hst : s1 = setCachedTree
          { (getCachedTree s t1 code lang).2 with
            parserCache := ((getCachedTree s t1 code lang).2.parserCache.get
              lang t1).2,
            parseCalls := (getCachedTree s t1 code lang).2.parseCalls + 1 }
          t1 code lang (getCachedTree s t1 code lang).2.parseCalls :=
        (congrArg Prod.snd h2).symm
      rw [hst, ← htr]
      exact hsetShape _ rfl
  · -- hit path
    rw [parseWithCache_eq_hit s t1 code lang t hgt] at h
    have h2 := (Except.ok.inj h)
    have htr : t = tree1 := congrArg Prod.fst h2
    have hst : s1 = (getCachedTree s t1 code lang).2 :=
      (congrArg Prod.snd h2).symm
    rcases getCachedTree_fst_some_inv s t1 code lang t hgt with
      ⟨cached, hget, hcode, htc, hsnd⟩
    rcases lruGet_fst_some_inv s.treeCache (treeCacheKey lang code) t1 cached
      hget with ⟨e, hfind, hfresh, hval, hgsnd⟩
    have hekey : e.key = treeCacheKey lang code := by
      have := List.find?_some hfind
      exact eq_of_beq this
    have hcachedEq : cached = (⟨tree1, code⟩ : TreeEntry) := by
      rcases cached with ⟨ct, cc⟩
      have hcc : cc = code := by simpa using eq_of_beq hcode
      have hct : ct = tree1 := by rw [← htr, htc]
      rw [hcc, hct]
    refine ⟨⟨e.size, s.treeCache.entries.filter
        (fun e2 => !(e2.key == treeCacheKey lang code)), ?_, ?_⟩, ?_, ?_, ?_⟩
    · rw [hst, hsnd, hgsnd]
      have : ({ e with start := t1 } : LruEntry TreeEntry) =
          ⟨treeCacheKey lang code, ⟨tree1, code⟩, e.size, t1⟩ := by
        rcases e with ⟨ek, ev, es, est⟩
        simp only at hekey hval ⊢
        rw [hekey, ← hval, hcachedEq]
      rw [this]
    · intro e2 he2
      have := (List.mem_filter.1 he2).2
      simpa using this
    · rw [hst, hsnd, hgsnd]
    · rw [hst, hsnd, hgsnd]
    · rw [hst, hsnd, hgsnd]

/-- C9: with the tree tier configured as the constructor does (max 100, TTL
one minute) and the language already loaded, parsing the identical
(language, text) pair a second time within the TTL returns the very same
tree and bumps the tree-cache hit counter without invoking the parser; a
second parse after the TTL has expired is a miss — the miss counter is
bumped and the text is parsed again (one more parser invocation).  The
parser availability is stated through the lookup chain the source evaluates
(bare `languageId`, falling back to `languageId:default`), which is the key
`loadLanguage` actually populates. -/
theorem C9_tree_cache_ttl (s : ServiceState) (code lang : String)
    (t1 t2 tree1 : Nat) (s1 : ServiceState)
    (hmaxC : s.treeCache.maxCount = some 100)
    (hmaxS : s.treeCache.maxSize = none)
    (httl : s.treeCache.ttl = 60000)
    (hle : t1 ≤ t2)
    (h1 : parseWithCache s t1 code lang = Except.ok (tree1, s1)) :
    (t2 - t1 ≤ 60000 → ∃ s2,
      parseWithCache s1 t2 code lang = Except.ok (tree1, s2) ∧
      s2.treeCacheStats.hits = s1.treeCacheStats.hits + 1 ∧
      s2.treeCacheStats.misses = s1.treeCacheStats.misses ∧
      s2.parseCalls = s1.parseCalls) ∧
    (60000 < t2 - t1 →
      ∀ handle, (lookupParser s1.parserCache lang t2).1 = some handle →
      ∃ tree2 s2, parseWithCache s1 t2 code lang = Except.ok (tree2, s2) ∧
        s2.treeCacheStats.misses = s1.treeCacheStats.misses + 1 ∧
        s2.treeCacheStats.hits = s1.treeCacheStats.hits ∧
        s2.parseCalls = s1.parseCalls + 1) := by
  obtain ⟨⟨sz, l2, hent, hl2⟩, httl1, _hmc1, _hms1⟩ :=
    parseWithCache_shape s t1 code lang 100 hmaxC (by omega) hmaxS tree1 s1 h1
  have hfind : s1.treeCache.entries.find?
      (fun e2 => e2.key == treeCacheKey lang code) =
      some ⟨treeCacheKey lang code, ⟨tree1, code⟩, sz, t1⟩ := by
    rw [hent]
    exact List.find?_cons_of_pos _ (by simp)
  constructor
  · intro hwithin
    have hfresh : ¬ s1.treeCache.ttl <
        t2 - (⟨treeCacheKey lang code, ⟨tree1, code⟩, sz, t1⟩ :
          LruEntry TreeEntry).start := by
      rw [httl1, httl]
      simp only
      omega
    have hget := lruGet_eq_fresh s1.treeCache (treeCacheKey lang code) t2 _
      hfind hfresh
    have hget1 : (s1.treeCache.get (treeCacheKey lang code) t2).1 =
        some (⟨tree1, code⟩ : TreeEntry) := by rw [hget]
    have hgt := getCachedTree_eq_hit s1 t2 code lang ⟨tree1, code⟩ hget1
      (by simp)
    have hp := parseWithCache_eq_hit s1 t2 code lang tree1 (by rw [hgt])
    refine ⟨(getCachedTree s1 t2 code lang).2, hp, ?_, ?_, ?_⟩
    · rw [hgt]
    · rw [hgt]
    · rw [hgt]
  · intro hexpired handle hlk
    have hstale : s1.treeCache.ttl <
        t2 - (⟨treeCacheKey lang code, ⟨tree1, code⟩, sz, t1⟩ :
          LruEntry TreeEntry).start := by
      rw [httl1, httl]
      simp only
      omega
    have hget := lruGet_eq_stale s1.treeCache (treeCacheKey lang code) t2 _
      hfind hstale
    have hget1 : (s1.treeCache.get (treeCacheKey lang code) t2).1 = none := by
      rw [hget]
    have hgtn := getCachedTree_eq_none s1 t2 code lang hget1
    rcases hq1 : (s1.parserCache.get lang t2).1 with _ | h0
    · have hlk2 : ((s1.parserCache.get lang t2).2.get
          (lang ++ ":default") t2).1 = some handle := by
        rw [lookupParser, hq1] at hlk
        exact hlk
      have hp1 : ((getCachedTree s1 t2 code lang).2.parserCache.get
          lang t2).1 = none := by
        rw [hgtn]
        exact hq1
      have hp2 : ((((getCachedTree s1 t2 code lang).2.parserCache.get
          lang t2).2).get (lang ++ ":default") t2).1 = some handle := by
        rw [hgtn]
        exact hlk2
      have heq := parseWithCache_eq_miss_parse_default s1 t2 code lang handle
        (by rw [hgtn]) hp1 hp2
      refine ⟨(getCachedTree s1 t2 code lang).2.parseCalls, _, heq, ?_, ?_, ?_⟩
      · simp only [setCachedTree]
        rw [hgtn]
      · simp only [setCachedTree]
        rw [hgtn]
      · simp only [setCachedTree]
        rw [hgtn]
    · have hh0 : h0 = handle := by
        rw [lookupParser, hq1] at hlk
        exact Option.some.inj hlk
      subst hh0
      have hpc : ((getCachedTree s1 t2 code lang).2.parserCache.get
          lang t2).1 = some h0 := by
        rw [hgtn]
        exact hq1
      have heq := parseWithCache_eq_miss_parse s1 t2 code lang h0
        (by rw [hgtn]) hpc
      refine ⟨(getCachedTree s1 t2 code lang).2.parseCalls, _, heq, ?_, ?_, ?_⟩
      · simp only [setCachedTree]
        rw [hgtn]
      · simp only [setCachedTree]
        rw [hgtn]
      · simp only [setCachedTree]
        rw [hgtn]

/-- C9 witness service: a parser for "js" loaded with no explicit wasm path,
so it sits under the `js:default` key exactly as `loadLanguage` stores it
(handle 0, age 0); nothing else cached. -/
def c9Service : ServiceState :=
  { newService with
    parserCache := { newService.parserCache with
      entries := [⟨"js:default", 0, 1, 0⟩] } }

/-- The state after the first parse of ("js", "x") at time 1000. -/
def c9S1 : ServiceState :=
  match parseWithCache c9Service 1000 "x" "js" with
  | Except.ok (_, sx) => sx
  | Except.error _ => newService

theorem C9_tree_cache_ttl_witness :
    (∃ s2, parseWithCache c9S1 2000 "x" "js" = Except.ok (0, s2) ∧
      s2.treeCacheStats.hits = c9S1.treeCacheStats.hits + 1 ∧
      s2.treeCacheStats.misses = c9S1.treeCacheStats.misses ∧
      s2.parseCalls = c9S1.parseCalls) ∧
    (∃ tree2 s2, parseWithCache c9S1 100000 "x" "js" = Except.ok (tree2, s2) ∧
      s2.treeCacheStats.misses = c9S1.treeCacheStats.misses + 1 ∧
      s2.treeCacheStats.hits = c9S1.treeCacheStats.hits ∧
      s2.parseCalls = c9S1.parseCalls + 1) := by
  constructor
  · exact (C9_tree_cache_ttl c9Service "x" "js" 1000 2000 0 c9S1 rfl rfl rfl
      (by omega) rfl).1 (by omega)
  · exact (C9_tree_cache_ttl c9Service "x" "js" 1000 100000 0 c9S1 rfl rfl rfl
      (by omega) rfl).2 (by omega) 0 (by decide)

/-- Any URL failing the https-scheme or allow-list check is rejected by
`validateWasmUrl` with a security error. -/
theorem validateWasmUrl_fail (url : String)
    (hbad : ¬ (urlProtocol url = "https:" ∧
      allowedHosts.contains (urlHostname url) = true)) :
    ∃ e, validateWasmUrl url = Except.error e ∧ isSecurityLoadErr e = true := by
  by_cases hp : (urlProtocol url == "https:") = true
  · have hcontains : allowedHosts.contains (urlHostname url) = false := by
      rcases hc : allowedHosts.contains (urlHostname url) with _ | _
      · rfl
      · exact absurd ⟨eq_of_beq hp, hc⟩ hbad
    refine ⟨LoadErr.securityHost url, ?_, rfl⟩
    simp only [validateWasmUrl, hp, Bool.not_true, Bool.false_eq_true, if_false,
      hcontains, Bool.not_false, if_true]
  · refine ⟨LoadErr.securityScheme url, ?_, rfl⟩
    have hp2 : (urlProtocol url == "https:") = false :=
      Bool.not_eq_true _ ▸ Bool.of_not_eq_true hp
    simp only [validateWasmUrl, hp2, Bool.not_false, if_true]

/-- C7 (amended): a candidate that the source routes down the URL branch
(it begins with `http://` or `https://`) and that fails the security policy —
scheme not exactly https, or host not in the allow-list — is rejected with a
security error before any network fetch is issued, both for an explicit
`wasmPath` (where the error aborts the load) and for a fallback-chain
candidate (where it is recorded and skipped); and a candidate string of any
other shape (e.g. an `ftp://` URL) is treated as a local file path, which
also never issues a network fetch — but its failure is a file-not-found
error, not a security rejection (see the counterexample). -/
theorem C7_url_security (w : FetchWorld) (s : ServiceState) (now : Nat)
    (url pathStr : String)
    (hurl : isUrlCandidate url = true)
    (hbad : ¬ (urlProtocol url = "https:" ∧
      allowedHosts.contains (urlHostname url) = true))
    (hloc : isUrlCandidate pathStr = false) :
    (isSecurityErr (loadCustomPath w s now url).1 = true ∧
     (loadCustomPath w s now url).2.2.2 = []) ∧
    ((tryCandidate w s now url).1 = none ∧
     isSecurityCause (tryCandidate w s now url).2.2.1.error = true ∧
     (tryCandidate w s now url).2.2.2 = []) ∧
    (∀ u, NetEvent.fetchAttempt u ∉ (loadCustomPath w s now pathStr).2.2.2) := by
  obtain ⟨e, hv, hse⟩ := validateWasmUrl_fail url hbad
  refine ⟨⟨?_, ?_⟩, ⟨?_, ?_, ?_⟩, ?_⟩
  · simp only [loadCustomPath, hurl, if_true, hv, isSecurityErr, hse]
  · simp only [loadCustomPath, hurl, if_true, hv]
  · simp only [tryCandidate, hurl, if_true, hv]
  · simp only [tryCandidate, hurl, if_true, hv, isSecurityCause, hse]
  · simp only [tryCandidate, hurl, if_true, hv]
  · intro u
    simp only [loadCustomPath, hloc, Bool.false_eq_true, if_false]
    rcases hex : w.fileExists pathStr with _ | _
    · simp
    · simp only [if_true]
      rcases hg : s.wasmBytesCache.get pathStr now with ⟨ob, wc⟩
      rcases ob with _ | bytes
      · simp
      · simp

/-- C7 witness: the `http://` form of an allow-listed host and an `https://`
URL of a foreign host are both rejected with a security error and zero
fetches, and a plain relative path issues no fetch. -/
theorem C7_url_security_witness :
    (isSecurityErr (loadCustomPath noFileWorld newService 0
        "http://cdn.jsdelivr.net/npm/a.wasm").1 = true ∧
     (loadCustomPath noFileWorld newService 0
        "http://cdn.jsdelivr.net/npm/a.wasm").2.2.2 = []) ∧
    ((tryCandidate noFileWorld newService 0
        "https://evil.example/a.wasm").1 = none ∧
     isSecurityCause (tryCandidate noFileWorld newService 0
        "https://evil.example/a.wasm").2.2.1.error = true ∧
     (tryCandidate noFileWorld newService 0
        "https://evil.example/a.wasm").2.2.2 = []) ∧
    (∀ u, NetEvent.fetchAttempt u ∉ (loadCustomPath noFileWorld newService 0
        "./grammars/js.wasm").2.2.2) := by
  refine ⟨(C7_url_security noFileWorld newService 0
      "http://cdn.jsdelivr.net/npm/a.wasm" "./grammars/js.wasm" rfl ?_ rfl).1,
    (C7_url_security noFileWorld newService 0
      "https://evil.example/a.wasm" "./grammars/js.wasm" rfl ?_ rfl).2.1,
    (C7_url_security noFileWorld newService 0
      "http://cdn.jsdelivr.net/npm/a.wasm" "./grammars/js.wasm" rfl ?_ rfl).2.2⟩
  · intro hcon
    exact absurd hcon.1 (by decide)
  · intro hcon
    exact absurd hcon.2 (by decide)
  · intro hcon
    exact absurd hcon.1 (by decide)

/-- The exact-id bundled-distribution candidates (positions 1-2 of the list). -/
def bundledCandidates (dirname cwd languageId : String) : List String :=
  let bundledPath := bundledWasmPath dirname [".."] languageId
  let cwdBundledPath := bundledWasmPath cwd [] languageId
  [bundledPath] ++
    (if !(cwdBundledPath == bundledPath) then [cwdBundledPath] else [])

/-- The project-local conventional candidates. -/
def localCandidates (languageId : String) : List String :=
  ["./tree-sitter-" ++ languageId ++ ".wasm",
   "./grammars/" ++ languageId ++ ".wasm",
   "./node_modules/tree-sitter-" ++ languageId ++ "/tree-sitter-" ++
     languageId ++ ".wasm"]

/-- The alternate-naming bundled candidates (non-empty only for the
`c_sharp`/`c-sharp` naming variants). -/
def altCandidates (dirname cwd languageId : String) : List String :=
  match languageMapLookup languageId with
  | some altName =>
    [bundledWasmPath dirname [".."] altName, bundledWasmPath cwd [] altName]
  | none => []

/-- The remote mirror candidates, appended last. -/
def cdnCandidates (languageId : String) : List String :=
  ["https://cdn.jsdelivr.net/npm/tree-sitter-" ++ languageId ++
     "@latest/tree-sitter-" ++ languageId ++ ".wasm",
   "https://unpkg.com/tree-sitter-" ++ languageId ++ "/tree-sitter-" ++
     languageId ++ ".wasm",
   "https://github.com/jeff-hykin/common_tree_sitter_languages/raw/main/" ++
     languageId ++ ".wasm"]

/-- The record an attempt at a candidate produces, which depends only on the
candidate and the oracle, never on the evolving cache state. -/
def attemptFor (w : FetchWorld) (c : String) : LoadAttempt :=
  if isUrlCandidate c then
    match validateWasmUrl c with
    | Except.error e => ⟨"CDN: " ++ c, some e⟩
    | Except.ok _ =>
      if w.fetchOk c then ⟨"CDN: " ++ c, none⟩
      else ⟨"CDN: " ++ c, some (LoadErr.httpFail c)⟩
  else
    if w.fileExists c then ⟨"Local: " ++ c, none⟩
    else ⟨"Local: " ++ c, some (LoadErr.fileNotFound c)⟩

theorem tryCandidate_attempt (w : FetchWorld) (s : ServiceState) (now : Nat)
    (c : String) : (tryCandidate w s now c).2.2.1 = attemptFor w c := by
  simp only [tryCandidate, attemptFor]
  rcases hurl : isUrlCandidate c with _ | _
  · simp only [Bool.false_eq_true, if_false]
    rcases hex : w.fileExists c with _ | _
    · simp
    · simp only [if_true]
      rcases hg : s.wasmBytesCache.get c now with ⟨ob, wc⟩
      rcases ob with _ | bytes <;> simp
  · simp only [if_true]
    rcases hv : validateWasmUrl c with e | u
    · simp
    · rcases hfok : w.fetchOk c with _ | _
      · simp
      · simp only [if_true]
        rcases hg : s.wasmBytesCache.get c now with ⟨ob, wc⟩
        rcases ob with _ | bytes <;> simp

theorem tryCandidate_success_isSome (w : FetchWorld) (s : ServiceState)
    (now : Nat) (c : String) :
    (tryCandidate w s now c).1.isSome = candidateSucceeds w c := by
  simp only [tryCandidate, candidateSucceeds]
  rcases hurl : isUrlCandidate c with _ | _
  · simp only [Bool.false_eq_true, if_false]
    rcases hex : w.fileExists c with _ | _
    · simp
    · simp only [if_true]
      rcases hg : s.wasmBytesCache.get c now with ⟨ob, wc⟩
      rcases ob with _ | bytes <;> simp
  · simp only [if_true]
    rcases hv : validateWasmUrl c with e | u
    · simp
    · rcases hfok : w.fetchOk c with _ | _
      · simp
      · simp only [if_true]
        rcases hg : s.wasmBytesCache.get c now with ⟨ob, wc⟩
        rcases ob with _ | bytes <;> simp

theorem tryCandidate_fail_none (w : FetchWorld) (s : ServiceState) (now : Nat)
    (c : String) (h : candidateSucceeds w c = false) :
    (tryCandidate w s now c).1 = none := by
  have := tryCandidate_success_isSome w s now c
  rw [h] at this
  exact Option.not_isSome_iff_eq_none.1 (by simp [this])

/-- First success short-circuits: when every candidate before `c` fails
against the oracle and `c` succeeds, the fallback loop never looks past `c` —
its entire result (grammar, state, records, I/O) is that of the list
truncated after `c` — the load succeeds, and the recorded attempts are
exactly one failure record per earlier candidate, in order, each with its
cause, followed by the success record of `c`. -/
theorem loadViaFallback_first_success (w : FetchWorld) (now : Nat)
    (cs1 : List String) (c : String) (cs2 : List String)
    (hfail : ∀ c1 ∈ cs1, candidateSucceeds w c1 = false)
    (hsucc : candidateSucceeds w c = true) : ∀ (s : ServiceState),
    loadViaFallback w s now (cs1 ++ c :: cs2) =
      loadViaFallback w s now (cs1 ++ [c]) ∧
    (loadViaFallback w s now (cs1 ++ c :: cs2)).1.isSome = true ∧
    (loadViaFallback w s now (cs1 ++ c :: cs2)).2.2.1 =
      cs1.map (attemptFor w) ++ [attemptFor w c] := by
  induction cs1 with
  | nil =>
    intro s
    have hsome : (tryCandidate w s now c).1.isSome = true := by
      rw [tryCandidate_success_isSome, hsucc]
    rcases ht : (tryCandidate w s now c).1 with _ | bytes
    · rw [ht] at hsome
      simp at hsome
    · simp only [List.nil_append, loadViaFallback, ht]
      refine ⟨trivial, rfl, ?_⟩
      rw [tryCandidate_attempt]
      simp
  | cons c1 cs1 ih =>
    intro s
    have hc1 : (tryCandidate w s now c1).1 = none :=
      tryCandidate_fail_none w s now c1 (hfail c1 (List.mem_cons_self _ _))
    have hrest : ∀ c2 ∈ cs1, candidateSucceeds w c2 = false :=
      fun c2 h2 => hfail c2 (List.mem_cons_of_mem _ h2)
    have ihs := ih hrest (tryCandidate w s now c1).2.1
    simp only [List.cons_append, loadViaFallback, hc1, List.append_eq]
    refine ⟨?_, ?_, ?_⟩
    · rw [ihs.1]
    · simp only [ihs.2.1]
    · simp only [ihs.2.2, tryCandidate_attempt, List.map_cons, List.cons_append]

/-- C8 (amended): with no explicit grammar source, the candidate list is, in
order: (1) the bundled-distribution paths for the exact id, (2) the
project-local conventional paths, (3) the alternate bundled paths for a known
naming variant of the id (empty except for `c_sharp`/`c-sharp`), (4) the
prioritized remote mirror URLs — the alternate-variant block sits after the
project-local block, not before it as claimed; each failing candidate is
recorded with its cause, and the first successful candidate short-circuits
all remaining ones. -/
theorem C8_resolution_order (dirname cwd languageId : String)
    (w : FetchWorld) (now : Nat) (s : ServiceState)
    (cs1 : List String) (c : String) (cs2 : List String)
    (hfail : ∀ c1 ∈ cs1, candidateSucceeds w c1 = false)
    (hsucc : candidateSucceeds w c = true) :
    getCommonLanguagePaths dirname cwd languageId =
      bundledCandidates dirname cwd languageId ++
      localCandidates languageId ++
      altCandidates dirname cwd languageId ++
      cdnCandidates languageId ∧
    (loadViaFallback w s now (cs1 ++ c :: cs2) =
      loadViaFallback w s now (cs1 ++ [c]) ∧
     (loadViaFallback w s now (cs1 ++ c :: cs2)).1.isSome = true ∧
     (loadViaFallback w s now (cs1 ++ c :: cs2)).2.2.1 =
       cs1.map (attemptFor w) ++ [attemptFor w c]) := by
  constructor
  · simp only [getCommonLanguagePaths, bundledCandidates, localCandidates,
      altCandidates, cdnCandidates]
    rcases languageMapLookup languageId with _ | alt
    · simp
    · simp
  · exact loadViaFallback_first_success w now cs1 c cs2 hfail hsucc s

/-- C8 witness world: no local files; the network serves only one unpkg URL. -/
def c8World : FetchWorld :=
  ⟨fun _ => false, fun _ => [],
   fun u => u == "https://unpkg.com/tree-sitter-x/tree-sitter-x.wasm",
   fun _ => [7]⟩

theorem C8_resolution_order_witness :
    getCommonLanguagePaths "/app/dist" "/work" "python" =
      bundledCandidates "/app/dist" "/work" "python" ++
      localCandidates "python" ++
      altCandidates "/app/dist" "/work" "python" ++
      cdnCandidates "python" ∧
    (loadViaFallback c8World newService 0
        (["./a.wasm"] ++ "https://unpkg.com/tree-sitter-x/tree-sitter-x.wasm" ::
          ["https://unpkg.com/tree-sitter-y/tree-sitter-y.wasm"]) =
      loadViaFallback c8World newService 0
        (["./a.wasm"] ++ ["https://unpkg.com/tree-sitter-x/tree-sitter-x.wasm"]) ∧
     (loadViaFallback c8World newService 0
        (["./a.wasm"] ++ "https://unpkg.com/tree-sitter-x/tree-sitter-x.wasm" ::
          ["https://unpkg.com/tree-sitter-y/tree-sitter-y.wasm"])).1.isSome =
       true ∧
     (loadViaFallback c8World newService 0
        (["./a.wasm"] ++ "https://unpkg.com/tree-sitter-x/tree-sitter-x.wasm" ::
          ["https://unpkg.com/tree-sitter-y/tree-sitter-y.wasm"])).2.2.1 =
       ["./a.wasm"].map (attemptFor c8World) ++
         [attemptFor c8World
           "https://unpkg.com/tree-sitter-x/tree-sitter-x.wasm"]) :=
  C8_resolution_order "/app/dist" "/work" "python" c8World 0 newService
    ["./a.wasm"] "https://unpkg.com/tree-sitter-x/tree-sitter-x.wasm"
    ["https://unpkg.com/tree-sitter-y/tree-sitter-y.wasm"]
    (by intro c1 h1
        simp only [List.mem_singleton] at h1
        subst h1
        rfl)
    rfl

/-!  The dispatcher invariant used to prove the amended mutual-exclusion
claim: the dispatcher's bookkeeping (busy flags, armed timers, queue and
pending map) stays consistent with the stream of sends and responses, as
long as no timeout fires and no worker `error` event occurs. -/

/-- Dispatcher consistency relative to the event stream emitted so far. -/
structure PoolInv (s : PoolState) (evs : List PoolEvent) : Prop where
  idsNodup : ((s.workers.map WorkerInfo.id) ++ s.spawning).Nodup
  idsFresh : ∀ i ∈ (s.workers.map WorkerInfo.id) ++ s.spawning, i < s.nextWorkerId
  outFresh : ∀ i, s.nextWorkerId ≤ i → outCount evs i = 0
  busyOut : ∀ w ∈ s.workers, outCount evs w.id = (if w.busy = true then 1 else 0)
  spawnOut : ∀ i ∈ s.spawning, outCount evs i = 0
  timersNodup : (s.timers.map TimerRec.rid).Nodup
  timerPending : ∀ t ∈ s.timers, ∃ p ∈ s.pendingRequests, p.id = t.rid
  timerWorker : ∀ t ∈ s.timers, ∃ w ∈ s.workers,
    w.id = t.wid ∧ w.busy = true ∧ w.activeRequest = some t.rid
  busyTimer : ∀ w ∈ s.workers, w.busy = true →
    ∃ rid, w.activeRequest = some rid ∧ TimerRec.mk rid w.id ∈ s.timers
  idleClear : ∀ w ∈ s.workers, w.busy = false → w.activeRequest = none
  queueNodup : (s.requestQueue.map PendingReq.id).Nodup
  queuePending : ∀ q ∈ s.requestQueue, ∃ p ∈ s.pendingRequests, p.id = q.id
  queueNoTimer : ∀ q ∈ s.requestQueue, ∀ t ∈ s.timers, t.rid ≠ q.id
  shutQueue : s.isShuttingDown = true → s.requestQueue = []

theorem mem_updateWorker_of_ne {ws : List WorkerInfo} {wid : Nat}
    {f : WorkerInfo → WorkerInfo} {x : WorkerInfo} (hx : x ∈ ws)
    (hne : x.id ≠ wid) : x ∈ updateWorker ws wid f := by
  have : (if x.id = wid then f x else x) ∈ updateWorker ws wid f :=
    List.mem_map.2 ⟨x, hx, rfl⟩
  rwa [if_neg hne] at this

theorem workers_map_id_nodup {s : PoolState} {evs : List PoolEvent}
    (h : PoolInv s evs) : (s.workers.map WorkerInfo.id).Nodup :=
  h.idsNodup.of_append_left

theorem worker_id_inj {s : PoolState} {evs : List PoolEvent}
    (h : PoolInv s evs) {w1 w2 : WorkerInfo} (h1 : w1 ∈ s.workers)
    (h2 : w2 ∈ s.workers) (hid : w1.id = w2.id) : w1 = w2 :=
  List.inj_on_of_nodup_map (workers_map_id_nodup h) h1 h2 hid

theorem spawning_not_worker {s : PoolState} {evs : List PoolEvent}
    (h : PoolInv s evs) {w : WorkerInfo} (hw : w ∈ s.workers) :
    w.id ∉ s.spawning := by
  intro hsp
  have hd := List.disjoint_of_nodup_append h.idsNodup
  exact hd (List.mem_map.2 ⟨w, hw, rfl⟩) hsp

theorem outCount_append_neutral {evs evs2 : List PoolEvent}
    (h : ∀ e ∈ evs2, isNeutralEv e = true) :
    outCount (evs ++ evs2) = outCount evs := by
  simp only [outCount]
  rw [outAfter_append, outAfter_neutral _ _ h]

/-- Extending the stream by neutral events (worker terminations and spawn
starts) preserves the invariant. -/
theorem PoolInv.extendNeutral {s : PoolState} {evs evs2 : List PoolEvent}
    (h : PoolInv s evs) (hn : ∀ e ∈ evs2, isNeutralEv e = true) :
    PoolInv s (evs ++ evs2) := by
  have hout : outCount (evs ++ evs2) = outCount evs := outCount_append_neutral hn
  exact { h with
    outFresh := fun i hi => by rw [hout]; exact h.outFresh i hi
    busyOut := fun w hw => by rw [hout]; exact h.busyOut w hw
    spawnOut := fun i hi => by rw [hout]; exact h.spawnOut i hi }

/-- Extending the stream by completion events (fulfilled / rejected), which
touch no per-worker counter, preserves the invariant. -/
theorem PoolInv.extendCompletion {s : PoolState} {evs : List PoolEvent}
    (h : PoolInv s evs) (e : PoolEvent)
    (he : applyEv (outCount evs) e = outCount evs) :
    PoolInv s (evs ++ [e]) := by
  have hout : outCount (evs ++ [e]) = outCount evs := by
    rw [outCount, outAfter_append]
    show outAfter (applyEv (outCount evs) e) [] = outCount evs
    rw [outAfter]
    exact he
  exact { h with
    outFresh := fun i hi => by rw [hout]; exact h.outFresh i hi
    busyOut := fun w hw => by rw [hout]; exact h.busyOut w hw
    spawnOut := fun i hi => by rw [hout]; exact h.spawnOut i hi }

theorem applyEv_fulfilled (out : Nat → Nat) (rid : String) :
    applyEv out (PoolEvent.fulfilled rid) = out := rfl

theorem applyEv_rejected (out : Nat → Nat) (rid : String) (k : RejectKind) :
    applyEv out (PoolEvent.rejected rid k) = out := rfl

/-- The index bump does not affect any invariant field. -/
theorem PoolInv.bump {s : PoolState} {evs : List PoolEvent} (h : PoolInv s evs) :
    PoolInv (bumpIndex s) evs :=
  { idsNodup := h.idsNodup, idsFresh := h.idsFresh, outFresh := h.outFresh,
    busyOut := h.busyOut, spawnOut := h.spawnOut, timersNodup := h.timersNodup,
    timerPending := h.timerPending, timerWorker := h.timerWorker,
    busyTimer := h.busyTimer, idleClear := h.idleClear,
    queueNodup := h.queueNodup, queuePending := h.queuePending,
    queueNoTimer := h.queueNoTimer, shutQueue := h.shutQueue }

/-- Removing an idle worker from the pool preserves the invariant. -/
theorem PoolInv.removeIdle {s : PoolState} {evs : List PoolEvent}
    (h : PoolInv s evs) {wid : Nat}
    (hidle : ∀ w ∈ s.workers, w.id = wid → w.busy = false) :
    PoolInv { s with workers := removeWorker s.workers wid } evs := by
  have hsub : ∀ x ∈ removeWorker s.workers wid, x ∈ s.workers :=
    fun x hx => mem_of_mem_removeWorker hx
  refine
    { idsNodup := ?_, idsFresh := ?_, outFresh := h.outFresh,
      busyOut := fun w hw => h.busyOut w (hsub w hw),
      spawnOut := h.spawnOut, timersNodup := h.timersNodup,
      timerPending := h.timerPending, timerWorker := ?_,
      busyTimer := fun w hw hb => h.busyTimer w (hsub w hw) hb,
      idleClear := fun w hw hb => h.idleClear w (hsub w hw) hb,
      queueNodup := h.queueNodup, queuePending := h.queuePending,
      queueNoTimer := h.queueNoTimer, shutQueue := h.shutQueue }
  · exact h.idsNodup.sublist
      (((removeWorker_sublist s.workers wid).map WorkerInfo.id).append_right _)
  · intro i hi
    refine h.idsFresh i ?_
    rcases List.mem_append.1 hi with h1 | h1
    · rcases List.mem_map.1 h1 with ⟨x, hx, hxi⟩
      exact List.mem_append.2 (Or.inl (List.mem_map.2 ⟨x, hsub x hx, hxi⟩))
    · exact List.mem_append.2 (Or.inr h1)
  · intro t ht
    rcases h.timerWorker t ht with ⟨w, hw, hwid, hbusy, hact⟩
    refine ⟨w, ?_, hwid, hbusy, hact⟩
    refine mem_removeWorker_of_ne hw ?_
    intro hcon
    rw [hidle w hw hcon] at hbusy
    cases hbusy

/-- Starting a replacement spawn preserves the invariant (the new id is
fresh, so its outstanding count is zero). -/
theorem PoolInv.spawnStart {s : PoolState} {evs : List PoolEvent}
    (h : PoolInv s evs) : PoolInv (createWorkerStart s).1 evs := by
  refine
    { idsNodup := ?_, idsFresh := ?_, outFresh := ?_,
      busyOut := h.busyOut, spawnOut := ?_, timersNodup := h.timersNodup,
      timerPending := h.timerPending, timerWorker := h.timerWorker,
      busyTimer := h.busyTimer, idleClear := h.idleClear,
      queueNodup := h.queueNodup, queuePending := h.queuePending,
      queueNoTimer := h.queueNoTimer, shutQueue := h.shutQueue }
  · show ((s.workers.map WorkerInfo.id) ++ (s.spawning ++ [s.nextWorkerId])).Nodup
    rw [← List.append_assoc]
    rw [List.nodup_append]
    refine ⟨h.idsNodup, List.nodup_singleton _, ?_⟩
    intro a ha hmem
    have ha2 : a = s.nextWorkerId := List.mem_singleton.1 hmem
    subst ha2
    exact absurd (h.idsFresh _ ha) (by omega)
  · intro i hi
    show i < s.nextWorkerId + 1
    rcases List.mem_append.1 hi with h1 | h1
    · have := h.idsFresh i (List.mem_append.2 (Or.inl h1))
      omega
    · rcases List.mem_append.1 h1 with h2 | h2
      · have := h.idsFresh i (List.mem_append.2 (Or.inr h2))
        omega
      · have h3 : i = s.nextWorkerId := List.mem_singleton.1 h2
        omega
  · intro i hi
    have hi2 : s.nextWorkerId + 1 ≤ i := hi
    exact h.outFresh i (by omega)
  · intro i hi
    rcases List.mem_append.1 hi with h1 | h1
    · exact h.spawnOut i h1
    · have h2 : i = s.nextWorkerId := List.mem_singleton.1 h1
      subst h2
      exact h.outFresh _ (Nat.le_refl _)

theorem outCount_append (evs l : List PoolEvent) :
    outCount (evs ++ l) = outAfter (outCount evs) l :=
  outAfter_append _ _ _

theorem mem_clearTimersFor {ts : List TimerRec} {rid : String} {t : TimerRec} :
    t ∈ clearTimersFor ts rid ↔ t ∈ ts ∧ t.rid ≠ rid := by
  simp [clearTimersFor]

theorem clearTimersFor_sublist (ts : List TimerRec) (rid : String) :
    List.Sublist (clearTimersFor ts rid) ts :=
  List.filter_sublist _

theorem mem_removePending {ps : List PendingReq} {rid : String} {p : PendingReq} :
    p ∈ removePending ps rid ↔ p ∈ ps ∧ p.id ≠ rid := by
  simp [removePending]

/-- Armed timers have pairwise distinct request ids, so two of them agreeing
on the request id are the same timer. -/
theorem timer_rid_inj {s : PoolState} {evs : List PoolEvent} (h : PoolInv s evs)
    {t1 t2 : TimerRec} (h1 : t1 ∈ s.timers) (h2 : t2 ∈ s.timers)
    (hr : t1.rid = t2.rid) : t1 = t2 :=
  List.inj_on_of_nodup_map h.timersNodup h1 h2 hr

/-- With pairwise distinct worker ids, splicing the record with a given id out
leaves no record with that id. -/
theorem removeWorker_no_id {ws : List WorkerInfo} {wid : Nat}
    (h : (ws.map WorkerInfo.id).Nodup) :
    ∀ x ∈ removeWorker ws wid, x.id ≠ wid := by
  induction ws with
  | nil => simp [removeWorker]
  | cons w rest ih =>
    simp only [List.map_cons, List.nodup_cons] at h
    simp only [removeWorker]
    by_cases hw : w.id = wid
    · rw [if_pos hw]
      intro x hx hxid
      exact h.1 (List.mem_map.2 ⟨x, hx, by rw [hxid, hw]⟩)
    · rw [if_neg hw]
      intro x hx hxid
      rcases List.mem_cons.1 hx with rfl | h2
      · exact hw hxid
      · exact ih h.2 x h2 hxid

theorem outAfter_rejections (out : Nat → Nat) {l : List PoolEvent}
    (h : ∀ e ∈ l, ∃ r k, e = PoolEvent.rejected r k) : outAfter out l = out := by
  induction l generalizing out with
  | nil => rfl
  | cons e es ih =>
    rcases h e (List.mem_cons_self _ _) with ⟨r, k, rfl⟩
    exact ih _ fun e2 h2 => h e2 (List.mem_cons_of_mem _ h2)

theorem noSecondSendFrom_rejections (out : Nat → Nat) {l : List PoolEvent}
    (h : ∀ e ∈ l, ∃ r k, e = PoolEvent.rejected r k) :
    noSecondSendFrom out l = true := by
  induction l generalizing out with
  | nil => rfl
  | cons e es ih =>
    rcases h e (List.mem_cons_self _ _) with ⟨r, k, rfl⟩
    exact ih _ fun e2 h2 => h e2 (List.mem_cons_of_mem _ h2)

/-- Registering a fresh request in the pending map preserves the invariant. -/
theorem PoolInv.addPending {s : PoolState} {evs : List PoolEvent}
    (h : PoolInv s evs) (preq : PendingReq) :
    PoolInv { s with pendingRequests := s.pendingRequests ++ [preq] } evs :=
  { h with
    timerPending := fun t ht => by
      rcases h.timerPending t ht with ⟨p, hp, hpe⟩
      exact ⟨p, List.mem_append_left _ hp, hpe⟩
    queuePending := fun q hq => by
      rcases h.queuePending q hq with ⟨p, hp, hpe⟩
      exact ⟨p, List.mem_append_left _ hp, hpe⟩ }

/-- Dequeuing the head of the overflow queue preserves the invariant. -/
theorem PoolInv.dequeue {s : PoolState} {evs : List PoolEvent}
    (h : PoolInv s evs) {preq : PendingReq} {rest : List PendingReq}
    (hq : s.requestQueue = preq :: rest) :
    PoolInv { s with requestQueue := rest } evs := by
  refine
    { h with
      queueNodup := ?_, queuePending := ?_, queueNoTimer := ?_, shutQueue := ?_ }
  · have := h.queueNodup
    rw [hq] at this
    exact (List.nodup_cons.1 this).2
  · intro q hmem
    exact h.queuePending q (by rw [hq]; exact List.mem_cons_of_mem _ hmem)
  · intro q hmem
    exact h.queueNoTimer q (by rw [hq]; exact List.mem_cons_of_mem _ hmem)
  · intro hshut
    have := h.shutQueue hshut
    rw [hq] at this
    cases this

/-- Appending a pending, timer-free, fresh request to the overflow queue
preserves the invariant (outside shutdown). -/
theorem PoolInv.enqueue {s : PoolState} {evs : List PoolEvent}
    (h : PoolInv s evs) {preq : PendingReq}
    (hpend : ∃ p ∈ s.pendingRequests, p.id = preq.id)
    (hfresh : ∀ q ∈ s.requestQueue, q.id ≠ preq.id)
    (hnt : ∀ t ∈ s.timers, t.rid ≠ preq.id)
    (hshut : s.isShuttingDown = false) :
    PoolInv { s with requestQueue := s.requestQueue ++ [preq] } evs := by
  refine
    { h with
      queueNodup := ?_, queuePending := ?_, queueNoTimer := ?_, shutQueue := ?_ }
  · show ((s.requestQueue ++ [preq]).map PendingReq.id).Nodup
    rw [List.map_append, List.nodup_append]
    refine ⟨h.queueNodup, by simp, ?_⟩
    intro a ha hmem
    rcases List.mem_map.1 ha with ⟨q, hmemq, hqa⟩
    have ha2 : a = preq.id := by simpa using hmem
    exact hfresh q hmemq (hqa.trans ha2)
  · intro q hmem
    rcases List.mem_append.1 hmem with h1 | h1
    · exact h.queuePending q h1
    · have : q = preq := by simpa using h1
      subst this
      exact hpend
  · intro q hmem t ht
    rcases List.mem_append.1 hmem with h1 | h1
    · exact h.queueNoTimer q h1 t ht
    · have : q = preq := by simpa using h1
      subst this
      exact hnt t ht
  · intro hcon
    rw [hshut] at hcon
    cases hcon

/-- Forwarding a pending request to an idle worker preserves the invariant and
passes the second-send check: the target had no outstanding request. -/
theorem PoolInv.sendTo {s : PoolState} {evs : List PoolEvent}
    (h : PoolInv s evs) {wid : Nat} {preq : PendingReq} {w : WorkerInfo}
    (hw : w ∈ s.workers) (hid : w.id = wid) (hbusy : w.busy = false)
    (hpend : ∃ p ∈ s.pendingRequests, p.id = preq.id)
    (hnt : ∀ t ∈ s.timers, t.rid ≠ preq.id)
    (hnq : ∀ q ∈ s.requestQueue, q.id ≠ preq.id) :
    PoolInv (sendToWorker s wid preq).1 (evs ++ (sendToWorker s wid preq).2) ∧
    noSecondSendFrom (outCount evs) (sendToWorker s wid preq).2 = true := by
  have houtw : outCount evs wid = 0 := by
    have hb := h.busyOut w hw
    rw [hbusy, hid] at hb
    simpa using hb
  have hout : ∀ j, outCount (evs ++ [PoolEvent.send wid preq.id]) j =
      if j = wid then outCount evs j + 1 else outCount evs j := by
    intro j
    rw [outCount_append]
    rfl
  have hwuniq : ∀ x ∈ s.workers, x.id = wid → x = w :=
    fun x hx hxid => worker_id_inj h hx hw (by rw [hxid, hid])
  have hwidlt : wid < s.nextWorkerId := by
    have := h.idsFresh w.id
      (List.mem_append.2 (Or.inl (List.mem_map.2 ⟨w, hw, rfl⟩)))
    rw [hid] at this
    exact this
  simp only [sendToWorker]
  constructor
  · refine
      { idsNodup := ?_, idsFresh := ?_, outFresh := ?_, busyOut := ?_,
        spawnOut := ?_, timersNodup := ?_, timerPending := ?_,
        timerWorker := ?_, busyTimer := ?_, idleClear := ?_,
        queueNodup := h.queueNodup, queuePending := h.queuePending,
        queueNoTimer := ?_, shutQueue := h.shutQueue }
    · have hmapid : (updateWorker s.workers wid fun w2 => { w2 with
          busy := true, activeRequest := some preq.id,
          requestCount := w2.requestCount + 1 }).map WorkerInfo.id =
          s.workers.map WorkerInfo.id :=
        updateWorker_map_id _ _ _ fun _ => rfl
      show (((updateWorker s.workers wid _).map WorkerInfo.id) ++ s.spawning).Nodup
      rw [hmapid]
      exact h.idsNodup
    · have hmapid : (updateWorker s.workers wid fun w2 => { w2 with
          busy := true, activeRequest := some preq.id,
          requestCount := w2.requestCount + 1 }).map WorkerInfo.id =
          s.workers.map WorkerInfo.id :=
        updateWorker_map_id _ _ _ fun _ => rfl
      intro i hi
      refine h.idsFresh i ?_
      rcases List.mem_append.1 hi with h1 | h1
      · rw [hmapid] at h1
        exact List.mem_append.2 (Or.inl h1)
      · exact List.mem_append.2 (Or.inr h1)
    · intro i hi
      have hi2 : s.nextWorkerId ≤ i := hi
      show outCount (evs ++ [PoolEvent.send wid preq.id]) i = 0
      rw [hout i]
      have hne : ¬ i = wid := by omega
      rw [if_neg hne]
      exact h.outFresh i hi2
    · intro x hx
      rcases mem_updateWorker hx with ⟨w0, hw0, hx0⟩
      by_cases h0 : w0.id = wid
      · rw [if_pos h0] at hx0
        have hxid : x.id = wid := by rw [hx0]; exact h0
        have hxbusy : x.busy = true := by rw [hx0]
        rw [hxid, hxbusy, hout wid]
        simp [houtw]
      · rw [if_neg h0] at hx0
        subst hx0
        show outCount (evs ++ [PoolEvent.send wid preq.id]) x.id = _
        rw [hout x.id, if_neg h0]
        exact h.busyOut x hw0
    · intro i hi
      have hi2 : i ∈ s.spawning := hi
      show outCount (evs ++ [PoolEvent.send wid preq.id]) i = 0
      rw [hout i]
      have hne : ¬ i = wid := by
        intro hcon
        subst hcon
        rw [← hid] at hi2
        exact spawning_not_worker h hw hi2
      rw [if_neg hne]
      exact h.spawnOut i hi2
    · show ((s.timers ++ [TimerRec.mk preq.id wid]).map TimerRec.rid).Nodup
      rw [List.map_append, List.nodup_append]
      refine ⟨h.timersNodup, by simp, ?_⟩
      intro a ha hmem
      rcases List.mem_map.1 ha with ⟨t, ht, hta⟩
      have ha2 : a = preq.id := by simpa using hmem
      exact hnt t ht (hta.trans ha2)
    · intro t ht
      rcases List.mem_append.1 ht with h1 | h1
      · exact h.timerPending t h1
      · have ht2 : t = TimerRec.mk preq.id wid := by simpa using h1
        subst ht2
        exact hpend
    · intro t ht
      rcases List.mem_append.1 ht with h1 | h1
      · rcases h.timerWorker t h1 with ⟨w2, hw2, hwid2, hbusy2, hact2⟩
        have hne : w2.id ≠ wid := by
          intro hcon
          have : w2 = w := hwuniq w2 hw2 hcon
          subst this
          rw [hbusy] at hbusy2
          cases hbusy2
        exact ⟨w2, mem_updateWorker_of_ne hw2 hne, hwid2, hbusy2, hact2⟩
      · have ht2 : t = TimerRec.mk preq.id wid := by simpa using h1
        subst ht2
        have hfmem : (if w.id = wid then ({ w with
            busy := true, activeRequest := some preq.id,
            requestCount := w.requestCount + 1 } : WorkerInfo) else w) ∈
            updateWorker s.workers wid fun w2 => { w2 with
              busy := true, activeRequest := some preq.id,
              requestCount := w2.requestCount + 1 } :=
          List.mem_map.2 ⟨w, hw, rfl⟩
        rw [if_pos hid] at hfmem
        exact ⟨_, hfmem, hid, rfl, rfl⟩
    · intro x hx hxbusy
      rcases mem_updateWorker hx with ⟨w0, hw0, hx0⟩
      by_cases h0 : w0.id = wid
      · rw [if_pos h0] at hx0
        subst hx0
        refine ⟨preq.id, rfl, ?_⟩
        show TimerRec.mk preq.id w0.id ∈ s.timers ++ [TimerRec.mk preq.id wid]
        rw [h0]
        exact List.mem_append_right _ (List.mem_singleton.2 rfl)
      · rw [if_neg h0] at hx0
        subst hx0
        rcases h.busyTimer x hw0 hxbusy with ⟨rid2, hact2, htim2⟩
        exact ⟨rid2, hact2, List.mem_append_left _ htim2⟩
    · intro x hx hxbusy
      rcases mem_updateWorker hx with ⟨w0, hw0, hx0⟩
      by_cases h0 : w0.id = wid
      · rw [if_pos h0] at hx0
        subst hx0
        cases hxbusy
      · rw [if_neg h0] at hx0
        subst hx0
        exact h.idleClear x hw0 hxbusy
    · intro q hq t ht
      rcases List.mem_append.1 ht with h1 | h1
      · exact h.queueNoTimer q hq t h1
      · have ht2 : t = TimerRec.mk preq.id wid := by simpa using h1
        subst ht2
        exact fun hcon => hnq q hq hcon.symm
  · show noSecondSendFrom (outCount evs) [PoolEvent.send wid preq.id] = true
    simp only [noSecondSendFrom]
    rw [houtw]
    simp


/-- The synchronous recycle of an idle worker preserves the invariant: the
idle record is spliced out, a fresh spawn begins, and only neutral events are
emitted. -/
theorem restartWorkerSync_inv {s : PoolState} {evs : List PoolEvent}
    (h : PoolInv s evs) {wid : Nat}
    (hidle : ∀ w ∈ s.workers, w.id = wid → w.busy = false) :
    PoolInv (restartWorkerSync s wid).1 (evs ++ (restartWorkerSync s wid).2) := by
  have hn := (restartWorkerSync_frame s wid).2.2.2.2.2.1
  have hbase : PoolInv (restartWorkerSync s wid).1 evs := by
    simp only [restartWorkerSync]
    split
    · exact (h.removeIdle hidle).spawnStart
    · exact h
  exact hbase.extendNeutral hn

/-- The round-robin scan preserves the invariant: every worker it recycles is
idle, and it emits only neutral events. -/
theorem gnwLoop_inv (fuel : Nat) : ∀ (s : PoolState) (attempts : Nat)
    (evs : List PoolEvent), PoolInv s evs →
    PoolInv (getNextWorkerLoop s attempts fuel).2.1
      (evs ++ (getNextWorkerLoop s attempts fuel).2.2) := by
  induction fuel with
  | zero =>
    intro s attempts evs h
    simpa [getNextWorkerLoop] using h
  | succ fuel ih =>
    intro s attempts evs h
    by_cases hlt : attempts < s.workers.length
    · cases hidx : s.workers[s.currentWorkerIndex]? with
      | none =>
        rw [gnwLoop_eq_crash s attempts fuel hlt hidx]
        simpa using h.bump
      | some w =>
        cases hbusy : w.busy with
        | true =>
          rw [gnwLoop_eq_busy s attempts fuel w hlt hidx hbusy]
          exact ih (bumpIndex s) (attempts + 1) evs h.bump
        | false =>
          by_cases hq : s.opts.maxRequestsPerWorker ≤ w.requestCount
          · have hw : w ∈ s.workers := by
              rcases List.getElem?_eq_some.1 hidx with ⟨hlt2, hget⟩
              exact hget ▸ List.getElem_mem _
            have hidle : ∀ x ∈ (bumpIndex s).workers, x.id = w.id →
                x.busy = false := by
              intro x hx hxid
              have hxw : x = w := worker_id_inj h hx hw hxid
              rw [hxw]
              exact hbusy
            have hr := restartWorkerSync_inv h.bump hidle
            have hrec := ih (restartWorkerSync (bumpIndex s) w.id).1
              (attempts + 1) (evs ++ (restartWorkerSync (bumpIndex s) w.id).2) hr
            rw [gnwLoop_eq_recycle s attempts fuel w hlt hidx hbusy hq]
            dsimp only
            rw [← List.append_assoc]
            exact hrec
          · rw [gnwLoop_eq_found s attempts fuel w hlt hidx hbusy hq]
            simpa using h.bump
    · rw [gnwLoop_eq_stop s attempts fuel hlt]
      simpa using h

/-- `getNextWorker` preserves the invariant. -/
theorem getNextWorker_inv {s : PoolState} {evs : List PoolEvent}
    (h : PoolInv s evs) :
    PoolInv (getNextWorker s).2.1 (evs ++ (getNextWorker s).2.2) :=
  gnwLoop_inv (s.workers.length + 1) s 0 evs h

/-- The queue drain preserves the invariant and never forwards a request to a
worker with an outstanding one: each send targets a worker the scan just
reported idle, whose outstanding count the invariant pins at zero. -/
theorem pqLoop_inv (fuel : Nat) : ∀ (s : PoolState) (evs : List PoolEvent),
    PoolInv s evs →
    PoolInv (processQueueLoop s fuel).2.1
      (evs ++ (processQueueLoop s fuel).2.2) ∧
    noSecondSendFrom (outCount evs) (processQueueLoop s fuel).2.2 = true := by
  induction fuel with
  | zero =>
    intro s evs h
    exact ⟨by simpa [processQueueLoop] using h, rfl⟩
  | succ fuel ih =>
    intro s evs h
    cases hemp : s.requestQueue.isEmpty with
    | true =>
      rw [pqLoop_eq_empty s fuel hemp]
      exact ⟨by simpa using h, rfl⟩
    | false =>
      have hg := getNextWorker_inv h
      have hneu := (getNextWorker_frame s).2.2.2.2.2.1
      have houtA : outAfter (outCount evs) (getNextWorker s).2.2 =
          outCount evs := outAfter_neutral _ _ hneu
      rcases hfr : (getNextWorker s).1 with wid | _ | _
      · rcases hrq : s.requestQueue with _ | ⟨preq, rest⟩
        · rw [hrq] at hemp; simp [List.isEmpty] at hemp
        · have hq1 : (getNextWorker s).2.1.requestQueue = preq :: rest := by
            rw [(getNextWorker_frame s).2.1, hrq]
          rcases gnwLoop_found _ s 0 wid hfr with ⟨w2, hw2, hwid2, hbusy2, _⟩
          have hdq := hg.dequeue hq1
          have hmemq : preq ∈ (getNextWorker s).2.1.requestQueue := by
            rw [hq1]
            exact List.mem_cons_self _ _
          have hpend := hg.queuePending preq hmemq
          have hnt : ∀ t ∈ (getNextWorker s).2.1.timers, t.rid ≠ preq.id :=
            fun t ht => hg.queueNoTimer preq hmemq t ht
          have hnodup := hg.queueNodup
          rw [hq1] at hnodup
          have hnq : ∀ q ∈ rest, q.id ≠ preq.id := by
            intro q hmem hcon
            have h0 : (∀ x ∈ rest, ¬ x.id = preq.id) ∧
                (List.map PendingReq.id rest).Nodup := by simpa using hnodup
            exact h0.1 q hmem hcon
          have hsend := hdq.sendTo hw2 hwid2 hbusy2 hpend hnt hnq
          have hrec := ih
            (sendToWorker { (getNextWorker s).2.1 with requestQueue := rest }
              wid preq).1
            ((evs ++ (getNextWorker s).2.2) ++
              (sendToWorker { (getNextWorker s).2.1 with requestQueue := rest }
                wid preq).2) hsend.1
          rw [pqLoop_eq_found s fuel wid preq rest hemp hfr hq1]
          dsimp only
          constructor
          · rw [← List.append_assoc, ← List.append_assoc]
            exact hrec.1
          · have h2 := hsend.2
            rw [outCount_append, houtA] at h2
            have h3 := hrec.2
            rw [outCount_append, outCount_append, houtA] at h3
            rw [noSecondSendFrom_append, noSecondSendFrom_append,
              outAfter_append, houtA]
            rw [noSecondSendFrom_neutral _ _ hneu, h2, h3]
            rfl
      · rw [pqLoop_eq_exhausted s fuel hemp hfr]
        dsimp only
        exact ⟨hg, noSecondSendFrom_neutral _ _ hneu⟩
      · rw [pqLoop_eq_crashed s fuel hemp hfr]
        dsimp only
        exact ⟨hg, noSecondSendFrom_neutral _ _ hneu⟩

/-- `processQueue` preserves the invariant and passes the second-send check. -/
theorem processQueue_inv {s : PoolState} {evs : List PoolEvent}
    (h : PoolInv s evs) :
    PoolInv (processQueue s).2.1 (evs ++ (processQueue s).2.2) ∧
    noSecondSendFrom (outCount evs) (processQueue s).2.2 = true :=
  pqLoop_inv s.requestQueue.length s evs h


/-- A valid submission preserves the invariant and passes the second-send
check: if it forwards at all, the target is a worker the scan just reported
idle. -/
theorem submit_inv {s : PoolState} {evs : List PoolEvent} (h : PoolInv s evs)
    {rid : String} {now : Nat}
    (hv : actionValid s (PoolAction.submit rid now)) :
    PoolInv (executeRequest s rid now).2.1
      (evs ++ (executeRequest s rid now).2.2) ∧
    noSecondSendFrom (outCount evs) (executeRequest s rid now).2.2 = true := by
  rcases hv with ⟨-, hpfresh, hqfresh⟩
  by_cases hshut : s.isShuttingDown = true
  · simp only [executeRequest, hshut, if_true]
    exact ⟨by simpa using h, rfl⟩
  · have hshut2 : s.isShuttingDown = false := by
      rwa [Bool.not_eq_true] at hshut
    have hinv1 : PoolInv { s with pendingRequests :=
        s.pendingRequests ++ [⟨rid, now⟩] } evs := h.addPending ⟨rid, now⟩
    have hg := getNextWorker_inv hinv1
    have hneu := (getNextWorker_frame { s with pendingRequests :=
      s.pendingRequests ++ [⟨rid, now⟩] }).2.2.2.2.2.1
    have houtA : outAfter (outCount evs) (getNextWorker { s with
        pendingRequests := s.pendingRequests ++ [⟨rid, now⟩] }).2.2 =
        outCount evs := outAfter_neutral _ _ hneu
    have hnt : ∀ t ∈ (getNextWorker { s with pendingRequests :=
        s.pendingRequests ++ [⟨rid, now⟩] }).2.1.timers, t.rid ≠ rid := by
      intro t ht
      rw [(getNextWorker_frame _).2.2.1] at ht
      rcases h.timerPending t ht with ⟨p, hp, hpe⟩
      exact hpe ▸ hpfresh p hp
    have hpend : ∃ p ∈ (getNextWorker { s with pendingRequests :=
        s.pendingRequests ++ [⟨rid, now⟩] }).2.1.pendingRequests,
        p.id = (⟨rid, now⟩ : PendingReq).id := by
      rw [(getNextWorker_frame _).1]
      exact ⟨⟨rid, now⟩, List.mem_append_right _ (List.mem_singleton.2 rfl), rfl⟩
    have hnq : ∀ q ∈ (getNextWorker { s with pendingRequests :=
        s.pendingRequests ++ [⟨rid, now⟩] }).2.1.requestQueue,
        q.id ≠ (⟨rid, now⟩ : PendingReq).id := by
      intro q hmem
      rw [(getNextWorker_frame _).2.1] at hmem
      exact hqfresh q hmem
    rcases hfr : (getNextWorker { s with pendingRequests :=
        s.pendingRequests ++ [⟨rid, now⟩] }).1 with wid | _ | _
    · rcases gnwLoop_found _ _ 0 wid hfr with ⟨w2, hw2, hwid2, hbusy2, _⟩
      have hsend := hg.sendTo hw2 hwid2 hbusy2 hpend hnt hnq
      simp only [executeRequest]
      rw [if_neg hshut, hfr]
      constructor
      · rw [← List.append_assoc]
        exact hsend.1
      · have h2 := hsend.2
        rw [outCount_append, houtA] at h2
        rw [noSecondSendFrom_append, noSecondSendFrom_neutral _ _ hneu,
          houtA, h2]
        rfl
    · have hshutr : (getNextWorker { s with pendingRequests :=
          s.pendingRequests ++ [⟨rid, now⟩] }).2.1.isShuttingDown = false := by
        rw [(getNextWorker_frame _).2.2.2.1]
        exact hshut2
      have henq := hg.enqueue hpend hnq hnt hshutr
      simp only [executeRequest]
      rw [if_neg hshut, hfr]
      exact ⟨henq, noSecondSendFrom_neutral _ _ hneu⟩
    · simp only [executeRequest]
      rw [if_neg hshut, hfr]
      constructor
      · rw [← List.append_assoc]
        exact hg.extendCompletion
          (PoolEvent.rejected rid RejectKind.jsTypeError)
          (applyEv_rejected _ _ _)
      · rw [noSecondSendFrom_append, noSecondSendFrom_neutral _ _ hneu]
        simp [noSecondSendFrom]


theorem noSecondSendFrom_cons_nonsend (out : Nat → Nat) (e : PoolEvent)
    (l : List PoolEvent) (h : ∀ wid rid, e ≠ PoolEvent.send wid rid) :
    noSecondSendFrom out (e :: l) = noSecondSendFrom (applyEv out e) l := by
  cases e <;> first | rfl | exact absurd rfl (h _ _)

/-- The bookkeeping performed by the SUCCESS/ERROR listener before it drains
the queue: clearing the armed timer, deleting the pending entry and marking
the responding worker idle keeps the invariant, the `workerResponded` event
discharging the worker's outstanding request. -/
theorem respond_core_inv {s : PoolState} {evs : List PoolEvent}
    (h : PoolInv s evs) {wid : Nat} {rid : String}
    (hval : TimerRec.mk rid wid ∈ s.timers) :
    PoolInv { s with
        timers := clearTimersFor s.timers rid,
        pendingRequests := removePending s.pendingRequests rid,
        workers := updateWorker s.workers wid fun w =>
          { w with busy := false, activeRequest := none } }
      (evs ++ [PoolEvent.workerResponded wid]) := by
  rcases h.timerWorker ⟨rid, wid⟩ hval with ⟨w, hw, hwid0, hbusy, hact0⟩
  have hwid : w.id = wid := hwid0
  have hact : w.activeRequest = some rid := hact0
  have hout : ∀ j, outCount (evs ++ [PoolEvent.workerResponded wid]) j =
      if j = wid then outCount evs j - 1 else outCount evs j := by
    intro j
    rw [outCount_append]
    rfl
  have houtw : outCount evs wid = 1 := by
    have hb := h.busyOut w hw
    rw [hbusy, hwid] at hb
    simpa using hb
  have hwuniq : ∀ x ∈ s.workers, x.id = wid → x = w :=
    fun x hx hxid => worker_id_inj h hx hw (by rw [hxid, hwid])
  have hwidlt : wid < s.nextWorkerId := by
    have := h.idsFresh w.id
      (List.mem_append.2 (Or.inl (List.mem_map.2 ⟨w, hw, rfl⟩)))
    rw [hwid] at this
    exact this
  refine
    { idsNodup := ?_, idsFresh := ?_, outFresh := ?_, busyOut := ?_,
      spawnOut := ?_, timersNodup := ?_, timerPending := ?_,
      timerWorker := ?_, busyTimer := ?_, idleClear := ?_,
      queueNodup := h.queueNodup, queuePending := ?_,
      queueNoTimer := ?_, shutQueue := h.shutQueue }
  · have hmapid : (updateWorker s.workers wid fun w2 => { w2 with
        busy := false, activeRequest := none }).map WorkerInfo.id =
        s.workers.map WorkerInfo.id :=
      updateWorker_map_id _ _ _ fun _ => rfl
    show (((updateWorker s.workers wid _).map WorkerInfo.id) ++ s.spawning).Nodup
    rw [hmapid]
    exact h.idsNodup
  · have hmapid : (updateWorker s.workers wid fun w2 => { w2 with
        busy := false, activeRequest := none }).map WorkerInfo.id =
        s.workers.map WorkerInfo.id :=
      updateWorker_map_id _ _ _ fun _ => rfl
    intro i hi
    refine h.idsFresh i ?_
    rcases List.mem_append.1 hi with h1 | h1
    · rw [hmapid] at h1
      exact List.mem_append.2 (Or.inl h1)
    · exact List.mem_append.2 (Or.inr h1)
  · intro i hi
    have hi2 : s.nextWorkerId ≤ i := hi
    show outCount (evs ++ [PoolEvent.workerResponded wid]) i = 0
    rw [hout i]
    have hne : ¬ i = wid := by omega
    rw [if_neg hne]
    exact h.outFresh i hi2
  · intro x hx
    rcases mem_updateWorker hx with ⟨w0, hw0, hx0⟩
    by_cases h0 : w0.id = wid
    · rw [if_pos h0] at hx0
      have hxid : x.id = wid := by rw [hx0]; exact h0
      have hxbusy : x.busy = false := by rw [hx0]
      rw [hxid, hxbusy, hout wid]
      simp [houtw]
    · rw [if_neg h0] at hx0
      subst hx0
      show outCount (evs ++ [PoolEvent.workerResponded wid]) x.id = _
      rw [hout x.id, if_neg h0]
      exact h.busyOut x hw0
  · intro i hi
    have hi2 : i ∈ s.spawning := hi
    show outCount (evs ++ [PoolEvent.workerResponded wid]) i = 0
    rw [hout i]
    have hne : ¬ i = wid := by
      intro hcon
      subst hcon
      rw [← hwid] at hi2
      exact spawning_not_worker h hw hi2
    rw [if_neg hne]
    exact h.spawnOut i hi2
  · exact h.timersNodup.sublist ((clearTimersFor_sublist s.timers rid).map _)
  · intro t ht
    rcases mem_clearTimersFor.1 ht with ⟨ht1, ht2⟩
    rcases h.timerPending t ht1 with ⟨p, hp, hpe⟩
    refine ⟨p, mem_removePending.2 ⟨hp, ?_⟩, hpe⟩
    intro hcon
    exact ht2 (by rw [← hpe]; exact hcon)
  · intro t ht
    rcases mem_clearTimersFor.1 ht with ⟨ht1, ht2⟩
    rcases h.timerWorker t ht1 with ⟨w2, hw2, hwid2, hbusy2, hact2⟩
    have hne : w2.id ≠ wid := by
      intro hcon
      have hw2w : w2 = w := hwuniq w2 hw2 hcon
      rw [hw2w, hact] at hact2
      exact ht2 (Option.some.inj hact2).symm
    exact ⟨w2, mem_updateWorker_of_ne hw2 hne, hwid2, hbusy2, hact2⟩
  · intro x hx hxbusy
    rcases mem_updateWorker hx with ⟨w0, hw0, hx0⟩
    by_cases h0 : w0.id = wid
    · rw [if_pos h0] at hx0
      have hxb : x.busy = false := by rw [hx0]
      rw [hxb] at hxbusy
      cases hxbusy
    · rw [if_neg h0] at hx0
      subst hx0
      rcases h.busyTimer x hw0 hxbusy with ⟨rid2, hact2, htim2⟩
      refine ⟨rid2, hact2, mem_clearTimersFor.2 ⟨htim2, ?_⟩⟩
      intro hcon
      have heq := timer_rid_inj h htim2 hval hcon
      have hxid : x.id = wid := congrArg TimerRec.wid heq
      exact h0 hxid
  · intro x hx hxbusy
    rcases mem_updateWorker hx with ⟨w0, hw0, hx0⟩
    by_cases h0 : w0.id = wid
    · rw [if_pos h0] at hx0
      rw [hx0]
    · rw [if_neg h0] at hx0
      subst hx0
      exact h.idleClear x hw0 hxbusy
  · intro q hq
    rcases h.queuePending q hq with ⟨p, hp, hpe⟩
    have hne : q.id ≠ rid := Ne.symm (h.queueNoTimer q hq ⟨rid, wid⟩ hval)
    refine ⟨p, mem_removePending.2 ⟨hp, ?_⟩, hpe⟩
    rw [hpe]
    exact hne
  · intro q hq t ht
    exact h.queueNoTimer q hq t (mem_clearTimersFor.1 ht).1

/-- The SUCCESS/ERROR listener preserves the invariant and passes the
second-send check, provided the worker really is answering the request
currently forwarded to it (its timer is armed). -/
theorem respond_inv {s : PoolState} {evs : List PoolEvent} (h : PoolInv s evs)
    {wid : Nat} {rid : String} {success : Bool}
    (hval : TimerRec.mk rid wid ∈ s.timers) :
    PoolInv (handleWorkerMessage s wid rid success).1
      (evs ++ (handleWorkerMessage s wid rid success).2) ∧
    noSecondSendFrom (outCount evs)
      (handleWorkerMessage s wid rid success).2 = true := by
  rcases h.timerPending ⟨rid, wid⟩ hval with ⟨p, hp, hpe⟩
  have hsome : (findPending s.pendingRequests rid).isSome = true := by
    rw [findPending, List.find?_isSome]
    refine ⟨p, hp, ?_⟩
    have hpe2 : p.id = rid := hpe
    simp [hpe2]
  rcases Option.isSome_iff_exists.1 hsome with ⟨p2, hfind⟩
  have hD : ∀ out : Nat → Nat, applyEv out
      (if success = true then PoolEvent.fulfilled rid
       else PoolEvent.rejected rid RejectKind.workerError) = out := by
    cases success
    · intro out
      rfl
    · intro out
      rfl
  have hDn : ∀ wid2 rid2, (if success = true then PoolEvent.fulfilled rid
      else PoolEvent.rejected rid RejectKind.workerError) ≠
      PoolEvent.send wid2 rid2 := by
    cases success
    · intro a b hcon
      simp at hcon
    · intro a b hcon
      simp at hcon
  have h1 := (respond_core_inv h hval).extendCompletion
    (if success = true then PoolEvent.fulfilled rid
     else PoolEvent.rejected rid RejectKind.workerError) (hD _)
  have h2 := processQueue_inv h1
  simp only [handleWorkerMessage, hfind]
  constructor
  · have h3 := h2.1
    rw [List.append_assoc, List.append_assoc, List.singleton_append,
      List.singleton_append] at h3
    exact h3
  · rw [noSecondSendFrom_cons_nonsend _ _ _ (by intro a b hcon; cases hcon)]
    rw [noSecondSendFrom_cons_nonsend _ _ _ hDn]
    have h3 := h2.2
    rw [outCount_append, outCount_append] at h3
    exact h3


/-- The `exit` listener preserves the invariant and emits no sends.  Because
the source tests membership after the splice already removed the record, no
replacement spawn ever happens here; the spliced worker's bound request (if
any) is rejected once and its timer cleared. -/
theorem exit_inv {s : PoolState} {evs : List PoolEvent} (h : PoolInv s evs)
    (wid : Nat) :
    PoolInv (workerExitStep s wid).1 (evs ++ (workerExitStep s wid).2) ∧
    noSecondSendFrom (outCount evs) (workerExitStep s wid).2 = true := by
  have hnomem : ∀ x ∈ removeWorker s.workers wid, x.id ≠ wid :=
    removeWorker_no_id (workers_map_id_nodup h)
  have hany : (removeWorker s.workers wid).any (fun w => w.id == wid) =
      false := by
    rw [List.any_eq_false]
    intro x hx
    simpa using hnomem x hx
  cases hfindw : s.workers.find? (fun w => w.id == wid) with
  | none =>
    have hidle : ∀ x ∈ s.workers, x.id = wid → x.busy = false := by
      intro x hx hxid
      have := List.find?_eq_none.1 hfindw x hx
      simp [hxid] at this
    simp only [workerExitStep, hfindw, hany, Bool.and_false,
      Bool.false_eq_true, if_false]
    exact ⟨by simpa using h.removeIdle hidle, rfl⟩
  | some w =>
    have hw : w ∈ s.workers := List.mem_of_find?_eq_some hfindw
    have hwid : w.id = wid := by simpa using List.find?_some hfindw
    have hwuniq : ∀ x ∈ s.workers, x.id = wid → x = w :=
      fun x hx hxid => worker_id_inj h hx hw (by rw [hxid, hwid])
    cases hactive : w.activeRequest with
    | none =>
      have hidle : ∀ x ∈ s.workers, x.id = wid → x.busy = false := by
        intro x hx hxid
        have hxw : x = w := hwuniq x hx hxid
        subst hxw
        cases hxbusy : x.busy with
        | false => rfl
        | true =>
          rcases h.busyTimer x hx hxbusy with ⟨rid2, hact2, -⟩
          rw [hactive] at hact2
          cases hact2
      simp only [workerExitStep, hfindw, hactive, hany, Bool.and_false,
        Bool.false_eq_true, if_false]
      exact ⟨by simpa using h.removeIdle hidle, rfl⟩
    | some rid =>
      have hbusy : w.busy = true := by
        cases hb : w.busy with
        | true => rfl
        | false =>
          have := h.idleClear w hw hb
          rw [hactive] at this
          cases this
      rcases h.busyTimer w hw hbusy with ⟨rid2, hact2, htim2⟩
      rw [hactive] at hact2
      have hrid : rid = rid2 := Option.some.inj hact2
      subst hrid
      rw [hwid] at htim2
      rcases h.timerPending ⟨rid, wid⟩ htim2 with ⟨p, hp, hpe⟩
      have hsome : (findPending s.pendingRequests rid).isSome = true := by
        rw [findPending, List.find?_isSome]
        refine ⟨p, hp, ?_⟩
        have hpe2 : p.id = rid := hpe
        simp [hpe2]
      rcases Option.isSome_iff_exists.1 hsome with ⟨p2, hfindp⟩
      have hcore : PoolInv { s with
          workers := removeWorker s.workers wid,
          pendingRequests := removePending s.pendingRequests rid,
          timers := clearTimersFor s.timers rid } evs := by
        refine
          { idsNodup := ?_, idsFresh := ?_, outFresh := h.outFresh,
            busyOut := ?_, spawnOut := h.spawnOut, timersNodup := ?_,
            timerPending := ?_, timerWorker := ?_, busyTimer := ?_,
            idleClear := ?_, queueNodup := h.queueNodup, queuePending := ?_,
            queueNoTimer := ?_, shutQueue := h.shutQueue }
        · exact h.idsNodup.sublist
            (((removeWorker_sublist s.workers wid).map WorkerInfo.id).append_right _)
        · intro i hi
          refine h.idsFresh i ?_
          rcases List.mem_append.1 hi with h1 | h1
          · rcases List.mem_map.1 h1 with ⟨x, hx, hxi⟩
            exact List.mem_append.2
              (Or.inl (List.mem_map.2 ⟨x, mem_of_mem_removeWorker hx, hxi⟩))
          · exact List.mem_append.2 (Or.inr h1)
        · intro x hx
          exact h.busyOut x (mem_of_mem_removeWorker hx)
        · exact h.timersNodup.sublist ((clearTimersFor_sublist s.timers rid).map _)
        · intro t ht
          rcases mem_clearTimersFor.1 ht with ⟨ht1, ht2⟩
          rcases h.timerPending t ht1 with ⟨q, hq, hqe⟩
          refine ⟨q, mem_removePending.2 ⟨hq, ?_⟩, hqe⟩
          intro hcon
          exact ht2 (by rw [← hqe]; exact hcon)
        · intro t ht
          rcases mem_clearTimersFor.1 ht with ⟨ht1, ht2⟩
          rcases h.timerWorker t ht1 with ⟨w2, hw2, hwid2, hbusy2, hact3⟩
          have hne : w2.id ≠ wid := by
            intro hcon
            have hw2w : w2 = w := hwuniq w2 hw2 hcon
            rw [hw2w, hactive] at hact3
            exact ht2 (Option.some.inj hact3).symm
          exact ⟨w2, mem_removeWorker_of_ne hw2 hne, hwid2, hbusy2, hact3⟩
        · intro x hx hxbusy
          rcases h.busyTimer x (mem_of_mem_removeWorker hx) hxbusy with
            ⟨rid3, hact3, htim3⟩
          refine ⟨rid3, hact3, mem_clearTimersFor.2 ⟨htim3, ?_⟩⟩
          intro hcon
          have heq := timer_rid_inj h htim3 htim2 hcon
          have hxid : x.id = wid := congrArg TimerRec.wid heq
          exact hnomem x hx hxid
        · intro x hx hxb
          exact h.idleClear x (mem_of_mem_removeWorker hx) hxb
        · intro q hq
          rcases h.queuePending q hq with ⟨q2, hq2, hq2e⟩
          have hne : q.id ≠ rid := Ne.symm (h.queueNoTimer q hq ⟨rid, wid⟩ htim2)
          refine ⟨q2, mem_removePending.2 ⟨hq2, ?_⟩, hq2e⟩
          rw [hq2e]
          exact hne
        · intro q hq t ht
          exact h.queueNoTimer q hq t (mem_clearTimersFor.1 ht).1
      simp only [workerExitStep, hfindw, hactive, hfindp, hany, Bool.and_false,
        Bool.false_eq_true, if_false]
      refine ⟨?_, ?_⟩
      · exact hcore.extendCompletion (PoolEvent.rejected rid RejectKind.crashed)
          (applyEv_rejected _ _ _)
      · rfl


/-- A spawned worker's READY message preserves the invariant: the fresh
record is idle and its id moves from `spawning` into the pool. -/
theorem ready_inv {s : PoolState} {evs : List PoolEvent} (h : PoolInv s evs)
    {wid : Nat} {now : Nat} (hv : wid ∈ s.spawning) :
    PoolInv (workerReadyStep s wid now).1
      (evs ++ (workerReadyStep s wid now).2) ∧
    noSecondSendFrom (outCount evs) (workerReadyStep s wid now).2 = true := by
  have hc : s.spawning.contains wid = true := by
    rw [List.contains_eq_any_beq, List.any_eq_true]
    exact ⟨wid, hv, by simp⟩
  simp only [workerReadyStep, hc, if_true]
  refine ⟨?_, rfl⟩
  have hres : PoolInv { s with
      spawning := s.spawning.erase wid,
      workers := s.workers ++ [⟨wid, false, none, 0, 0, none, now⟩] } evs := by
    refine
      { idsNodup := ?_, idsFresh := ?_, outFresh := h.outFresh,
        busyOut := ?_, spawnOut := ?_, timersNodup := h.timersNodup,
        timerPending := h.timerPending, timerWorker := ?_, busyTimer := ?_,
        idleClear := ?_, queueNodup := h.queueNodup,
        queuePending := h.queuePending, queueNoTimer := h.queueNoTimer,
        shutQueue := h.shutQueue }
    · have hperm : List.Perm s.spawning (wid :: s.spawning.erase wid) :=
        List.perm_cons_erase hv
      have h2 : (s.workers.map WorkerInfo.id ++ s.spawning).Nodup := h.idsNodup
      have h3 : (s.workers.map WorkerInfo.id ++
          (wid :: s.spawning.erase wid)).Nodup :=
        ((List.Perm.append_left (s.workers.map WorkerInfo.id) hperm).nodup_iff).1 h2
      show (((s.workers ++ [(⟨wid, false, none, 0, 0, none, now⟩ : WorkerInfo)]).map
        WorkerInfo.id) ++ s.spawning.erase wid).Nodup
      rw [List.map_append, List.append_assoc]
      simpa using h3
    · intro i hi
      rcases List.mem_append.1 hi with h1 | h1
      · rw [List.map_append] at h1
        rcases List.mem_append.1 h1 with h2 | h2
        · exact h.idsFresh i (List.mem_append.2 (Or.inl h2))
        · have hiw : i = wid := by simpa using h2
          subst hiw
          exact h.idsFresh i (List.mem_append.2 (Or.inr hv))
      · exact h.idsFresh i
          (List.mem_append.2 (Or.inr (List.mem_of_mem_erase h1)))
    · intro x hx
      rcases List.mem_append.1 hx with h1 | h1
      · exact h.busyOut x h1
      · have hxw : x = ⟨wid, false, none, 0, 0, none, now⟩ := by simpa using h1
        subst hxw
        simpa using h.spawnOut wid hv
    · intro i hi
      exact h.spawnOut i (List.mem_of_mem_erase hi)
    · intro t ht
      rcases h.timerWorker t ht with ⟨w2, hw2, hwid2, hbusy2, hact2⟩
      exact ⟨w2, List.mem_append_left _ hw2, hwid2, hbusy2, hact2⟩
    · intro x hx hxbusy
      rcases List.mem_append.1 hx with h1 | h1
      · exact h.busyTimer x h1 hxbusy
      · have hxw : x = ⟨wid, false, none, 0, 0, none, now⟩ := by simpa using h1
        rw [hxw] at hxbusy
        cases hxbusy
    · intro x hx hxb
      rcases List.mem_append.1 hx with h1 | h1
      · exact h.idleClear x h1 hxb
      · have hxw : x = ⟨wid, false, none, 0, 0, none, now⟩ := by simpa using h1
        rw [hxw]
  simpa using hres

/-- The opening, synchronous half of `shutdown` preserves the invariant: the
queued requests are rejected (they had no armed timers) and the queue is
emptied while the flag is raised. -/
theorem shutdownBegin_inv {s : PoolState} {evs : List PoolEvent}
    (h : PoolInv s evs) :
    PoolInv (shutdownBeginStep s).1 (evs ++ (shutdownBeginStep s).2) ∧
    noSecondSendFrom (outCount evs) (shutdownBeginStep s).2 = true := by
  have hrej : ∀ e ∈ (s.requestQueue.map fun q =>
      PoolEvent.rejected q.id RejectKind.shuttingDown), ∃ r k,
      e = PoolEvent.rejected r k := by
    intro e he
    rcases List.mem_map.1 he with ⟨q, _, hqe⟩
    exact ⟨q.id, RejectKind.shuttingDown, hqe.symm⟩
  have hout : ∀ j, outCount (evs ++ (s.requestQueue.map fun q =>
      PoolEvent.rejected q.id RejectKind.shuttingDown)) j = outCount evs j := by
    intro j
    rw [outCount_append, outAfter_rejections _ hrej]
  have htf : (s.timers.filter fun t =>
      !(s.requestQueue.any fun q => q.id == t.rid)) = s.timers := by
    rw [List.filter_eq_self]
    intro t ht
    rw [Bool.not_eq_true', List.any_eq_false]
    intro q hmem
    have hne := h.queueNoTimer q hmem t ht
    exact fun hcon => hne (eq_of_beq hcon).symm
  simp only [shutdownBeginStep]
  rw [htf]
  refine ⟨?_, noSecondSendFrom_rejections _ hrej⟩
  refine
    { idsNodup := h.idsNodup, idsFresh := h.idsFresh,
      outFresh := fun i hi => by rw [hout i]; exact h.outFresh i hi,
      busyOut := fun w hw => by rw [hout w.id]; exact h.busyOut w hw,
      spawnOut := fun i hi => by rw [hout i]; exact h.spawnOut i hi,
      timersNodup := h.timersNodup, timerPending := h.timerPending,
      timerWorker := h.timerWorker, busyTimer := h.busyTimer,
      idleClear := h.idleClear, queueNodup := List.nodup_nil,
      queuePending := fun q hq => (nomatch hq),
      queueNoTimer := fun q hq => (nomatch hq),
      shutQueue := fun _ => rfl }

/-- The closing sweep of `shutdown` preserves the invariant: every pending
request is rejected, every timer was bound to a pending request and is
cleared, and the (terminated) workers leave the pool. -/
theorem shutdownFinish_inv {s : PoolState} {evs : List PoolEvent}
    (h : PoolInv s evs) (hv : s.isShuttingDown = true) :
    PoolInv (shutdownFinishStep s).1 (evs ++ (shutdownFinishStep s).2) ∧
    noSecondSendFrom (outCount evs) (shutdownFinishStep s).2 = true := by
  have hq : s.requestQueue = [] := h.shutQueue hv
  have hrej : ∀ e ∈ (s.pendingRequests.map fun p =>
      PoolEvent.rejected p.id RejectKind.shutDown), ∃ r k,
      e = PoolEvent.rejected r k := by
    intro e he
    rcases List.mem_map.1 he with ⟨p, _, hpe⟩
    exact ⟨p.id, RejectKind.shutDown, hpe.symm⟩
  have hneu : ∀ e ∈ (s.workers.map fun w => PoolEvent.terminated w.id),
      isNeutralEv e = true := by
    intro e he
    rcases List.mem_map.1 he with ⟨w, _, hwe⟩
    rw [← hwe]
    rfl
  have hout : ∀ j, outCount (evs ++
      ((s.pendingRequests.map fun p =>
        PoolEvent.rejected p.id RejectKind.shutDown) ++
       (s.workers.map fun w => PoolEvent.terminated w.id))) j =
      outCount evs j := by
    intro j
    rw [outCount_append, outAfter_append, outAfter_rejections _ hrej,
      outAfter_neutral _ _ hneu]
  have htf : (s.timers.filter fun t =>
      !(s.pendingRequests.any fun p => p.id == t.rid)) = [] := by
    rw [List.filter_eq_nil_iff]
    intro t ht
    rcases h.timerPending t ht with ⟨p, hp, hpe⟩
    have hany : (s.pendingRequests.any fun p2 => p2.id == t.rid) = true := by
      rw [List.any_eq_true]
      exact ⟨p, hp, by simp [hpe]⟩
    simp [hany]
  simp only [shutdownFinishStep]
  rw [htf]
  constructor
  · refine
      { idsNodup := ?_, idsFresh := ?_,
        outFresh := fun i hi => by rw [hout i]; exact h.outFresh i hi,
        busyOut := fun x hx => (nomatch hx),
        spawnOut := fun i hi => by rw [hout i]; exact h.spawnOut i hi,
        timersNodup := List.nodup_nil,
        timerPending := fun t ht => (nomatch ht),
        timerWorker := fun t ht => (nomatch ht),
        busyTimer := fun x hx => (nomatch hx),
        idleClear := fun x hx => (nomatch hx),
        queueNodup := h.queueNodup,
        queuePending := ?_,
        queueNoTimer := fun q hmem t ht => (nomatch ht),
        shutQueue := fun _ => hq }
    · exact List.Nodup.of_append_right h.idsNodup
    · intro i hi
      have hi2 : i ∈ s.spawning := hi
      exact h.idsFresh i (List.mem_append.2 (Or.inr hi2))
    · intro q hmem
      have hmem2 : q ∈ s.requestQueue := hmem
      rw [hq] at hmem2
      exact nomatch hmem2
  · rw [noSecondSendFrom_append, noSecondSendFrom_rejections _ hrej,
      noSecondSendFrom_neutral _ _ hneu]
    rfl


/-- One valid callback that is neither a timeout expiry nor a worker `error`
event preserves the invariant and adds no second send. -/
theorem poolStep_safe_inv {s : PoolState} {evs : List PoolEvent}
    {a : PoolAction} (h : PoolInv s evs) (hs : safeAction s a) :
    PoolInv (poolStep s a).1 (evs ++ (poolStep s a).2) ∧
    noSecondSendFrom (outCount evs) (poolStep s a).2 = true := by
  rcases hs with ⟨hv, hc⟩
  cases a with
  | submit rid now => exact submit_inv h hv
  | respond wid rid success => exact respond_inv h hv
  | timerFires t => simp [clearsWithoutResponse] at hc
  | workerExit wid => exact exit_inv h wid
  | workerError wid msg => simp [clearsWithoutResponse] at hc
  | workerReady wid now => exact ready_inv h hv
  | shutdownBegin => exact shutdownBegin_inv h
  | shutdownFinish => exact shutdownFinish_inv h hv

/-- A whole safe trace preserves the invariant, and its emitted event stream
passes the second-send check from the invariant's counters. -/
theorem execTrace_safe_inv {s : PoolState} {as : List PoolAction}
    (hst : SafeTrace s as) : ∀ (evs : List PoolEvent), PoolInv s evs →
    PoolInv (execTrace s as).1 (evs ++ (execTrace s as).2) ∧
    noSecondSendFrom (outCount evs) (execTrace s as).2 = true := by
  induction hst with
  | nil s =>
    intro evs h
    exact ⟨by simpa [execTrace] using h, rfl⟩
  | cons s a as hsa _hst ih =>
    intro evs h
    have h1 := poolStep_safe_inv h hsa
    have h2 := ih (evs ++ (poolStep s a).2) h1.1
    simp only [execTrace]
    constructor
    · rw [← List.append_assoc]
      exact h2.1
    · rw [noSecondSendFrom_append, h1.2]
      have h3 := h2.2
      rw [outCount_append] at h3
      rw [h3]
      rfl

/-- A freshly initialized pool satisfies the invariant against the empty
event stream. -/
theorem initPool_inv (n : Nat) (opts : WorkerPoolOptions) :
    PoolInv (initPool n opts) [] := by
  have hmap : ((List.range n).map fun i =>
      (⟨i, false, none, 0, 0, none, 0⟩ : WorkerInfo)).map WorkerInfo.id =
      List.range n := by
    rw [List.map_map]
    have hco : (WorkerInfo.id ∘ fun i =>
        (⟨i, false, none, 0, 0, none, 0⟩ : WorkerInfo)) = fun i => i := rfl
    rw [hco]
    exact List.map_id' _
  refine
    { idsNodup := ?_, idsFresh := ?_, outFresh := fun i _ => rfl,
      busyOut := ?_, spawnOut := fun i hi => (nomatch hi),
      timersNodup := List.nodup_nil,
      timerPending := fun t ht => (nomatch ht),
      timerWorker := fun t ht => (nomatch ht),
      busyTimer := ?_, idleClear := ?_,
      queueNodup := List.nodup_nil,
      queuePending := fun q hq => (nomatch hq),
      queueNoTimer := fun q hq => (nomatch hq),
      shutQueue := fun hcon => (nomatch hcon) }
  · show ((((List.range n).map fun i =>
      (⟨i, false, none, 0, 0, none, 0⟩ : WorkerInfo)).map WorkerInfo.id) ++
      ([] : List Nat)).Nodup
    rw [List.append_nil, hmap]
    exact List.nodup_range n
  · intro i hi
    have hi2 : i ∈ (((List.range n).map fun i =>
        (⟨i, false, none, 0, 0, none, 0⟩ : WorkerInfo)).map WorkerInfo.id) ++
        ([] : List Nat) := hi
    rw [List.append_nil, hmap] at hi2
    exact List.mem_range.1 hi2
  · intro w hw
    rcases List.mem_map.1 hw with ⟨i, -, hwi⟩
    rw [← hwi]
    rfl
  · intro w hw hb
    rcases List.mem_map.1 hw with ⟨i, -, hwi⟩
    rw [← hwi] at hb
    cases hb
  · intro w hw hb
    rcases List.mem_map.1 hw with ⟨i, -, hwi⟩
    rw [← hwi]

/-- C5 (amended): the dispatcher never forwards a request to an Execution
Unit that still has an outstanding (unanswered) forwarded request, provided
no request timeout fires and no worker-level `error` event occurs during the
run: over every safe trace of valid callbacks from a consistent dispatcher
state, the emitted event stream passes the second-send check. -/
theorem C5_no_second_send (s : PoolState) (as : List PoolAction)
    (hinv : PoolInv s []) (hst : SafeTrace s as) :
    noSecondSend (execTrace s as).2 = true :=
  (execTrace_safe_inv hst [] hinv).2

/-- C5 witness: a fresh two-worker pool accepting two submissions and one
response runs a safe trace whose event stream passes the second-send
check. -/
theorem C5_no_second_send_witness :
    noSecondSend (execTrace (initPool 2 optsNoRestart)
      [PoolAction.submit "r0" 0, PoolAction.submit "r1" 0,
       PoolAction.respond 0 "r0" true]).2 = true := by
  refine C5_no_second_send _ _ (initPool_inv 2 optsNoRestart) ?_
  refine SafeTrace.cons _ _ _ ⟨⟨Or.inr (by decide), by decide, by decide⟩, rfl⟩ ?_
  refine SafeTrace.cons _ _ _ ⟨⟨Or.inr (by decide), by decide, by decide⟩, rfl⟩ ?_
  refine SafeTrace.cons _ _ _
    ⟨show TimerRec.mk "r0" 0 ∈ _ from by decide, rfl⟩ ?_
  exact SafeTrace.nil _


end TsMcp
